import Mathlib

/-!
# ST7789 display driver (`src/src/LCD_ST7789.c`): windowed pixel streaming

Shallow embedding of the drawing core of the driver.  Every function of the
C source that talks to the panel is modelled by the list of transport events
it produces, in order: writes to the command/data select pin and SPI sends.

Machine integers: `u8`/`u16`/`u32` values are natural numbers, reduced
modulo `2^8`, `2^16`, `2^32` at the places where the C code stores into a
variable of that width.  `int` variables are integers.
-/

namespace ST7789

/-! ## Transport -/

/-- One transport event: `rt_pin_write(LCD_DC_PIN, level)` or
`rt_spi_send(lcd_dev, buf, len)` carrying the bytes `buf[0..len)`. -/
inductive Event where
  | dc (high : Bool)
  | spi (bytes : List Nat)
deriving DecidableEq, Repr

/-- A transfer as the panel sees it: the bytes of one SPI send tagged with
the level the select line had while they were sent. -/
inductive Msg where
  | command (bytes : List Nat)
  | data (bytes : List Nat)
deriving DecidableEq, Repr

/-- Tags every SPI send of a trace with the level of the select line;
`high` is the level of the line before the first event. -/
def transfers : Bool → List Event → List Msg
  | _, [] => []
  | _, Event.dc h :: es => transfers h es
  | true, Event.spi bs :: es => Msg.data bs :: transfers true es
  | false, Event.spi bs :: es => Msg.command bs :: transfers false es

/-- The `_lcd_dev` record `lcddev` of `LCD_ST7789.h`. -/
structure LcdDev where
  width : Nat
  height : Nat
  dir : Nat
  wramcmd : Nat
  setxcmd : Nat
  setycmd : Nat
deriving DecidableEq, Repr

/-- Conversion of an `int` value to `uint16_t`. -/
def toU16 (v : Int) : Nat := (v % 65536).toNat

/-- The byte stored by `buf[k] = v >> 8` for a 16-bit `v` (`uint8_t` store). -/
def hiByte (v : Nat) : Nat := (v >>> 8) % 256

/-- The byte stored by `buf[k] = v & 0xFF`. -/
def loByte (v : Nat) : Nat := v &&& 0xFF

/-- `LCD_BATCH_BUFFER_SIZE`, the byte capacity of `batch_buffer`. -/
def LCD_BATCH_BUFFER_SIZE : Nat := 20480

/-- `LCD_WR_REG`: select line low, one command byte, select line high. -/
def LCD_WR_REG (reg : Nat) : List Event :=
  [Event.dc false, Event.spi [reg], Event.dc true]

/-- `LCD_WR_DATA`: select line high, one data byte. -/
def LCD_WR_DATA (data : Nat) : List Event :=
  [Event.dc true, Event.spi [data % 256]]

/-- `LCD_WR_DATA_16BIT`: select line high, the two bytes of `data`, high
byte first. -/
def LCD_WR_DATA_16BIT (data : Nat) : List Event :=
  [Event.dc true, Event.spi [hiByte data, loByte data]]

/-- `LCD_WriteRAM`. -/
def LCD_WriteRAM (RGB_Code : Nat) : List Event := LCD_WR_DATA_16BIT RGB_Code

/-- `LCD_WriteRAM_Prepare`. -/
def LCD_WriteRAM_Prepare (dev : LcdDev) : List Event := LCD_WR_REG dev.wramcmd

/-- `LCD_SetCursor`: both coordinate buffers hold the position twice. -/
def LCD_SetCursor (dev : LcdDev) (Xpos Ypos : Nat) : List Event :=
  LCD_WR_REG dev.setxcmd ++
  [Event.dc true, Event.spi [hiByte Xpos, loByte Xpos, hiByte Xpos, loByte Xpos]] ++
  LCD_WR_REG dev.setycmd ++
  [Event.dc true, Event.spi [hiByte Ypos, loByte Ypos, hiByte Ypos, loByte Ypos]]

/-- `LCD_SetWindows`: `ex` and `ey` are `uint16_t`, computed in `int`
arithmetic and truncated on the store. -/
def LCD_SetWindows (dev : LcdDev) (sx sy width height : Nat) : List Event :=
  let ex := toU16 ((sx : Int) + width - 1)
  let ey := toU16 ((sy : Int) + height - 1)
  LCD_WR_REG dev.setxcmd ++
  [Event.dc true, Event.spi [hiByte sx, loByte sx, hiByte ex, loByte ex]] ++
  LCD_WR_REG dev.setycmd ++
  [Event.dc true, Event.spi [hiByte sy, loByte sy, hiByte ey, loByte ey]]

/-- `LCD_DrawPoint`. -/
def LCD_DrawPoint (dev : LcdDev) (x y color : Nat) : List Event :=
  LCD_SetCursor dev x y ++ LCD_WriteRAM_Prepare dev ++ LCD_WriteRAM color

/-- The pre-fill loop of `LCD_Fill`, `for (i = 0; i < batch_size; i++)`:
iteration `i` stores the colour's high byte in slot `2i` and its low byte in
slot `2i+1`.  `prefill color n` is the content of the first `2n` slots
after `n` iterations. -/
def prefill (color : Nat) : Nat → List Nat
  | 0 => []
  | n + 1 => hiByte color :: loByte color :: prefill color n

/-- The send loop of `LCD_Fill`, `for (i = 0; i < total; i += batch_size)`
with `u32` counters; each iteration sends the first `current_batch * 2`
bytes of the buffer.  The first argument bounds the number of iterations
that are unfolded. -/
def sendBatches (buf : List Nat) (total batch_size : Nat) : Nat → Nat → List Event
  | 0, _ => []
  | fuel + 1, i =>
    if i < total then
      let current_batch :=
        if (i + batch_size) % 2 ^ 32 > total then (total - i) % 2 ^ 32 else batch_size
      Event.spi (buf.take (current_batch * 2)) ::
        sendBatches buf total batch_size fuel ((i + batch_size) % 2 ^ 32)
    else []

/-- Width and height that `LCD_Fill` computes: `u16 width = ex - sx + 1`. -/
def spanU16 (s e : Nat) : Nat := toU16 ((e : Int) - s + 1)

/-- `LCD_Fill`.  `total = width * height` is a `u32`; the product of the
two `u16` values is formed in `int` and is taken here modulo `2^32` (it is
below `2^32`, so the reduction changes nothing).  The send loop advances `i`
by `batch_size >= 1` per iteration, so it makes at most `total`
iterations. -/
def LCD_Fill (dev : LcdDev) (sx sy ex ey color : Nat) : List Event :=
  let width := spanU16 sx ex
  let height := spanU16 sy ey
  let total := (width * height) % 2 ^ 32
  let batch_size := LCD_BATCH_BUFFER_SIZE / 2
  LCD_SetWindows dev sx sy width height ++
  LCD_WriteRAM_Prepare dev ++
  [Event.dc true] ++
  sendBatches (prefill color batch_size) total batch_size total 0

/-! ## The panel

The device side of the transport, following the addressing protocol of the
specification: a column-range command followed by four parameter bytes
(start high, start low, end high, end low), a row-range command likewise, and
a RAM-write command that starts a pixel stream of two bytes per pixel, high
byte first.  Pixel `k` of a stream lands at
`(startX + k mod width, startY + k div width)`, where `width` is the width of
the addressing window. -/

/-- State of the panel: level of the select line, the command being
served, the parameter bytes received for it so far, the addressing window,
the number of pixels written since the RAM-write command and the log of all
pixel writes `((x, y), colour)`, oldest first. -/
structure Panel where
  dcHigh : Bool
  reg : Nat
  args : List Nat
  xs : Nat
  xe : Nat
  ys : Nat
  ye : Nat
  count : Nat
  fb : List ((Nat × Nat) × Nat)
deriving DecidableEq, Repr

/-- Column-address-set command of the ST7789. -/
def CASET : Nat := 0x2A

/-- Row-address-set command of the ST7789. -/
def RASET : Nat := 0x2B

/-- Memory-write command of the ST7789. -/
def RAMWR : Nat := 0x2C

/-- Position at which pixel `k` of a stream lands for a window that starts
at `(xs, ys)` and ends in column `xe`. -/
def landing (xs xe ys k : Nat) : Nat × Nat :=
  (xs + k % (xe + 1 - xs), ys + k / (xe + 1 - xs))

/-- The panel receives one byte. -/
def Panel.byte (p : Panel) (b : Nat) : Panel :=
  if p.dcHigh = false then
    { p with reg := b, args := [], count := 0 }
  else if p.reg = CASET then
    match p.args with
    | [s1, s0, e1] => { p with args := [], xs := s1 * 256 + s0, xe := e1 * 256 + b }
    | a => { p with args := a ++ [b] }
  else if p.reg = RASET then
    match p.args with
    | [s1, s0, e1] => { p with args := [], ys := s1 * 256 + s0, ye := e1 * 256 + b }
    | a => { p with args := a ++ [b] }
  else if p.reg = RAMWR then
    match p.args with
    | [h] =>
      { p with args := [], count := p.count + 1,
               fb := p.fb ++ [(landing p.xs p.xe p.ys p.count, h * 256 + b)] }
    | _ => { p with args := [b] }
  else p

/-- The panel observes one transport event. -/
def Panel.step (p : Panel) : Event → Panel
  | Event.dc h => { p with dcHigh := h }
  | Event.spi bs => bs.foldl Panel.byte p

/-- The panel observes a trace. -/
def Panel.run (p : Panel) (tr : List Event) : Panel := tr.foldl Panel.step p

/-- The command codes stored in `lcddev` by `LCD_Display_Dir`. -/
def LcdDev.Configured (dev : LcdDev) : Prop :=
  dev.wramcmd = RAMWR ∧ dev.setxcmd = CASET ∧ dev.setycmd = RASET

instance (dev : LcdDev) : Decidable dev.Configured := by
  unfold LcdDev.Configured; infer_instance

/-- A panel after reset: select line high, no command served, empty
window, nothing written. -/
def Panel.idle : Panel :=
  { dcHigh := true, reg := 0, args := [], xs := 0, xe := 0, ys := 0, ye := 0,
    count := 0, fb := [] }

/-- The positions a trace writes on a panel that starts idle, in order. -/
def painted (tr : List Event) : List (Nat × Nat) :=
  (Panel.run Panel.idle tr).fb.map Prod.fst

/-! ## Drawing calls -/

/-- A call of one of the two drawing primitives through which the point,
line and circle routines reach the panel. -/
inductive Op where
  | fill (sx sy ex ey color : Nat)
  | point (x y color : Nat)
deriving DecidableEq, Repr

/-- The transport events of one primitive call. -/
def Op.emit (dev : LcdDev) : Op → List Event
  | Op.fill sx sy ex ey color => LCD_Fill dev sx sy ex ey color
  | Op.point x y color => LCD_DrawPoint dev x y color

/-- The transport events of a sequence of primitive calls. -/
def emitAll (dev : LcdDev) (ops : List Op) : List Event :=
  ops.flatMap (Op.emit dev)

/-- A point `(x, y)`. -/
abbrev Pt := Nat × Nat

/-! ## `LCD_DrawPoints` -/

/-- The inner loop of `LCD_DrawPoints`,
`for (j = start_idx + 1; j < batch_count; j++)`: the number of times
`run_length` is incremented.  `y0` is `batch_y[start_idx]`, the second
argument is `batch_x[j - 1]` and the list is `batch[j..batch_count)`.  The
comparison `batch_x[j] == batch_x[j - 1] + 1` is made in `int`. -/
def runExtent (y0 : Nat) : Nat → List Pt → Nat
  | _, [] => 0
  | prev, q :: qs => if q.2 = y0 ∧ q.1 = prev + 1 then runExtent y0 q.1 qs + 1 else 0

/-- The loop `while (start_idx < batch_count)` of `LCD_DrawPoints`; the
list is `batch[start_idx..batch_count)`.  Each iteration advances
`start_idx` by `run_length >= 1`; the first argument bounds the number of
iterations that are unfolded. -/
def drawBatch (color : Nat) : Nat → List Pt → List Op
  | 0, _ => []
  | _, [] => []
  | fuel + 1, p :: rest =>
    let run_length := 1 + runExtent p.2 p.1 rest
    (if run_length > 1 then
        Op.fill p.1 p.2 ((p :: rest).getD (run_length - 1) (0, 0)).1 p.2 color
      else Op.point p.1 p.2 color) ::
      drawBatch color fuel (rest.drop (run_length - 1))

/-- The loop `for (i = 0; i < point_count; i++)` of `LCD_DrawPoints`.  The
first list is `points[i..point_count)`, the last one is
`batch[0..batch_count)`. -/
def scanPoints (dev : LcdDev) (color point_count : Nat) : List Pt → Nat → List Pt → List Op
  | [], _, _ => []
  | p :: rest, i, batch =>
    if p.1 ≥ dev.width ∨ p.2 ≥ dev.height then
      scanPoints dev color point_count rest (i + 1) batch
    else
      let batch := batch ++ [p]
      if batch.length ≥ 256 ∨ i = point_count - 1 then
        drawBatch color batch.length batch ++ scanPoints dev color point_count rest (i + 1) []
      else
        scanPoints dev color point_count rest (i + 1) batch

/-- The primitive calls made by `LCD_DrawPoints(points_x, points_y,
point_count, color)`, where `pts` holds the `point_count` points. -/
def LCD_DrawPoints.calls (dev : LcdDev) (pts : List Pt) (color : Nat) : List Op :=
  match pts with
  | [] => []
  | [p] => [Op.point p.1 p.2 color]
  | _ => scanPoints dev color pts.length pts 0 []

/-- `LCD_DrawPoints`. -/
def LCD_DrawPoints (dev : LcdDev) (pts : List Pt) (color : Nat) : List Event :=
  emitAll dev (LCD_DrawPoints.calls dev pts color)

/-! ## `LCD_DrawLine` -/

/-- The point-collecting loop of `LCD_DrawLine`; the first argument is the
number of iterations left, the second `point_count`.  The result is the
content of `points_x`/`points_y` below `point_count` that the remaining
iterations store.  `xerr`, `yerr`, `delta_x`, `delta_y`, `distance` are
`int`; `x1`, `y1` are `u16`. -/
def enumerate (delta_x delta_y distance incx incy : Int) :
    Nat → Nat → Nat → Nat → Int → Int → List Pt
  | 0, _, _, _, _, _ => []
  | n + 1, point_count, x1, y1, xerr, yerr =>
    let xerr1 := xerr + delta_x
    let yerr1 := yerr + delta_y
    let x1n := if xerr1 > distance then toU16 ((x1 : Int) + incx) else x1
    let xerr2 := if xerr1 > distance then xerr1 - distance else xerr1
    let y1n := if yerr1 > distance then toU16 ((y1 : Int) + incy) else y1
    let yerr2 := if yerr1 > distance then yerr1 - distance else yerr1
    if point_count < 512 then
      (x1, y1) :: enumerate delta_x delta_y distance incx incy n (point_count + 1) x1n y1n xerr2 yerr2
    else
      enumerate delta_x delta_y distance incx incy n point_count x1n y1n xerr2 yerr2

/-- The points that the general path of `LCD_DrawLine` collects for the
end points `(x1, y1)`, `(x2, y2)`: the loop
`for (u16 i = 0; i <= distance + 1; i++)` makes `distance + 2` iterations.
(When `distance + 1 >= 65535` the loop condition holds for every `u16`
value of `i`; see `LCD_DrawLine.calls`.) -/
def linePoints (x1 y1 x2 y2 : Nat) : List Pt :=
  let delta_x : Int := (x2 : Int) - x1
  let delta_y : Int := (y2 : Int) - y1
  let incx : Int := if delta_x > 0 then 1 else -1
  let incy : Int := if delta_y > 0 then 1 else -1
  let distance : Int := if delta_x.natAbs > delta_y.natAbs then delta_x.natAbs else delta_y.natAbs
  enumerate delta_x delta_y distance incx incy (distance + 2).toNat 0 x1 y1 0 0

/-- The calls that end a horizontal segment in the run analysis of
`LCD_DrawLine`: one fill when the segment is longer than 3, one
`LCD_DrawPoint` per point otherwise. -/
def segmentCalls (pts : List Pt) (color start_x current_y horizontal_len : Nat) : List Op :=
  if horizontal_len > 3 then
    [Op.fill (pts.getD start_x (0, 0)).1 current_y
      (pts.getD (start_x + horizontal_len - 1) (0, 0)).1 current_y color]
  else if horizontal_len > 0 then
    (List.range horizontal_len).map
      (fun j => Op.point (pts.getD (start_x + j) (0, 0)).1 current_y color)
  else []

/-- The run analysis loop `for (u16 i = 1; i < point_count; i++)` of
`LCD_DrawLine` followed by the handling of the last segment.  The first
list is `points[i..point_count)`, `prev_x` is `points_x[i - 1]`.  Returns
the calls and the final value of `processed`. -/
def analyseRuns (pts : List Pt) (color : Nat) :
    List Pt → Nat → Nat → Nat → Nat → Nat → Nat → List Op × Nat
  | [], _, _, start_x, current_y, horizontal_len, processed =>
    (segmentCalls pts color start_x current_y horizontal_len,
      if horizontal_len > 0 then processed + horizontal_len else processed)
  | p :: rest, i, prev_x, start_x, current_y, horizontal_len, processed =>
    if p.2 = current_y ∧ p.1 = prev_x + 1 then
      analyseRuns pts color rest (i + 1) p.1 start_x current_y (horizontal_len + 1) processed
    else
      let r := analyseRuns pts color rest (i + 1) p.1 i p.2 1
        (if horizontal_len > 0 then processed + horizontal_len else processed)
      (segmentCalls pts color start_x current_y horizontal_len ++ r.1, r.2)

/-- Bounding box `(min_x, max_x, min_y, max_y)` computed by `LCD_DrawLine`
from the collected points. -/
def boundingBox (pts : List Pt) : Nat × Nat × Nat × Nat :=
  let p0 := pts.headD (0, 0)
  pts.tail.foldl
    (fun b p =>
      (if p.1 < b.1 then p.1 else b.1,
       if p.1 > b.2.1 then p.1 else b.2.1,
       if p.2 < b.2.2.1 then p.2 else b.2.2.1,
       if p.2 > b.2.2.2 then p.2 else b.2.2.2))
    (p0.1, p0.1, p0.2, p0.2)

/-- The primitive calls made by `LCD_DrawLine(x1, y1, x2, y2, color)`;
`none` when the call does not return: the counter of the collecting loop is
a `u16`, so for `distance + 1 >= 65535` its condition `i <= distance + 1`
never fails. -/
def LCD_DrawLine.calls (dev : LcdDev) (x1 y1 x2 y2 color : Nat) : Option (List Op) :=
  if x1 = x2 then
    if y1 > y2 then some [Op.fill x1 y2 x1 y1 color]
    else some [Op.fill x1 y1 x1 y2 color]
  else if y1 = y2 then
    if x1 > x2 then some [Op.fill x2 y1 x1 y1 color]
    else some [Op.fill x1 y1 x2 y1 color]
  else
    let delta_x : Int := (x2 : Int) - x1
    let delta_y : Int := (y2 : Int) - y1
    let distance : Int := if delta_x.natAbs > delta_y.natAbs then delta_x.natAbs else delta_y.natAbs
    if distance + 1 ≥ 65535 then none
    else
      let pts := linePoints x1 y1 x2 y2
      let point_count := pts.length
      let b := boundingBox pts
      if point_count < 30 ∨ b.2.1 - b.1 > 100 ∨ b.2.2.2 - b.2.2.1 > 100 then
        some (LCD_DrawPoints.calls dev pts color)
      else
        let p0 := pts.headD (0, 0)
        let r := analyseRuns pts color pts.tail 1 p0.1 0 p0.2 1 0
        if r.2 < point_count then
          let remaining := pts.filter (fun p => p.1 ≠ 0xFFFF)
          if remaining.length > 0 then
            some (r.1 ++ LCD_DrawPoints.calls dev remaining color)
          else some r.1
        else some r.1

/-- `LCD_DrawLine`: the transport events, `none` when the call does not
return. -/
def LCD_DrawLine (dev : LcdDev) (x1 y1 x2 y2 color : Nat) : Option (List Event) :=
  (LCD_DrawLine.calls dev x1 y1 x2 y2 color).map (emitAll dev)

/-! ## Runs, in the words of the specification -/

/-- Specification: `q` continues a run after `p` when it has the same `y`
and its `x` is larger by exactly 1. -/
def follows (p q : Pt) : Prop := q.2 = p.2 ∧ q.1 = p.1 + 1

instance (p q : Pt) : Decidable (follows p q) := by
  unfold follows; infer_instance

/-- Specification: the maximal runs of a sequence of points, in input
order.  A point joins the run that starts with its successor exactly when
the successor follows it. -/
def maximalRuns : List Pt → List (List Pt)
  | [] => []
  | p :: ps =>
    match maximalRuns ps with
    | (q :: r) :: rs => if follows p q then (p :: q :: r) :: rs else [p] :: (q :: r) :: rs
    | rs => [p] :: rs

/-- Specification: the drawing operation for one run: a fill from the
run's first `x` to its last `x` on its row when the run is longer than 1, a
single point otherwise. -/
def runCall (color : Nat) (r : List Pt) : Op :=
  if r.length > 1 then
    Op.fill (r.headD (0, 0)).1 (r.headD (0, 0)).2 (r.getLastD (0, 0)).1 (r.headD (0, 0)).2 color
  else
    Op.point (r.headD (0, 0)).1 (r.headD (0, 0)).2 color

/-- A point lies on the surface. -/
def LcdDev.inBounds (dev : LcdDev) (p : Pt) : Prop := p.1 < dev.width ∧ p.2 < dev.height

instance (dev : LcdDev) (p : Pt) : Decidable (dev.inBounds p) := by
  unfold LcdDev.inBounds; infer_instance

/-! ## Pixels of the drawing calls -/

/-- The pixel writes `((x, y), colour)` that one primitive call causes on
the panel, in stream order: the stream of a fill lands in the window it
programs, row by row. -/
def Op.pixels : Op → List ((Nat × Nat) × Nat)
  | Op.fill sx sy ex ey color =>
    (List.range (spanU16 sx ex * spanU16 sy ey)).map
      (fun k => (landing sx (toU16 ((sx : Int) + spanU16 sx ex - 1)) sy k, color))
  | Op.point x y color => [((x, y), color)]

/-- The arguments of a primitive call are 16-bit values. -/
def Op.IsU16 : Op → Prop
  | Op.fill sx sy _ _ color => sx < 65536 ∧ sy < 65536 ∧ color < 65536
  | Op.point x y color => x < 65536 ∧ y < 65536 ∧ color < 65536

/-! ## `Draw_Circle` -/

/-- The eight points stored by one iteration of `Draw_Circle`, in the order
of the source; each coordinate is computed in `int` and stored in a
`u16`. -/
def eightPoints (x0 y0 : Nat) (a b : Int) : List Pt :=
  [(toU16 (x0 + a), toU16 (y0 - b)), (toU16 (x0 + b), toU16 (y0 - a)),
   (toU16 (x0 + b), toU16 (y0 + a)), (toU16 (x0 + a), toU16 (y0 + b)),
   (toU16 (x0 - a), toU16 (y0 + b)), (toU16 (x0 - b), toU16 (y0 + a)),
   (toU16 (x0 - a), toU16 (y0 - b)), (toU16 (x0 - b), toU16 (y0 - a))]

/-- The loop `while (a <= b)` of `Draw_Circle` with the flush that follows
it.  The state is `a`, `b`, `di` (all `int`) and the content of
`points_x`/`points_y` below `point_count`; the result is the list of point
arrays passed to `LCD_DrawPoints`, in call order.  `a` grows by one per
iteration and `b` never grows; the first argument bounds the number of
iterations that are unfolded. -/
def circleLoop (x0 y0 : Nat) : Nat → Int → Int → Int → List Pt → List (List Pt)
  | 0, _, _, _, pts => if pts.length > 0 then [pts] else []
  | fuel + 1, a, b, di, pts =>
    if a ≤ b then
      let pts1 := pts ++ eightPoints x0 y0 a b
      let a1 := a + 1
      let di1 := if di < 0 then di + (4 * a1 + 6) else di + (10 + 4 * (a1 - b))
      let b1 := if di < 0 then b else b - 1
      if pts1.length ≥ 500 then pts1 :: circleLoop x0 y0 fuel a1 b1 di1 []
      else circleLoop x0 y0 fuel a1 b1 di1 pts1
    else if pts.length > 0 then [pts] else []

/-- The pairs `(a, b)` with which the body of the loop `while (a <= b)` of
`Draw_Circle` runs, in order: the control state `a`, `b`, `di` of
`circleLoop` without the point buffer. -/
def circleOffsets : Nat → Int → Int → Int → List (Int × Int)
  | 0, _, _, _ => []
  | fuel + 1, a, b, di =>
    if a ≤ b then
      let a1 := a + 1
      let di1 := if di < 0 then di + (4 * a1 + 6) else di + (10 + 4 * (a1 - b))
      let b1 := if di < 0 then b else b - 1
      (a, b) :: circleOffsets fuel a1 b1 di1
    else []

/-- The point arrays passed to `LCD_DrawPoints` by
`Draw_Circle(x0, y0, r, color)`: `a = 0`, `b = r`, `di = 3 - (r << 1)`.  The
loop makes at most `r + 1` iterations. -/
def Draw_Circle.batches (x0 y0 r : Nat) : List (List Pt) :=
  circleLoop x0 y0 (r + 1) 0 r (3 - 2 * (r : Int)) []

/-- The pairs `(a, b)` for which `Draw_Circle` with radius `r` stores its
eight points. -/
def Draw_Circle.offsets (r : Nat) : List (Int × Int) :=
  circleOffsets (r + 1) 0 r (3 - 2 * (r : Int))

/-- The primitive calls made by `Draw_Circle(x0, y0, r, color)`. -/
def Draw_Circle.calls (dev : LcdDev) (x0 y0 r color : Nat) : List Op :=
  (Draw_Circle.batches x0 y0 r).flatMap (fun pts => LCD_DrawPoints.calls dev pts color)

/-- `Draw_Circle`. -/
def Draw_Circle (dev : LcdDev) (x0 y0 r color : Nat) : List Event :=
  emitAll dev (Draw_Circle.calls dev x0 y0 r color)

/-- Specification: the pairs `(a, b)` of the recurrence "while `a <= b`:
emit `(a, b)`; if `d < 0` then `d += 4a + 6` else (`d += 10 + 4(a - b)`;
`b -= 1`); then `a += 1`", started from the state given as first pair. -/
def recurrenceUpdateFirst : Nat → Int → Int → Int → List (Int × Int)
  | 0, _, _, _ => []
  | fuel + 1, a, b, d =>
    if a ≤ b then
      (a, b) :: (if d < 0 then recurrenceUpdateFirst fuel (a + 1) b (d + (4 * a + 6))
                 else recurrenceUpdateFirst fuel (a + 1) (b - 1) (d + (10 + 4 * (a - b))))
    else []

/-- The pairs `(a, b)` of the recurrence in the statement order of the
source: "while `a <= b`: emit `(a, b)`; `a += 1`; then, with the new `a`, if
`d < 0` then `d += 4a + 6` else (`d += 10 + 4(a - b)`; `b -= 1`)". -/
def recurrenceIncrementFirst : Nat → Int → Int → Int → List (Int × Int)
  | 0, _, _, _ => []
  | fuel + 1, a, b, d =>
    if a ≤ b then
      (a, b) :: (if d < 0 then recurrenceIncrementFirst fuel (a + 1) b (d + (4 * (a + 1) + 6))
                 else recurrenceIncrementFirst fuel (a + 1) (b - 1)
                   (d + (10 + 4 * ((a + 1) - b))))
    else []

/-- The offset `(dx, dy)` is one of the eight images of `(a, b)` under
negating either coordinate and swapping the two. -/
def onOctants (a b dx dy : Int) : Prop :=
  ((dx = a ∨ dx = -a) ∧ (dy = b ∨ dy = -b)) ∨ ((dx = b ∨ dx = -b) ∧ (dy = a ∨ dy = -a))

/-! ## `LCD_ShowChar` -/

/-- The glyph tables `asc2_1206` and `asc2_1608` of `font.h`, which is not
among the sources: `asc2_1206 c t` is byte `t` of the glyph with index `c`
(the character code minus `' '`). -/
structure Font where
  asc2_1206 : Nat → Nat → Nat
  asc2_1608 : Nat → Nat → Nat

/-- The array `conv[char_width][char_height]` after the store
`conv[c][r] = v`. -/
def setCell (conv : Nat → Nat → Nat) (c r v : Nat) : Nat → Nat → Nat :=
  fun c1 r1 => if c1 = c ∧ r1 = r then v else conv c1 r1

/-- The inner loop `for (t1 = 0; t1 < 8; t1++)` of the compose loop of
`LCD_ShowChar` for one glyph byte `temp` (a `uint8_t`).  The first argument
is the number of iterations left.  The state is the running `x`, `y` (both
`u16`) and `conv`; `none` means that the function returned from inside the
loop.  The indices `x - x0`, `y - y0` are never negative after the bounds
check at the head of the function. -/
def composeByte (dev : LcdDev) (size mode color bg_color x0 y0 : Nat) :
    Nat → Nat → Nat → Nat → (Nat → Nat → Nat) → Option (Nat × Nat × (Nat → Nat → Nat))
  | 0, _, x, y, conv => some (x, y, conv)
  | n + 1, temp, x, y, conv =>
    let conv1 :=
      if temp &&& 0x80 ≠ 0 then setCell conv (x - x0) (y - y0) color
      else if mode = 0 then setCell conv (x - x0) (y - y0) bg_color
      else conv
    let temp1 := (temp <<< 1) % 256
    let y1 := (y + 1) % 65536
    if y1 ≥ dev.height then none
    else if (y1 : Int) - y0 = size then
      let x1 := (x + 1) % 65536
      if x1 ≥ dev.width then none else some (x1, y0, conv1)
    else composeByte dev size mode color bg_color x0 y0 n temp1 x y1 conv1

/-- The compose loop `for (t = 0; t < csize; t++)` of `LCD_ShowChar`; the
list holds the glyph bytes `pfont[t..csize)`. -/
def composeGlyph (dev : LcdDev) (size mode color bg_color x0 y0 : Nat) :
    List Nat → Nat → Nat → (Nat → Nat → Nat) → Option (Nat × Nat × (Nat → Nat → Nat))
  | [], x, y, conv => some (x, y, conv)
  | temp :: rest, x, y, conv =>
    match composeByte dev size mode color bg_color x0 y0 8 temp x y conv with
    | none => none
    | some (x1, y1, conv1) => composeGlyph dev size mode color bg_color x0 y0 rest x1 y1 conv1

/-- The streaming loops of the opaque mode of `LCD_ShowChar`: the first
list holds the colours still to be put in the buffer, in loop order, the
second the bytes of `batch_buffer` below `pixel_idx`. -/
def streamPixels : List Nat → List Nat → List Event
  | [], buf => if buf.length > 0 then [Event.spi buf] else []
  | c :: cs, buf =>
    let buf1 := buf ++ [hiByte c, loByte c]
    if buf1.length ≥ LCD_BATCH_BUFFER_SIZE then Event.spi buf1 :: streamPixels cs []
    else streamPixels cs buf1

/-- The colours of `conv` in the order of the streaming loops: rows `i`
outside, columns `j` inside. -/
def cellColours (conv : Nat → Nat → Nat) (char_width char_height : Nat) : List Nat :=
  (List.range char_height).flatMap (fun i => (List.range char_width).map (fun j => conv j i))

/-- The inner loop `for (i = 0; i < 8; i++)` of the overlay mode of
`LCD_ShowChar` for one glyph byte; the first argument is the number of
iterations left.  `y` and `char_height` enter the exit test
`pos_y + i >= y + char_height - 1`, made in `int`. -/
def overlayByte (y char_height color pos_x pos_y : Nat) : Nat → Nat → Nat → List Op
  | 0, _, _ => []
  | n + 1, i, temp =>
    (if temp &&& 0x80 ≠ 0 then [Op.point pos_x ((pos_y + i) % 65536) color] else []) ++
      (if ((pos_y + i : Nat) : Int) ≥ (y : Int) + char_height - 1 then []
       else overlayByte y char_height color pos_x pos_y n (i + 1) ((temp <<< 1) % 256))

/-- The overlay mode of `LCD_ShowChar`: the loop
`for (t = 0; t < csize; t++)` over the glyph bytes.  `x` and `y` are the
values the compose loop has left in the parameters `x` and `y`. -/
def overlayCalls (pfont : Nat → Nat) (csize char_height color x y : Nat) : List Op :=
  (List.range csize).flatMap (fun t =>
    overlayByte y char_height color
      ((x + t / (char_height / 8)) % 65536) ((y + t % (char_height / 8) * 8) % 65536)
      8 0 (pfont t % 256))

/-- `LCD_ShowChar`.  `size` and `mode` are `uint8_t`, `chr` is a `char`
(holding an 8-bit code; `chr - ' '` is reduced modulo 256, which is exact
for the printable codes).  The function reads `lcddev` and never writes
it. -/
def LCD_ShowChar (dev : LcdDev) (font : Font) (x y chr size mode color bg_color : Nat) :
    List Event :=
  let csize := ((size / 8 + (if size % 8 ≠ 0 then 1 else 0)) * (size / 2)) % 256
  let char_width := size / 2
  let char_height := size
  if x + char_width > dev.width ∨ y + char_height > dev.height then []
  else
    let chr1 := (chr + 224) % 256
    let table : Option (Nat → Nat) :=
      if size = 12 then some (font.asc2_1206 chr1)
      else if size = 16 then some (font.asc2_1608 chr1)
      else none
    match table with
    | none => []
    | some pfont =>
      match composeGlyph dev size mode color bg_color x y
          ((List.range csize).map (fun t => pfont t % 256)) x y (fun _ _ => 0) with
      | none => []
      | some (x1, y1, conv) =>
        if mode = 0 then
          LCD_SetWindows dev x y char_width char_height ++ LCD_WriteRAM_Prepare dev ++
            [Event.dc true] ++ streamPixels (cellColours conv char_width char_height) []
        else
          emitAll dev (overlayCalls pfont csize char_height color x1 y1)

/-- A glyph table for evaluating examples: in the 16-pixel table byte 0 of
every glyph is `0x80` (the top pixel of the first column), in the 12-pixel
table byte 1 is `0x80` (row 8 of the first column); all other bytes are
zero. -/
def sampleFont : Font :=
  { asc2_1206 := fun _ t => if t = 1 then 0x80 else 0
    asc2_1608 := fun _ t => if t = 0 then 0x80 else 0 }

/-- The running position of the inner compose loop of `LCD_ShowChar`:
`composeByte` without the glyph bits and without `conv`. -/
def bytePos (dev : LcdDev) (size x0 y0 : Nat) : Nat → Nat → Nat → Option (Nat × Nat)
  | 0, x, y => some (x, y)
  | n + 1, x, y =>
    let y1 := (y + 1) % 65536
    if y1 ≥ dev.height then none
    else if (y1 : Int) - y0 = size then
      let x1 := (x + 1) % 65536
      if x1 ≥ dev.width then none else some (x1, y0)
    else bytePos dev size x0 y0 n x y1

/-- The running position of the compose loop of `LCD_ShowChar` over `k`
glyph bytes: `composeGlyph` without the glyph bits and without `conv`. -/
def glyphPos (dev : LcdDev) (size x0 y0 : Nat) : Nat → Nat → Nat → Option (Nat × Nat)
  | 0, x, y => some (x, y)
  | k + 1, x, y =>
    match bytePos dev size x0 y0 8 x y with
    | none => none
    | some (x1, y1) => glyphPos dev size x0 y0 k x1 y1

/-! ## `LCD_ShowString`, `LCD_ShowNum` -/

/-- A call `LCD_ShowChar(x, y, chr, size, mode, color, bg_color)`. -/
structure CharCall where
  x : Nat
  y : Nat
  chr : Nat
  size : Nat
  mode : Nat
  color : Nat
  bg_color : Nat
deriving DecidableEq, Repr

/-- The transport events of one `LCD_ShowChar` call. -/
def CharCall.emit (dev : LcdDev) (font : Font) (c : CharCall) : List Event :=
  LCD_ShowChar dev font c.x c.y c.chr c.size c.mode c.color c.bg_color

/-- The loop `while ((*p <= '~') && (*p >= ' '))` of `LCD_ShowString`.  The
list holds the bytes from `p` up to the terminating zero (which, like every
byte outside `' ' .. '~'`, ends the loop); `x0` is the `u8` copy of the start
column, `width` and `height` are the sums `width + x`, `height + y` that the
function stores back into its `u16` parameters. -/
def showStringLoop (x0 width height size color bg_color : Nat) :
    List Nat → Nat → Nat → List CharCall
  | [], _, _ => []
  | c :: cs, x, y =>
    if c ≤ 126 ∧ c ≥ 32 then
      let x1 := if x ≥ width then x0 else x
      let y1 := if x ≥ width then (y + size) % 65536 else y
      if y1 ≥ height then []
      else
        { x := x1, y := y1, chr := c, size := size, mode := 0, color := color,
          bg_color := bg_color } ::
          showStringLoop x0 width height size color bg_color cs ((x1 + size / 2) % 65536) y1
    else []

/-- The `LCD_ShowChar` calls made by `LCD_ShowString(x, y, width, height,
size, p, color, bg_color)`: `u8 x0 = x; width += x; height += y;` and the
loop. -/
def LCD_ShowString.calls (x y width height size : Nat) (p : List Nat) (color bg_color : Nat) :
    List CharCall :=
  showStringLoop (x % 256) ((width + x) % 65536) ((height + y) % 65536) size color bg_color p x y

/-- `LCD_ShowString`. -/
def LCD_ShowString (dev : LcdDev) (font : Font) (x y width height size : Nat) (p : List Nat)
    (color bg_color : Nat) : List Event :=
  (LCD_ShowString.calls x y width height size p color bg_color).flatMap (CharCall.emit dev font)

/-- The loop `while (n--) result *= m;` of `LCD_Pow` on the `u32`
`result`. -/
def powLoop (m : Nat) : Nat → Nat → Nat
  | 0, result => result
  | n + 1, result => powLoop m n ((result * m) % 2 ^ 32)

/-- `LCD_Pow`. -/
def LCD_Pow (m n : Nat) : Nat := powLoop m n 1

/-- The loop `for (t = 0; t < len; t++)` of `LCD_ShowNum`; the first
argument is the number of iterations left.  `none` stands for a division by
zero in `num / LCD_Pow(10, len - t - 1)`.  The arguments `x + (size / 2) * t`
and `len - t - 1` are computed in `int` and passed as `u16` and `u8`. -/
def showNumLoop (x y num len size color bg_color : Nat) : Nat → Nat → Nat → Option (List CharCall)
  | 0, _, _ => some []
  | n + 1, t, enshow =>
    let d := LCD_Pow 10 ((len - t - 1) % 256)
    if d = 0 then none
    else
      let temp := ((num / d) % 10) % 256
      let px := (x + (size / 2) * t) % 65536
      if enshow = 0 ∧ t < len - 1 then
        if temp = 0 then
          (showNumLoop x y num len size color bg_color n (t + 1) enshow).map
            (fun cs => { x := px, y := y, chr := 32, size := size, mode := 0, color := color,
                         bg_color := bg_color } :: cs)
        else
          (showNumLoop x y num len size color bg_color n (t + 1) 1).map
            (fun cs => { x := px, y := y, chr := (temp + 48) % 256, size := size, mode := 0,
                         color := color, bg_color := bg_color } :: cs)
      else
        (showNumLoop x y num len size color bg_color n (t + 1) enshow).map
          (fun cs => { x := px, y := y, chr := (temp + 48) % 256, size := size, mode := 0,
                       color := color, bg_color := bg_color } :: cs)

/-- The `LCD_ShowChar` calls made by `LCD_ShowNum(x, y, num, len, size,
color, bg_color)`; `none` when a division by zero occurs. -/
def LCD_ShowNum.calls (x y num len size color bg_color : Nat) : Option (List CharCall) :=
  showNumLoop x y num len size color bg_color len 0 0

/-- `LCD_ShowNum`. -/
def LCD_ShowNum (dev : LcdDev) (font : Font) (x y num len size color bg_color : Nat) :
    Option (List Event) :=
  (LCD_ShowNum.calls x y num len size color bg_color).map
    (fun cs => cs.flatMap (CharCall.emit dev font))

/-- Specification: digit `t` (0-based, most significant first) of the
`len`-digit decomposition of `num`. -/
def digitAt (num len t : Nat) : Nat := (num / 10 ^ (len - 1 - t)) % 10

/-- Specification: position `t` is shown blank: it is not the last
position and the digits at positions `0 .. t` are all zero. -/
def blankAt (num len t : Nat) : Prop := t < len - 1 ∧ ∀ s, s ≤ t → digitAt num len s = 0

instance (num len t : Nat) : Decidable (blankAt num len t) := by
  unfold blankAt; infer_instance

/-- Specification: the character shown at position `t`: a space when the
position is blank, the digit otherwise. -/
def shownChar (num len t : Nat) : Nat :=
  if blankAt num len t then 32 else 48 + digitAt num len t

/-! ## Orientation -/

/-- Conversion of an `int` value to `uint8_t`. -/
def toU8 (v : Int) : Nat := (v % 256).toNat

/-- `LCD_WriteReg`: the register value is passed on to `LCD_WR_DATA`, which
takes a `uint8_t`. -/
def LCD_WriteReg (LCD_Reg LCD_RegValue : Nat) : List Event :=
  LCD_WR_REG LCD_Reg ++ LCD_WR_DATA LCD_RegValue

/-- The first `switch` of `LCD_Scan_Dir`. -/
def remapDir : Nat → Nat
  | 0 => 6
  | 1 => 7
  | 2 => 4
  | 3 => 5
  | 4 => 1
  | 5 => 0
  | 6 => 3
  | 7 => 2
  | d => d

/-- The second `switch` of `LCD_Scan_Dir`: the value of `regval` for the
scan directions `L2R_U2D = 0` to `D2U_R2L = 7`; `regval` keeps its initial
value 0 for any other `dir`. -/
def scanRegval : Nat → Nat
  | 0 => (0 <<< 7) ||| (0 <<< 6) ||| (0 <<< 5)
  | 1 => (1 <<< 7) ||| (0 <<< 6) ||| (0 <<< 5)
  | 2 => (0 <<< 7) ||| (1 <<< 6) ||| (0 <<< 5)
  | 3 => (1 <<< 7) ||| (1 <<< 6) ||| (0 <<< 5)
  | 4 => (0 <<< 7) ||| (0 <<< 6) ||| (1 <<< 5)
  | 5 => (0 <<< 7) ||| (1 <<< 6) ||| (1 <<< 5)
  | 6 => (1 <<< 7) ||| (0 <<< 6) ||| (1 <<< 5)
  | 7 => (1 <<< 7) ||| (1 <<< 6) ||| (1 <<< 5)
  | _ => 0

/-- `LCD_Scan_Dir`: writes register `0x36`, then the full window from the
`lcddev.width` and `lcddev.height` current at the call.  `lcddev.width - 1`
is an `int`; `>> 8` is taken as the arithmetic shift (floor division by
256) and `& 0xFF` as the residue modulo 256. -/
def LCD_Scan_Dir (dev : LcdDev) (dir : Nat) : List Event :=
  let regval := scanRegval (remapDir dir) ||| 0x00
  LCD_WriteReg 0x36 regval ++
  LCD_WR_REG dev.setxcmd ++
  LCD_WR_DATA 0 ++ LCD_WR_DATA 0 ++
  LCD_WR_DATA (toU8 (((dev.width : Int) - 1) / 256)) ++
  LCD_WR_DATA (toU8 (((dev.width : Int) - 1) % 256)) ++
  LCD_WR_REG dev.setycmd ++
  LCD_WR_DATA 0 ++ LCD_WR_DATA 0 ++
  LCD_WR_DATA (toU8 (((dev.height : Int) - 1) / 256)) ++
  LCD_WR_DATA (toU8 (((dev.height : Int) - 1) % 256))

/-- Scan direction `U2D_R2L`, the value of the macro `PORTRAIT`. -/
def PORTRAIT : Nat := 5

/-- Scan direction `L2R_U2D`, the value of the macro `LANDSCAPE`. -/
def LANDSCAPE : Nat := 0

/-- `LCD_Display_Dir`: the new `lcddev` and the transport events.  `LCD_W`
and `LCD_H` are the configuration macros `PKG_ST_7789_WIDTH` and
`PKG_ST_7789_HEIGHT`.  The global `DFT_SCAN_DIR` is assigned and passed to
`LCD_Scan_Dir` at once; nothing else reads it. -/
def LCD_Display_Dir (LCD_W LCD_H : Nat) (_dev : LcdDev) (dir : Nat) : LcdDev × List Event :=
  if dir = 0 then
    let dev1 : LcdDev :=
      { dir := 0, width := LCD_W % 65536, height := LCD_H % 65536,
        wramcmd := 0x2C, setxcmd := 0x2A, setycmd := 0x2B }
    (dev1, LCD_Scan_Dir dev1 PORTRAIT)
  else
    let dev1 : LcdDev :=
      { dir := 1, width := LCD_H % 65536, height := LCD_W % 65536,
        wramcmd := 0x2C, setxcmd := 0x2A, setycmd := 0x2B }
    (dev1, LCD_Scan_Dir dev1 LANDSCAPE)

/-- `LCD_SetPortrait`: `LCD_Scan_Dir(PORTRAIT)` is called first, the
assignments to `lcddev` follow. -/
def LCD_SetPortrait (LCD_W LCD_H : Nat) (dev : LcdDev) : LcdDev × List Event :=
  ({ dev with dir := 0, width := LCD_W % 65536, height := LCD_H % 65536 },
    LCD_Scan_Dir dev PORTRAIT)

/-- `LCD_SetLandscape`: `LCD_Scan_Dir(LANDSCAPE)` is called first, the
assignments to `lcddev` follow. -/
def LCD_SetLandscape (LCD_W LCD_H : Nat) (dev : LcdDev) : LcdDev × List Event :=
  ({ dev with dir := 1, width := LCD_H % 65536, height := LCD_W % 65536 },
    LCD_Scan_Dir dev LANDSCAPE)

/-! ## Streaming of colour arrays -/

/-- The conversion loop `for (j = 0; j < current_batch; j++)` of the
streaming routines: the content of `batch_buffer[0 .. 2 * current_batch)`
after it, where iteration `j` reads the colour at index `base + j` of the
source array (a `u16`; 0 stands for a read past the end of the list). -/
def fillBuffer (p : List Nat) (base current_batch : Nat) : List Nat :=
  (List.range current_batch).flatMap
    (fun j => [hiByte (p.getD (base + j) 0), loByte (p.getD (base + j) 0)])

/-- The send loop `for (i = 0; i < total; i += batch_size)` of
`LCD_ShowImage`, which reads `p[i + j]`; the first argument bounds the number
of iterations that are unfolded. -/
def imageBatches (p : List Nat) (total batch_size : Nat) : Nat → Nat → List Event
  | 0, _ => []
  | fuel + 1, i =>
    if i < total then
      let current_batch :=
        if (i + batch_size) % 2 ^ 32 > total then (total - i) % 2 ^ 32 else batch_size
      Event.spi (fillBuffer p i current_batch) ::
        imageBatches p total batch_size fuel ((i + batch_size) % 2 ^ 32)
    else []

/-- `LCD_ShowImage`; `total = width * height` is a `u32`. -/
def LCD_ShowImage (dev : LcdDev) (x y width height : Nat) (p : List Nat) : List Event :=
  let total := (width * height) % 2 ^ 32
  let batch_size := LCD_BATCH_BUFFER_SIZE / 2
  LCD_SetWindows dev x y width height ++
  LCD_WriteRAM_Prepare dev ++
  [Event.dc true] ++
  imageBatches p total batch_size total 0

/-- The send loop `for (i = 0; i < total; i += batch_size)` of
`LCD_Color_Fill`, which reads `color[k++]` with a running `u32` index `k`. -/
def colorBatches (color : List Nat) (total batch_size : Nat) : Nat → Nat → Nat → List Event
  | 0, _, _ => []
  | fuel + 1, i, k =>
    if i < total then
      let current_batch :=
        if (i + batch_size) % 2 ^ 32 > total then (total - i) % 2 ^ 32 else batch_size
      Event.spi (fillBuffer color k current_batch) ::
        colorBatches color total batch_size fuel ((i + batch_size) % 2 ^ 32)
          ((k + current_batch) % 2 ^ 32)
    else []

/-- `LCD_Color_Fill`. -/
def LCD_Color_Fill (dev : LcdDev) (sx sy ex ey : Nat) (color : List Nat) : List Event :=
  let width := spanU16 sx ex
  let height := spanU16 sy ey
  let total := (width * height) % 2 ^ 32
  let batch_size := LCD_BATCH_BUFFER_SIZE / 2
  LCD_SetWindows dev sx sy width height ++
  LCD_WriteRAM_Prepare dev ++
  [Event.dc true] ++
  colorBatches color total batch_size total 0 0

/-- The loop `while (i < total_size)` of `LCD_DispFlush`, which reads
`pData[i + j]` and advances `i` by `current_batch`. -/
def flushBatches (pData : List Nat) (total_size batch_size : Nat) : Nat → Nat → List Event
  | 0, _ => []
  | fuel + 1, i =>
    if i < total_size then
      let current_batch :=
        if (i + batch_size) % 2 ^ 32 > total_size then (total_size - i) % 2 ^ 32 else batch_size
      Event.spi (fillBuffer pData i current_batch) ::
        flushBatches pData total_size batch_size fuel ((i + current_batch) % 2 ^ 32)
    else []

/-- `LCD_DispFlush`. -/
def LCD_DispFlush (dev : LcdDev) (x1 y1 x2 y2 : Nat) (pData : List Nat) : List Event :=
  let width := spanU16 x1 x2
  let height := spanU16 y1 y2
  let total_size := (width * height) % 2 ^ 32
  let batch_size := LCD_BATCH_BUFFER_SIZE / 2
  LCD_SetWindows dev x1 y1 width height ++
  LCD_WriteRAM_Prepare dev ++
  [Event.dc true] ++
  flushBatches pData total_size batch_size total_size 0

/-! ## `LCD_DrawRectangle` -/

/-- The primitive calls made by `LCD_DrawRectangle(x1, y1, x2, y2, color)`:
those of its four `LCD_DrawLine` calls in order; `none` when one of them does
not return. -/
def LCD_DrawRectangle.calls (dev : LcdDev) (x1 y1 x2 y2 color : Nat) : Option (List Op) :=
  (LCD_DrawLine.calls dev x1 y1 x2 y1 color).bind fun a =>
  (LCD_DrawLine.calls dev x1 y1 x1 y2 color).bind fun b =>
  (LCD_DrawLine.calls dev x1 y2 x2 y2 color).bind fun c =>
  (LCD_DrawLine.calls dev x2 y1 x2 y2 color).map fun d => a ++ b ++ c ++ d

/-- `LCD_DrawRectangle`: the transport events, `none` when the call does
not return. -/
def LCD_DrawRectangle (dev : LcdDev) (x1 y1 x2 y2 color : Nat) : Option (List Event) :=
  (LCD_DrawRectangle.calls dev x1 y1 x2 y2 color).map (emitAll dev)

/-! ## `Draw_Circle`: the point buffers -/

/-- The indices at which the loop `while (a <= b)` of `Draw_Circle` writes
`points_x` and `points_y`, in order: the control state of `circleLoop` with
the `u16` counter `point_count` in place of the buffer content.  Each
iteration writes at `point_count, ..., point_count + 7` (eight
`point_count++`) and resets the counter when it has reached 500. -/
def circleWrites : Nat → Int → Int → Int → Nat → List Nat
  | 0, _, _, _, _ => []
  | fuel + 1, a, b, di, point_count =>
    if a ≤ b then
      let a1 := a + 1
      let di1 := if di < 0 then di + (4 * a1 + 6) else di + (10 + 4 * (a1 - b))
      let b1 := if di < 0 then b else b - 1
      let count1 := (point_count + 8) % 65536
      (List.range 8).map (fun j => (point_count + j) % 65536) ++
        circleWrites fuel a1 b1 di1 (if count1 ≥ 500 then 0 else count1)
    else []

/-- The write indices of `Draw_Circle` with radius `r`. -/
def Draw_Circle.writes (r : Nat) : List Nat :=
  circleWrites (r + 1) 0 r (3 - 2 * (r : Int)) 0

/-- Specification: the drawing operations with which the run analysis of
`LCD_DrawLine` handles one run: a fill from the run's first `x` to its last
`x` on its row when the run is longer than 3, one point per pixel
otherwise. -/
def segmentOps (color : Nat) (r : List Pt) : List Op :=
  if r.length > 3 then
    [Op.fill (r.headD (0, 0)).1 (r.headD (0, 0)).2 (r.getLastD (0, 0)).1 (r.headD (0, 0)).2 color]
  else r.map (fun q => Op.point q.1 q.2 color)

/-! ## `LCD_Clear`, `LCD_ShowxNum` -/

/-- `LCD_Clear`: the full window from `lcddev.width` and `lcddev.height`,
the RAM-write command, the pre-fill of the buffer and the send loop, which
are those of `LCD_Fill`. -/
def LCD_Clear (dev : LcdDev) (Color : Nat) : List Event :=
  let total := (dev.width * dev.height) % 2 ^ 32
  let batch_size := LCD_BATCH_BUFFER_SIZE / 2
  LCD_SetWindows dev 0 0 dev.width dev.height ++
  LCD_WriteRAM_Prepare dev ++
  [Event.dc true] ++
  sendBatches (prefill Color batch_size) total batch_size total 0

/-- The macro `BACK_COLOR`, which is `BLACK`. -/
def BACK_COLOR : Nat := 0x0000

/-- The loop `for (t = 0; t < len; t++)` of `LCD_ShowxNum`; the first
argument is the number of iterations left.  `none` stands for a division by
zero in `num / LCD_Pow(10, len - t - 1)`. -/
def showxNumLoop (x y num len size mode color bg_color : Nat) :
    Nat → Nat → Nat → Option (List CharCall)
  | 0, _, _ => some []
  | n + 1, t, enshow =>
    let d := LCD_Pow 10 ((len - t - 1) % 256)
    if d = 0 then none
    else
      let temp := ((num / d) % 10) % 256
      let px := (x + (size / 2) * t) % 65536
      if enshow = 0 ∧ t < len - 1 then
        if temp = 0 then
          (showxNumLoop x y num len size mode color bg_color n (t + 1) enshow).map
            (fun cs =>
              (if mode &&& 0x80 ≠ 0 then
                  CharCall.mk px y 48 size (mode &&& 0x01) color bg_color
                else CharCall.mk px y 32 size (mode &&& 0x01) color BACK_COLOR) :: cs)
        else
          (showxNumLoop x y num len size mode color bg_color n (t + 1) 1).map
            (fun cs => CharCall.mk px y ((temp + 48) % 256) size (mode &&& 0x01) color
              BACK_COLOR :: cs)
      else
        (showxNumLoop x y num len size mode color bg_color n (t + 1) enshow).map
          (fun cs => CharCall.mk px y ((temp + 48) % 256) size (mode &&& 0x01) color
            BACK_COLOR :: cs)

/-- The `LCD_ShowChar` calls made by `LCD_ShowxNum(x, y, num, len, size,
mode, color, bg_color)`; `none` when a division by zero occurs. -/
def LCD_ShowxNum.calls (x y num len size mode color bg_color : Nat) : Option (List CharCall) :=
  showxNumLoop x y num len size mode color bg_color len 0 0

/-- `LCD_ShowxNum`. -/
def LCD_ShowxNum (dev : LcdDev) (font : Font) (x y num len size mode color bg_color : Nat) :
    Option (List Event) :=
  (LCD_ShowxNum.calls x y num len size mode color bg_color).map
    (fun cs => cs.flatMap (CharCall.emit dev font))

/-! ## The select line -/

/-- The select line as a state, as seen from one operation: `high`; `low`,
the line is low and the operation has not touched it; `command`, the
operation has pulled the line low and no byte has been sent since;
`sent`, one byte has been sent with the line pulled low. -/
inductive Select where
  | high
  | low
  | command
  | sent
deriving DecidableEq, Repr

/-- The level of the line in a state. -/
def Select.level : Select → Bool
  | Select.high => true
  | _ => false

/-- One transport event under the discipline of the select line: with the
line high every send is a data transfer; the line is pulled low only to send
exactly one byte, the command byte, and is raised right after it; nothing is
sent on a line that the operation found low.  `none` marks a violation. -/
def Select.step : Select → Event → Option Select
  | Select.high, Event.dc true => some Select.high
  | Select.high, Event.dc false => some Select.command
  | Select.high, Event.spi _ => some Select.high
  | Select.low, Event.dc true => some Select.high
  | Select.low, Event.dc false => some Select.command
  | Select.low, Event.spi _ => none
  | Select.command, Event.spi [_] => some Select.sent
  | Select.command, _ => none
  | Select.sent, Event.dc true => some Select.high
  | Select.sent, _ => none

/-- The state after a trace, `none` if the discipline is violated. -/
def selectRun : Select → List Event → Option Select
  | s, [] => some s
  | s, e :: es =>
    match s.step e with
    | none => none
    | some s1 => selectRun s1 es

/-- The level of the select line after a trace that starts with the line
at the given level. -/
def lineAfter : Bool → List Event → Bool
  | l, [] => l
  | _, Event.dc h :: es => lineAfter h es
  | l, Event.spi _ :: es => lineAfter l es

/-- A trace keeps the discipline of the select line: started with the line
high it ends with the line high, and so it does started with the line low
unless it is empty. -/
def Disciplined (tr : List Event) : Prop :=
  selectRun Select.high tr = some Select.high ∧
    (tr ≠ [] → selectRun Select.low tr = some Select.high)

/-- The glyph byte `temp` of the compose loop of `LCD_ShowChar` after `k`
rounds of `temp <<= 1` on the `uint8_t`. -/
def shiftByte (temp : Nat) : Nat → Nat
  | 0 => temp
  | k + 1 => shiftByte ((temp <<< 1) % 256) k

/-- Specification: byte `t` of the glyph of the character `chr` in the
table for the font size, as the `uint8_t` that `pfont[t]` reads. -/
def glyphByte (font : Font) (size chr t : Nat) : Nat :=
  (if size = 12 then font.asc2_1206 (chr - 32) t else font.asc2_1608 (chr - 32) t) % 256

/-- Specification: the colour of the pixel in column `j`, row `i` of a
character cell in opaque mode: foreground when bit `0x80 >> (i mod 8)` of
glyph byte `2 * j + i div 8` is set, background otherwise. -/
def cellColour (font : Font) (size chr color bg_color j i : Nat) : Nat :=
  if glyphByte font size chr (2 * j + i / 8) &&& (0x80 >>> (i % 8)) ≠ 0 then color
  else bg_color

/-- Specification: the offset from the start, along an axis on which the
end point is `δ` away, of the point collected in iteration `t` of a line
with `distance = D`: `ceil(t * δ / D) - 1` for `t > 0`, and 0 for
`t = 0`. -/
def lineOffset (δ D t : Nat) : Nat := (t * δ - 1) / D

/-! ## The command protocol -/

/-- Memory-data-access-control register of the ST7789, the register `0x36`
written by `LCD_Scan_Dir`. -/
def MADCTL : Nat := 0x36

/-- Specification: what the device expects next on the transport: `ready`,
the last command has all its parameters and only a command may follow;
`params n`, the last command takes `n` more parameter bytes; `stream`, a
RAM-write command has been received and pixel data or a command may
follow. -/
inductive Proto where
  | ready
  | params (n : Nat)
  | stream
deriving DecidableEq, Repr

/-- Specification: the commands of the protocol and what each is followed
by: the column-range and the row-range command by four parameter bytes, the
RAM-write command by a pixel stream, the scan-direction register by one
value byte.  No other byte is a command. -/
def Proto.command (c : Nat) : Option Proto :=
  if c = CASET then some (Proto.params 4)
  else if c = RASET then some (Proto.params 4)
  else if c = RAMWR then some Proto.stream
  else if c = MADCTL then some (Proto.params 1)
  else none

/-- Specification: one transfer, tagged by the level of the select line
during it, against the protocol.  A transfer made with the line low must be
exactly one command byte and must not interrupt the parameters of the
command before it; a transfer made with the line high must be parameter
bytes that a command is waiting for, no more than it takes, or pixel data
after a RAM-write.  `none` marks a violation: a command byte sent as data
appears as data that nothing waits for, data sent as a command as an unknown
or oversized command. -/
def Proto.step : Proto → Msg → Option Proto
  | Proto.params _, Msg.command _ => none
  | Proto.ready, Msg.command bs =>
    match bs with
    | [c] => Proto.command c
    | _ => none
  | Proto.stream, Msg.command bs =>
    match bs with
    | [c] => Proto.command c
    | _ => none
  | Proto.params n, Msg.data bs =>
    if bs.length < n then some (Proto.params (n - bs.length))
    else if bs.length = n then some Proto.ready
    else none
  | Proto.stream, Msg.data _ => some Proto.stream
  | Proto.ready, Msg.data _ => none

/-- Specification: the protocol state after a sequence of tagged transfers,
`none` if one of them violates the protocol. -/
def protoRun : Proto → List Msg → Option Proto
  | p, [] => some p
  | p, m :: ms =>
    match p.step m with
    | none => none
    | some q => protoRun q ms

/-- No parameter byte is outstanding. -/
def Proto.complete : Proto → Prop
  | Proto.params _ => False
  | _ => True

/-- The transfers of a trace, tagged by the level the select line has when
each is made, follow the protocol: started between two commands, with the
line at either level, every command byte arrives tagged as a command, every
parameter byte and every pixel byte arrives tagged as data, and the trace
ends between two commands. -/
def Accepted (tr : List Event) : Prop :=
  ∀ (l : Bool) (p : Proto), p.complete →
    ∃ q : Proto, q.complete ∧ protoRun p (transfers l tr) = some q

/-! # Verification -/

/-! ## Basic facts about bytes and 16-bit values -/

theorem hiByte_eq_div (v : Nat) : hiByte v = v / 256 % 256 := by
  simp [hiByte, Nat.shiftRight_eq_div_pow]

theorem loByte_eq_mod (v : Nat) : loByte v = v % 256 := by
  have h := Nat.and_pow_two_sub_one_eq_mod v 8
  simpa [loByte] using h

theorem hiByte_of_lt {v : Nat} (h : v < 65536) : hiByte v = v >>> 8 := by
  simp only [hiByte, Nat.shiftRight_eq_div_pow]
  have : v / 2 ^ 8 < 256 := by omega
  exact Nat.mod_eq_of_lt this

theorem bytes_join {v : Nat} (h : v < 65536) : hiByte v * 256 + loByte v = v := by
  rw [hiByte_eq_div, loByte_eq_mod]; omega

theorem toU16_lt (v : Int) : toU16 v < 65536 := by
  unfold toU16; omega

theorem spanU16_of_le {s e : Nat} (h : s ≤ e) (he : e < 65535) : spanU16 s e = e - s + 1 := by
  unfold spanU16 toU16; omega

theorem toU16_end {s e : Nat} (h : s ≤ e) (he : e < 65535) :
    toU16 ((s : Int) + (e - s + 1 : Nat) - 1) = e := by
  unfold toU16; omega

/-! ## Transfers of the window and fill routines -/

theorem transfers_WR_REG (l : Bool) (reg : Nat) (rest : List Event) :
    transfers l (LCD_WR_REG reg ++ rest) = Msg.command [reg] :: transfers true rest := by
  cases l <;> simp [LCD_WR_REG, transfers]

theorem transfers_dc_spi (l : Bool) (bs : List Nat) (rest : List Event) :
    transfers l (Event.dc true :: Event.spi bs :: rest) = Msg.data bs :: transfers true rest := by
  simp [transfers]

theorem transfers_SetWindows (dev : LcdDev) (sx sy width height : Nat) (l : Bool)
    (rest : List Event) :
    transfers l (LCD_SetWindows dev sx sy width height ++ rest) =
      [Msg.command [dev.setxcmd],
       Msg.data [hiByte sx, loByte sx, hiByte (toU16 ((sx : Int) + width - 1)),
                 loByte (toU16 ((sx : Int) + width - 1))],
       Msg.command [dev.setycmd],
       Msg.data [hiByte sy, loByte sy, hiByte (toU16 ((sy : Int) + height - 1)),
                 loByte (toU16 ((sy : Int) + height - 1))]] ++ transfers true rest := by
  simp only [LCD_SetWindows, List.append_assoc, transfers_WR_REG, List.cons_append,
    List.nil_append, transfers_dc_spi]

/-- Closed form of the send loop: iteration `k` sends the first
`min 10240 (total - (i + k * 10240))` pixels of the buffer. -/
theorem sendBatches_eq (buf : List Nat) (total : Nat) (ht : total + 10240 ≤ 2 ^ 32) :
    ∀ (fuel i : Nat), (total - i + 10239) / 10240 ≤ fuel →
      sendBatches buf total 10240 fuel i =
        (List.range ((total - i + 10239) / 10240)).map
          (fun k => Event.spi (buf.take (min 10240 (total - (i + k * 10240)) * 2))) := by
  intro fuel
  induction fuel with
  | zero =>
    intro i h
    have h0 : (total - i + 10239) / 10240 = 0 := by omega
    simp [sendBatches, h0]
  | succ fuel ih =>
    intro i h
    unfold sendBatches
    by_cases hi : i < total
    · have hw : (i + 10240) % 2 ^ 32 = i + 10240 := by
        apply Nat.mod_eq_of_lt; omega
      have hn : (total - i + 10239) / 10240 = (total - (i + 10240) + 10239) / 10240 + 1 := by
        omega
      have hcur : (if i + 10240 > total then (total - i) % 2 ^ 32 else 10240)
          = min 10240 (total - (i + 0 * 10240)) := by
        have hm : (total - i) % 2 ^ 32 = total - i := by apply Nat.mod_eq_of_lt; omega
        rw [hm]
        split <;> omega
      rw [if_pos hi, hw, ih (i + 10240) (by omega), hn, List.range_succ_eq_map]
      rw [List.map_cons, List.map_map, hcur]
      refine congrArg (List.cons _) ?_
      apply List.map_congr_left
      intro k _
      have : i + 10240 + k * 10240 = i + (k + 1) * 10240 := by omega
      show Event.spi (List.take (min 10240 (total - (i + 10240 + k * 10240)) * 2) buf) =
        Event.spi (List.take (min 10240 (total - (i + (k + 1) * 10240)) * 2) buf)
      rw [this]
    · have h0 : (total - i + 10239) / 10240 = 0 := by omega
      simp [hi, h0]

theorem transfers_map_spi (bss : List (List Nat)) :
    transfers true (bss.map Event.spi) = bss.map Msg.data := by
  induction bss with
  | nil => rfl
  | cons b bs ih => simp [transfers, ih]

theorem length_prefill (color n : Nat) : (prefill color n).length = 2 * n := by
  induction n with
  | zero => rfl
  | succ n ih => simp [prefill, ih]; omega

theorem spanU16_lt (s e : Nat) : spanU16 s e < 65536 := toU16_lt _

theorem total_bound (s e s' e' : Nat) :
    spanU16 s e * spanU16 s' e' + 10240 ≤ 2 ^ 32 := by
  have h1 := spanU16_lt s e
  have h2 := spanU16_lt s' e'
  have : spanU16 s e * spanU16 s' e' ≤ 65535 * 65535 :=
    Nat.mul_le_mul (by omega) (by omega)
  omega

/-- The chunks of data that `LCD_Fill` sends after the RAM-write command for
`total` pixels. -/
theorem LCD_Fill_transfers (dev : LcdDev) (sx sy ex ey color : Nat) (l : Bool) :
    transfers l (LCD_Fill dev sx sy ex ey color) =
      transfers l (LCD_SetWindows dev sx sy (spanU16 sx ex) (spanU16 sy ey)) ++
      [Msg.command [dev.wramcmd]] ++
      ((List.range ((spanU16 sx ex * spanU16 sy ey + 10239) / 10240)).map
        (fun k => (prefill color 10240).take
          (min 10240 (spanU16 sx ex * spanU16 sy ey - k * 10240) * 2))).map Msg.data := by
  have hb := total_bound sx ex sy ey
  have hmod : (spanU16 sx ex * spanU16 sy ey) % 2 ^ 32 = spanU16 sx ex * spanU16 sy ey := by
    apply Nat.mod_eq_of_lt; omega
  have hB : LCD_BATCH_BUFFER_SIZE / 2 = 10240 := by decide
  have hsend := sendBatches_eq (prefill color 10240) (spanU16 sx ex * spanU16 sy ey) hb
    (spanU16 sx ex * spanU16 sy ey) 0 (by omega)
  simp only [LCD_Fill, hmod, hB, List.append_assoc, transfers_SetWindows, LCD_WriteRAM_Prepare,
    transfers_WR_REG, List.cons_append, List.nil_append, hsend]
  have h2 := transfers_SetWindows dev sx sy (spanU16 sx ex) (spanU16 sy ey) l []
  simp only [List.append_nil] at h2
  rw [h2]
  simp only [List.cons_append, List.nil_append, transfers, Nat.sub_zero, Nat.zero_add,
    List.cons.injEq, true_and]
  rw [← transfers_map_spi, List.map_map]
  rfl

/-! ## The panel under the window and fill routines -/

theorem run_append (p : Panel) (a b : List Event) :
    Panel.run p (a ++ b) = Panel.run (Panel.run p a) b := by
  simp [Panel.run, List.foldl_append]

theorem run_map_spi (bss : List (List Nat)) :
    ∀ p : Panel, Panel.run p (bss.map Event.spi) = bss.flatten.foldl Panel.byte p := by
  induction bss with
  | nil => intro p; rfl
  | cons b bs ih =>
    intro p
    simp only [List.map_cons, Panel.run, List.foldl_cons, Panel.step, List.flatten_cons,
      List.foldl_append]
    exact ih _

theorem prefill_add (color a b : Nat) :
    prefill color a ++ prefill color b = prefill color (a + b) := by
  induction a with
  | zero => simp [prefill]
  | succ a ih =>
    have : a + 1 + b = (a + b) + 1 := by omega
    rw [this]
    simp [prefill, ih]

theorem take_prefill (color : Nat) : ∀ (n m : Nat), m ≤ n →
    (prefill color n).take (m * 2) = prefill color m := by
  intro n
  induction n with
  | zero => intro m h; have : m = 0 := by omega
            subst this; rfl
  | succ n ih =>
    intro m h
    cases m with
    | zero => simp [prefill]
    | succ m =>
      have : (m + 1) * 2 = m * 2 + 1 + 1 := by omega
      rw [this]
      simp only [prefill, List.take_succ_cons]
      rw [ih m (by omega)]

theorem prefill_eq_replicate (color n : Nat) :
    prefill color n = (List.replicate n [hiByte color, loByte color]).flatten := by
  induction n with
  | zero => rfl
  | succ n ih => simp [prefill, List.replicate_succ, ih]

/-- The chunks sent by the send loop, put end to end, are `total - i`
copies of the colour pair. -/
theorem flatten_chunks (color total : Nat) : ∀ (n i : Nat),
    (total - i + 10239) / 10240 = n →
    ((List.range n).map (fun k => (prefill color 10240).take
        (min 10240 (total - (i + k * 10240)) * 2))).flatten = prefill color (total - i) := by
  intro n
  induction n with
  | zero =>
    intro i h
    have : total - i = 0 := by omega
    rw [this]; rfl
  | succ n ih =>
    intro i h
    rw [List.range_succ_eq_map, List.map_cons, List.map_map, List.flatten_cons]
    have h1 : min 10240 (total - (i + 0 * 10240)) ≤ 10240 := Nat.min_le_left _ _
    rw [take_prefill color 10240 _ h1]
    have h2 := ih (i + 10240) (by omega)
    have h3 : (List.map ((fun k => List.take (min 10240 (total - (i + k * 10240)) * 2)
        (prefill color 10240)) ∘ Nat.succ) (List.range n)) =
        (List.map (fun k => List.take (min 10240 (total - (i + 10240 + k * 10240)) * 2)
        (prefill color 10240)) (List.range n)) := by
      apply List.map_congr_left
      intro k _
      have : i + 10240 + k * 10240 = i + (k + 1) * 10240 := by omega
      show List.take (min 10240 (total - (i + (k + 1) * 10240)) * 2) (prefill color 10240) = _
      rw [this]
    rw [h3, h2, prefill_add]
    have : min 10240 (total - (i + 0 * 10240)) + (total - (i + 10240)) = total - i := by omega
    rw [this]

/-- A stream of `n` copies of a colour pair appends `n` pixel writes. -/
theorem stream_prefill (color : Nat) (hc : color < 65536) : ∀ (n : Nat) (p : Panel),
    p.dcHigh = true → p.reg = RAMWR → p.args = [] →
    (prefill color n).foldl Panel.byte p =
      { p with count := p.count + n,
               fb := p.fb ++ (List.range n).map
                 (fun k => (landing p.xs p.xe p.ys (p.count + k), color)) } := by
  intro n
  induction n with
  | zero => intro p _ _ _; simp [prefill]
  | succ n ih =>
    intro p h1 h2 h3
    have hb1 : p.byte (hiByte color) = { p with args := [hiByte color] } := by
      simp [Panel.byte, h1, h2, h3, CASET, RASET, RAMWR]
    have hb2 : ({ p with args := [hiByte color] } : Panel).byte (loByte color) =
        { p with count := p.count + 1,
                 fb := p.fb ++ [(landing p.xs p.xe p.ys p.count, color)] } := by
      simp [Panel.byte, h1, h2, h3, CASET, RASET, RAMWR, bytes_join hc]
    simp only [prefill, List.foldl_cons, hb1, hb2]
    rw [ih { p with count := p.count + 1,
                    fb := p.fb ++ [(landing p.xs p.xe p.ys p.count, color)] } h1 h2 h3]
    simp only [List.range_succ_eq_map, List.map_cons, List.map_map, List.append_assoc,
      List.singleton_append, Nat.add_zero]
    have : (fun k => (landing p.xs p.xe p.ys (p.count + 1 + k), color)) =
        ((fun k => (landing p.xs p.xe p.ys (p.count + k), color)) ∘ Nat.succ) := by
      funext k
      simp only [Function.comp, Nat.succ_eq_add_one]
      have : p.count + 1 + k = p.count + (k + 1) := by omega
      rw [this]
    rw [this]
    have : p.count + 1 + n = p.count + (n + 1) := by omega
    rw [this]

/-- The panel after the window, the RAM-write command and the switch to
data mode that open `LCD_Fill`. -/
theorem run_window (dev : LcdDev) (hcfg : dev.Configured) (sx sy width height : Nat)
    (hsx : sx < 65536) (hsy : sy < 65536) (p : Panel) :
    Panel.run p (LCD_SetWindows dev sx sy width height ++ LCD_WriteRAM_Prepare dev ++
        [Event.dc true]) =
      { dcHigh := true, reg := RAMWR, args := [],
        xs := sx, xe := toU16 ((sx : Int) + width - 1),
        ys := sy, ye := toU16 ((sy : Int) + height - 1),
        count := 0, fb := p.fb } := by
  obtain ⟨hw, hx, hy⟩ := hcfg
  have e1 := bytes_join (toU16_lt ((sx : Int) + width - 1))
  have e2 := bytes_join (toU16_lt ((sy : Int) + height - 1))
  simp [Panel.run, Panel.step, Panel.byte, LCD_SetWindows, LCD_WriteRAM_Prepare, LCD_WR_REG,
    hw, hx, hy, CASET, RASET, RAMWR, bytes_join hsx, bytes_join hsy, e1, e2]

/-- The panel after `LCD_Fill`: the stream lands in the programmed window
in row-major order. -/
theorem run_LCD_Fill (dev : LcdDev) (hcfg : dev.Configured) (sx sy ex ey color : Nat)
    (hsx : sx < 65536) (hsy : sy < 65536) (hc : color < 65536) (p : Panel) :
    Panel.run p (LCD_Fill dev sx sy ex ey color) =
      { dcHigh := true, reg := RAMWR, args := [],
        xs := sx, xe := toU16 ((sx : Int) + spanU16 sx ex - 1),
        ys := sy, ye := toU16 ((sy : Int) + spanU16 sy ey - 1),
        count := spanU16 sx ex * spanU16 sy ey,
        fb := p.fb ++ (List.range (spanU16 sx ex * spanU16 sy ey)).map
          (fun k => (landing sx (toU16 ((sx : Int) + spanU16 sx ex - 1)) sy k, color)) } := by
  have hb := total_bound sx ex sy ey
  have hmod : (spanU16 sx ex * spanU16 sy ey) % 2 ^ 32 = spanU16 sx ex * spanU16 sy ey := by
    apply Nat.mod_eq_of_lt; omega
  have hB : LCD_BATCH_BUFFER_SIZE / 2 = 10240 := by decide
  have hsend := sendBatches_eq (prefill color 10240) (spanU16 sx ex * spanU16 sy ey) hb
    (spanU16 sx ex * spanU16 sy ey) 0 (by omega)
  have hfl := flatten_chunks color (spanU16 sx ex * spanU16 sy ey) _ 0 rfl
  have hmap : (List.range ((spanU16 sx ex * spanU16 sy ey - 0 + 10239) / 10240)).map
      (fun k => Event.spi ((prefill color 10240).take
        (min 10240 (spanU16 sx ex * spanU16 sy ey - (0 + k * 10240)) * 2))) =
      ((List.range ((spanU16 sx ex * spanU16 sy ey - 0 + 10239) / 10240)).map
      (fun k => (prefill color 10240).take
        (min 10240 (spanU16 sx ex * spanU16 sy ey - (0 + k * 10240)) * 2))).map Event.spi := by
    rw [List.map_map]; rfl
  simp only [LCD_Fill, hmod, hB, hsend]
  rw [run_append, run_window dev hcfg sx sy _ _ hsx hsy p, hmap, run_map_spi, hfl,
    Nat.sub_zero, stream_prefill color hc _ _ rfl rfl rfl]
  simp

/-- The panel after `LCD_DrawPoint`: one pixel write at `(x, y)`. -/
theorem run_LCD_DrawPoint (dev : LcdDev) (hcfg : dev.Configured) (x y color : Nat)
    (hx : x < 65536) (hy : y < 65536) (hc : color < 65536) (p : Panel) :
    Panel.run p (LCD_DrawPoint dev x y color) =
      { dcHigh := true, reg := RAMWR, args := [], xs := x, xe := x, ys := y, ye := y,
        count := 1, fb := p.fb ++ [((x, y), color)] } := by
  obtain ⟨hw, hsx, hsy⟩ := hcfg
  simp [Panel.run, Panel.step, Panel.byte, LCD_DrawPoint, LCD_SetCursor, LCD_WriteRAM_Prepare,
    LCD_WriteRAM, LCD_WR_DATA_16BIT, LCD_WR_REG, hw, hsx, hsy, CASET, RASET, RAMWR,
    bytes_join hx, bytes_join hy, bytes_join hc, landing]

/-- Row-major traversal of a `w` by `h` window covers exactly the window. -/
theorem mem_window (sx sy w h x y : Nat) (hw : 0 < w) :
    (∃ k, k < w * h ∧ sx + k % w = x ∧ sy + k / w = y) ↔
      (sx ≤ x ∧ x < sx + w ∧ sy ≤ y ∧ y < sy + h) := by
  constructor
  · rintro ⟨k, hk, rfl, rfl⟩
    have h1 : k % w < w := Nat.mod_lt _ hw
    have h2 : k / w < h := by
      rw [Nat.div_lt_iff_lt_mul hw]
      rw [Nat.mul_comm]; exact hk
    exact ⟨Nat.le_add_right _ _, by omega, Nat.le_add_right _ _, by omega⟩
  · rintro ⟨h1, h2, h3, h4⟩
    refine ⟨(x - sx) + w * (y - sy), ?_, ?_, ?_⟩
    · have : w * (y - sy) + w ≤ w * h := by
        have : y - sy + 1 ≤ h := by omega
        calc w * (y - sy) + w = w * (y - sy + 1) := by ring
          _ ≤ w * h := Nat.mul_le_mul_left _ this
      omega
    · rw [Nat.add_mul_mod_self_left, Nat.mod_eq_of_lt (by omega)]; omega
    · rw [Nat.add_mul_div_left _ _ hw, Nat.div_eq_of_lt (by omega)]; omega

/-! ## Claims on `LCD_SetWindows` and `LCD_Fill` -/

/-- C3: for 16-bit `sx`, `sy`, `LCD_SetWindows` sends exactly the command
byte `lcddev.setxcmd`, the four data bytes `sx>>8, sx&0xFF, ex>>8, ex&0xFF`,
the command byte `lcddev.setycmd` and the four data bytes
`sy>>8, sy&0xFF, ey>>8, ey&0xFF`, where `ex` is `sx + width - 1` and `ey` is
`sy + height - 1` reduced modulo `2^16` (written `(sx + width + 65535) mod
65536` in the naturals, which also covers `sx + width = 0`). -/
theorem LCD_SetWindows_emits (dev : LcdDev) (sx sy width height : Nat)
    (hsx : sx < 65536) (hsy : sy < 65536) (l : Bool) :
    transfers l (LCD_SetWindows dev sx sy width height) =
      [Msg.command [dev.setxcmd],
       Msg.data [sx >>> 8, sx &&& 0xFF,
                 ((sx + width + 65535) % 65536) >>> 8, ((sx + width + 65535) % 65536) &&& 0xFF],
       Msg.command [dev.setycmd],
       Msg.data [sy >>> 8, sy &&& 0xFF,
                 ((sy + height + 65535) % 65536) >>> 8,
                 ((sy + height + 65535) % 65536) &&& 0xFF]] := by
  have h := transfers_SetWindows dev sx sy width height l []
  simp only [List.append_nil, transfers] at h
  have ex : toU16 ((sx : Int) + width - 1) = (sx + width + 65535) % 65536 := by
    unfold toU16; omega
  have ey : toU16 ((sy : Int) + height - 1) = (sy + height + 65535) % 65536 := by
    unfold toU16; omega
  have bx : (sx + width + 65535) % 65536 < 65536 := Nat.mod_lt _ (by decide)
  have b_y : (sy + height + 65535) % 65536 < 65536 := Nat.mod_lt _ (by decide)
  rw [h, ex, ey, hiByte_of_lt hsx, hiByte_of_lt hsy, hiByte_of_lt bx, hiByte_of_lt b_y]
  rfl

/-- The window `300 .. 319` by `10 .. 10` on a 240 x 320 surface, sent with
the select line initially low. -/
theorem LCD_SetWindows_emits_witness :
    (300 < 65536 ∧ 10 < 65536) ∧
      transfers false (LCD_SetWindows ⟨240, 320, 0, 0x2C, 0x2A, 0x2B⟩ 300 10 20 1) =
        [Msg.command [0x2A], Msg.data [1, 44, 1, 63],
         Msg.command [0x2B], Msg.data [0, 10, 0, 10]] :=
  ⟨⟨by decide, by decide⟩,
   LCD_SetWindows_emits ⟨240, 320, 0, 0x2C, 0x2A, 0x2B⟩ 300 10 20 1 (by decide) (by decide) false⟩

/-- C2: with `N = width * height` the pixel count of `LCD_Fill` and
`C = 10240`, the data transfers after the RAM-write command are
`ceil(N / C)` in number; every transfer but the last carries `C` pixels
(20480 bytes), the last carries `N mod C` pixels, or `C` when `N` is a
positive multiple of `C`; no transfer exceeds the staging buffer; and
`N = 0` issues no data transfer. -/
theorem LCD_Fill_chunking (dev : LcdDev) (sx sy ex ey color : Nat) (l : Bool) :
    ∃ chunks : List (List Nat),
      transfers l (LCD_Fill dev sx sy ex ey color) =
        transfers l (LCD_SetWindows dev sx sy (spanU16 sx ex) (spanU16 sy ey)) ++
          [Msg.command [dev.wramcmd]] ++ chunks.map Msg.data ∧
      chunks.length = (spanU16 sx ex * spanU16 sy ey + 10239) / 10240 ∧
      (∀ k, k + 1 < chunks.length → (chunks[k]?).map List.length = some 20480) ∧
      (0 < spanU16 sx ex * spanU16 sy ey →
        chunks.getLast?.map List.length =
          some (2 * (if (spanU16 sx ex * spanU16 sy ey) % 10240 = 0 then 10240
                     else (spanU16 sx ex * spanU16 sy ey) % 10240))) ∧
      (∀ c ∈ chunks, c.length ≤ LCD_BATCH_BUFFER_SIZE) ∧
      (spanU16 sx ex * spanU16 sy ey = 0 → chunks = []) := by
  refine ⟨_, LCD_Fill_transfers dev sx sy ex ey color l, ?_, ?_, ?_, ?_, ?_⟩
  · simp
  · intro k hk
    simp only [List.length_map, List.length_range] at hk
    rw [List.getElem?_map, List.getElem?_range (by omega)]
    simp only [Option.map_some', List.length_take, length_prefill]
    congr 1
    omega
  · intro hpos
    rw [List.getLast?_eq_getElem?, List.getElem?_map, List.length_map, List.length_range,
      List.getElem?_range (by omega)]
    simp only [Option.map_some', List.length_take, length_prefill]
    congr 1
    split <;> omega
  · intro c hc
    simp only [List.mem_map, List.mem_range] at hc
    obtain ⟨k, _, rfl⟩ := hc
    simp only [List.length_take, length_prefill, LCD_BATCH_BUFFER_SIZE]
    omega
  · intro h0
    simp [h0]

/-- C1: for a rectangle with `sx <= ex < lcddev.width` and
`sy <= ey < lcddev.height`, `LCD_Fill` programs the window
`[sx..ex] x [sy..ey]`, issues the RAM-write command, and the data bytes it
then sends, put end to end, are `(ex-sx+1)*(ey-sy+1)` copies of the pair
`color>>8, color&0xFF`; on the panel the stream lands in row-major order
from `(sx, sy)`, and the pixels written are exactly those of the rectangle,
each with the colour. -/
theorem LCD_Fill_rectangle (dev : LcdDev) (sx sy ex ey color : Nat)
    (hcfg : dev.Configured) (hW : dev.width < 65536) (hH : dev.height < 65536)
    (hx : sx ≤ ex) (hxw : ex < dev.width) (hy : sy ≤ ey) (hyh : ey < dev.height)
    (hc : color < 65536) :
    ∃ chunks : List (List Nat),
      (∀ l, transfers l (LCD_Fill dev sx sy ex ey color) =
        [Msg.command [dev.setxcmd], Msg.data [sx >>> 8, sx &&& 0xFF, ex >>> 8, ex &&& 0xFF],
         Msg.command [dev.setycmd], Msg.data [sy >>> 8, sy &&& 0xFF, ey >>> 8, ey &&& 0xFF],
         Msg.command [dev.wramcmd]] ++ chunks.map Msg.data) ∧
      chunks.flatten =
        (List.replicate ((ex - sx + 1) * (ey - sy + 1))
          [color >>> 8, color &&& 0xFF]).flatten ∧
      (∀ p : Panel, (Panel.run p (LCD_Fill dev sx sy ex ey color)).fb =
        p.fb ++ (List.range ((ex - sx + 1) * (ey - sy + 1))).map
          (fun k => ((sx + k % (ex - sx + 1), sy + k / (ex - sx + 1)), color))) ∧
      (∀ x y, (x, y) ∈ painted (LCD_Fill dev sx sy ex ey color) ↔
        sx ≤ x ∧ x ≤ ex ∧ sy ≤ y ∧ y ≤ ey) := by
  have hw : spanU16 sx ex = ex - sx + 1 := spanU16_of_le hx (by omega)
  have hh : spanU16 sy ey = ey - sy + 1 := spanU16_of_le hy (by omega)
  have hex : toU16 ((sx : Int) + (ex - sx + 1 : Nat) - 1) = ex := toU16_end hx (by omega)
  have hey : toU16 ((sy : Int) + (ey - sy + 1 : Nat) - 1) = ey := toU16_end hy (by omega)
  have hrun : ∀ p : Panel, (Panel.run p (LCD_Fill dev sx sy ex ey color)).fb =
      p.fb ++ (List.range ((ex - sx + 1) * (ey - sy + 1))).map
        (fun k => ((sx + k % (ex - sx + 1), sy + k / (ex - sx + 1)), color)) := by
    intro p
    rw [run_LCD_Fill dev hcfg sx sy ex ey color (by omega) (by omega) hc p]
    simp only [hw, hh, hex, landing]
    have : ex + 1 - sx = ex - sx + 1 := by omega
    rw [this]
  refine ⟨(List.range ((spanU16 sx ex * spanU16 sy ey + 10239) / 10240)).map
        (fun k => (prefill color 10240).take
          (min 10240 (spanU16 sx ex * spanU16 sy ey - k * 10240) * 2)), ?_, ?_, hrun, ?_⟩
  · intro l
    have h := LCD_Fill_transfers dev sx sy ex ey color l
    have h2 := transfers_SetWindows dev sx sy (spanU16 sx ex) (spanU16 sy ey) l []
    simp only [List.append_nil, transfers] at h2
    rw [h, h2, hw, hh, hex, hey, hiByte_of_lt (show sx < 65536 by omega),
      hiByte_of_lt (show sy < 65536 by omega), hiByte_of_lt (show ex < 65536 by omega),
      hiByte_of_lt (show ey < 65536 by omega)]
    rfl
  · have hfl := flatten_chunks color (spanU16 sx ex * spanU16 sy ey) _ 0 rfl
    simp only [Nat.sub_zero, Nat.zero_add] at hfl
    rw [hw, hh] at hfl
    rw [hw, hh, hfl, prefill_eq_replicate, hiByte_of_lt hc]
    rfl
  · intro x y
    unfold painted
    rw [hrun Panel.idle]
    simp only [Panel.idle, List.nil_append, List.map_map, List.mem_map, List.mem_range,
      Function.comp, Prod.mk.injEq]
    have hm := mem_window sx sy (ex - sx + 1) (ey - sy + 1) x y (by omega)
    rw [hm]
    constructor
    · rintro ⟨a, b, c, d⟩
      exact ⟨a, by omega, c, by omega⟩
    · rintro ⟨a, b, c, d⟩
      exact ⟨a, by omega, c, by omega⟩

/-- The rectangle `(5,10) - (7,11)` in red on a 240 x 320 surface: six
pixels, three per row. -/
theorem LCD_Fill_rectangle_witness :
    ((⟨240, 320, 0, 0x2C, 0x2A, 0x2B⟩ : LcdDev).Configured ∧ 240 < 65536 ∧ 320 < 65536 ∧
      5 ≤ 7 ∧ 7 < 240 ∧ 10 ≤ 11 ∧ 11 < 320 ∧ 0xF800 < 65536) ∧
    ∃ chunks : List (List Nat),
      (∀ l, transfers l (LCD_Fill ⟨240, 320, 0, 0x2C, 0x2A, 0x2B⟩ 5 10 7 11 0xF800) =
        [Msg.command [0x2A], Msg.data [0, 5, 0, 7], Msg.command [0x2B], Msg.data [0, 10, 0, 11],
         Msg.command [0x2C]] ++ chunks.map Msg.data) ∧
      chunks.flatten = (List.replicate 6 [0xF8, 0]).flatten ∧
      (∀ p : Panel, (Panel.run p (LCD_Fill ⟨240, 320, 0, 0x2C, 0x2A, 0x2B⟩ 5 10 7 11 0xF800)).fb =
        p.fb ++ [((5, 10), 0xF800), ((6, 10), 0xF800), ((7, 10), 0xF800),
                 ((5, 11), 0xF800), ((6, 11), 0xF800), ((7, 11), 0xF800)]) ∧
      (∀ x y, (x, y) ∈ painted (LCD_Fill ⟨240, 320, 0, 0x2C, 0x2A, 0x2B⟩ 5 10 7 11 0xF800) ↔
        5 ≤ x ∧ x ≤ 7 ∧ 10 ≤ y ∧ y ≤ 11) :=
  ⟨⟨by decide, by decide, by decide, by decide, by decide, by decide, by decide, by decide⟩,
   LCD_Fill_rectangle ⟨240, 320, 0, 0x2C, 0x2A, 0x2B⟩ 5 10 7 11 0xF800
     (by decide) (by decide) (by decide) (by decide) (by decide) (by decide) (by decide)
     (by decide)⟩

/-! ## `LCD_DrawPoints`: runs -/

theorem runExtent_le (y0 : Nat) : ∀ (l : List Pt) (prev : Nat), runExtent y0 prev l ≤ l.length := by
  intro l
  induction l with
  | nil => intro prev; simp [runExtent]
  | cons q qs ih =>
    intro prev
    simp only [runExtent, List.length_cons]
    split
    · have := ih q.1; omega
    · omega

/-- The first maximal run of `p :: rest` has the length found by the inner
loop of `LCD_DrawPoints`. -/
theorem maximalRuns_cons (rest : List Pt) : ∀ p : Pt,
    maximalRuns (p :: rest) =
      (p :: rest.take (runExtent p.2 p.1 rest)) ::
        maximalRuns (rest.drop (runExtent p.2 p.1 rest)) := by
  induction rest with
  | nil => intro p; simp [maximalRuns, runExtent]
  | cons q qs ih =>
    intro p
    have hq := ih q
    by_cases h : follows p q
    · have hk : runExtent p.2 p.1 (q :: qs) = runExtent q.2 q.1 qs + 1 := by
        obtain ⟨h1, h2⟩ := h
        simp [runExtent, h1, h2]
      rw [hk]
      conv_lhs => unfold maximalRuns
      rw [hq]
      simp [h]
    · have hk : runExtent p.2 p.1 (q :: qs) = 0 := by
        have : ¬ (q.2 = p.2 ∧ q.1 = p.1 + 1) := h
        simp [runExtent, this]
      rw [hk]
      conv_lhs => unfold maximalRuns
      rw [hq]
      simp only [h, if_false, List.take_zero, List.drop_zero]
      rw [hq]

theorem getD_eq_getLastD_take : ∀ (k : Nat) (p : Pt) (rest : List Pt), k ≤ rest.length →
    (p :: rest).getD k (0, 0) = (p :: rest.take k).getLastD (0, 0) := by
  intro k
  induction k with
  | zero => intro p rest _; simp
  | succ k ih =>
    intro p rest h
    cases rest with
    | nil => simp at h
    | cons q qs =>
      have := ih q qs (by simpa using h)
      simp only [List.getD_cons_succ, List.take_succ_cons, this]
      simp [List.getLastD_cons]

/-- The batch loop of `LCD_DrawPoints` emits one call per maximal run. -/
theorem drawBatch_eq (color : Nat) : ∀ (fuel : Nat) (l : List Pt), l.length ≤ fuel →
    drawBatch color fuel l = (maximalRuns l).map (runCall color) := by
  intro fuel
  induction fuel with
  | zero =>
    intro l h
    have : l = [] := List.eq_nil_of_length_eq_zero (by omega)
    subst this; simp [drawBatch, maximalRuns]
  | succ fuel ih =>
    intro l h
    cases l with
    | nil => simp [drawBatch, maximalRuns]
    | cons p rest =>
      have hk := runExtent_le p.2 rest p.1
      rw [maximalRuns_cons, List.map_cons, drawBatch]
      simp only [Nat.add_sub_cancel_left]
      rw [ih (rest.drop (runExtent p.2 p.1 rest))
        (by simp only [List.length_drop, List.length_cons] at h ⊢; omega)]
      refine congrArg (fun o => o :: _) ?_
      unfold runCall
      rw [getD_eq_getLastD_take _ p rest hk]
      simp only [List.length_cons, List.length_take, List.headD_cons, Nat.min_eq_left hk]
      by_cases h0 : runExtent p.2 p.1 rest = 0
      · simp [h0]
      · have h1 : 1 + runExtent p.2 p.1 rest > 1 := by omega
        have h2 : runExtent p.2 p.1 rest + 1 > 1 := by omega
        simp only [h1, h2, if_true]

/-- When every point lies on the surface and there are at most 256 of
them, the scan of `LCD_DrawPoints` flushes once, at the last point, with the
whole input as its batch. -/
theorem scanPoints_all (dev : LcdDev) (color n : Nat) (hn : n ≤ 256) :
    ∀ (rest : List Pt) (i : Nat) (batch : List Pt), rest ≠ [] →
      (∀ p ∈ rest, dev.inBounds p) → batch.length = i → i + rest.length = n →
      scanPoints dev color n rest i batch = drawBatch color n (batch ++ rest) := by
  intro rest
  induction rest with
  | nil => intro i batch h; exact absurd rfl h
  | cons p rest ih =>
    intro i batch _ hin hb hlen
    have hp : dev.inBounds p := hin p (List.mem_cons_self _ _)
    have hnot : ¬ (p.1 ≥ dev.width ∨ p.2 ≥ dev.height) := by
      unfold LcdDev.inBounds at hp; omega
    simp only [List.length_cons] at hlen
    unfold scanPoints
    rw [if_neg hnot]
    simp only [List.length_append, List.length_singleton, hb]
    cases rest with
    | nil =>
      simp only [List.length_nil] at hlen
      have hc : i + 1 ≥ 256 ∨ i = n - 1 := Or.inr (by omega)
      rw [if_pos hc]
      have : i + 1 = n := by omega
      simp [scanPoints, this]
    | cons q qs =>
      simp only [List.length_cons] at hlen
      have hc : ¬ (i + 1 ≥ 256 ∨ i = n - 1) := by omega
      rw [if_neg hc]
      rw [ih (i + 1) (batch ++ [p]) (by simp)
        (fun r hr => hin r (List.mem_cons_of_mem _ hr)) (by simp [hb])
        (by simp only [List.length_cons]; omega)]
      simp

/-- The maximal runs partition the input in order, each is a non-empty
run, and no run can be extended by the point that starts the next one. -/
theorem maximalRuns_spec (pts : List Pt) :
    (maximalRuns pts).flatten = pts ∧
    (∀ r ∈ maximalRuns pts, r ≠ [] ∧ r.Chain' follows) ∧
    (maximalRuns pts).Chain' (fun r s => ∀ a ∈ r.getLast?, ∀ b ∈ s.head?, ¬ follows a b) := by
  induction pts with
  | nil => simp [maximalRuns]
  | cons p ps ih =>
    obtain ⟨h1, h2, h3⟩ := ih
    unfold maximalRuns
    cases hm : maximalRuns ps with
    | nil =>
      rw [hm] at h1
      simp only [List.flatten_nil] at h1
      subst h1
      simp
    | cons r0 rs =>
      rw [hm] at h1 h2 h3
      cases r0 with
      | nil => exact absurd rfl (h2 [] (List.mem_cons_self _ _)).1
      | cons q r =>
        by_cases hf : follows p q
        · simp only [hf, if_true]
          refine ⟨by simpa using h1, ?_, ?_⟩
          · intro s hs
            rcases List.mem_cons.1 hs with rfl | hs
            · refine ⟨by simp, ?_⟩
              exact List.Chain'.cons hf (h2 _ (List.mem_cons_self _ _)).2
            · exact h2 s (List.mem_cons_of_mem _ hs)
          · cases rs with
            | nil => simp
            | cons s ss =>
              rw [List.chain'_cons] at h3 ⊢
              refine ⟨?_, h3.2⟩
              intro a ha
              apply h3.1 a
              simpa [List.getLast?_cons_cons] using ha
        · simp only [hf, if_false]
          refine ⟨by simpa using h1, ?_, ?_⟩
          · intro s hs
            rcases List.mem_cons.1 hs with rfl | hs
            · simp
            · exact h2 s hs
          · rw [List.chain'_cons]
            refine ⟨?_, h3⟩
            intro a ha b hb
            simp at ha hb
            subst ha hb
            exact hf

/-- C4: for at most 256 points that all lie on the surface,
`LCD_DrawPoints` makes, in input order, exactly one drawing call per maximal
run (consecutive points with equal `y` and `x` increasing by exactly 1): a
fill from the run's first `x` to its last `x` on that row when the run is
longer than 1, a single point when the run has length 1.  The maximal runs
partition the input in order, each is a non-empty run, and no run can be
extended by the first point of the next. -/
theorem LCD_DrawPoints_runs (dev : LcdDev) (pts : List Pt) (color : Nat)
    (hn : pts.length ≤ 256) (hin : ∀ p ∈ pts, dev.inBounds p) :
    LCD_DrawPoints.calls dev pts color = (maximalRuns pts).map (runCall color) ∧
    LCD_DrawPoints dev pts color = emitAll dev ((maximalRuns pts).map (runCall color)) ∧
    (maximalRuns pts).flatten = pts ∧
    (∀ r ∈ maximalRuns pts, r ≠ [] ∧ r.Chain' follows) ∧
    (maximalRuns pts).Chain' (fun r s => ∀ a ∈ r.getLast?, ∀ b ∈ s.head?, ¬ follows a b) := by
  have hcalls : LCD_DrawPoints.calls dev pts color = (maximalRuns pts).map (runCall color) := by
    match pts, hn, hin with
    | [], _, _ => simp [LCD_DrawPoints.calls, maximalRuns]
    | [p], _, _ => simp [LCD_DrawPoints.calls, maximalRuns, runCall]
    | p :: q :: rest, hn, hin =>
      unfold LCD_DrawPoints.calls
      rw [scanPoints_all dev color _ hn (p :: q :: rest) 0 [] (by simp) hin rfl (by simp)]
      exact drawBatch_eq color _ _ (by simp)
  obtain ⟨h1, h2, h3⟩ := maximalRuns_spec pts
  exact ⟨hcalls, by unfold LCD_DrawPoints; rw [hcalls], h1, h2, h3⟩

/-- The input `[(5,10), (6,10), (7,10), (9,10)]` gives one fill
`(5,10) - (7,10)` and one point `(9,10)`. -/
theorem LCD_DrawPoints_runs_witness :
    ([(5, 10), (6, 10), (7, 10), (9, 10)].length ≤ 256 ∧
      ∀ p ∈ [((5, 10) : Pt), (6, 10), (7, 10), (9, 10)],
        (⟨240, 320, 0, 0x2C, 0x2A, 0x2B⟩ : LcdDev).inBounds p) ∧
    LCD_DrawPoints.calls ⟨240, 320, 0, 0x2C, 0x2A, 0x2B⟩ [(5, 10), (6, 10), (7, 10), (9, 10)]
      0xF800 = [Op.fill 5 10 7 10 0xF800, Op.point 9 10 0xF800] :=
  ⟨⟨by decide, by decide⟩,
   (LCD_DrawPoints_runs ⟨240, 320, 0, 0x2C, 0x2A, 0x2B⟩ [(5, 10), (6, 10), (7, 10), (9, 10)]
     0xF800 (by decide) (by decide)).1⟩

/-! ## `LCD_DrawPoints`: points off the surface -/

/-- C5 (defect): on a 240 x 320 surface the input `[(1,1), (300,1)]` makes
`LCD_DrawPoints` draw nothing.  The point `(1,1)` lies on the surface and is
put in the batch, but the batch is only flushed from the iteration of the
last index, and that iteration is skipped because `(300,1)` is off the
surface. -/
theorem LCD_DrawPoints_drops_pending_batch :
    (⟨240, 320, 0, 0x2C, 0x2A, 0x2B⟩ : LcdDev).inBounds (1, 1) ∧
    LCD_DrawPoints.calls ⟨240, 320, 0, 0x2C, 0x2A, 0x2B⟩ [(1, 1), (300, 1)] 0xF800 = [] ∧
    LCD_DrawPoints ⟨240, 320, 0, 0x2C, 0x2A, 0x2B⟩ [(1, 1), (300, 1)] 0xF800 = [] ∧
    (1, 1) ∉ painted (LCD_DrawPoints ⟨240, 320, 0, 0x2C, 0x2A, 0x2B⟩ [(1, 1), (300, 1)] 0xF800) := by
  decide

/-- C6 (defect): on a 240 x 320 surface the one-point input `[(300,1)]`
makes `LCD_DrawPoints` call `LCD_DrawPoint(300, 1)`: the single-point
shortcut is taken before the bounds test of the loop, so a window and a
pixel are sent for a point off the surface. -/
theorem LCD_DrawPoints_single_point_unchecked :
    ¬ (⟨240, 320, 0, 0x2C, 0x2A, 0x2B⟩ : LcdDev).inBounds (300, 1) ∧
    LCD_DrawPoints.calls ⟨240, 320, 0, 0x2C, 0x2A, 0x2B⟩ [(300, 1)] 0xF800 =
      [Op.point 300 1 0xF800] ∧
    transfers true (LCD_DrawPoints ⟨240, 320, 0, 0x2C, 0x2A, 0x2B⟩ [(300, 1)] 0xF800) =
      [Msg.command [0x2A], Msg.data [1, 44, 1, 44], Msg.command [0x2B], Msg.data [0, 1, 0, 1],
       Msg.command [0x2C], Msg.data [0xF8, 0]] ∧
    painted (LCD_DrawPoints ⟨240, 320, 0, 0x2C, 0x2A, 0x2B⟩ [(300, 1)] 0xF800) = [(300, 1)] := by
  decide

/-! ## `LCD_DrawLine` -/

/-- C7 (defect): on a 240 x 320 surface the line from `(5,0)` to `(0,5)`
paints the column `x = 5` from `y = 0` to `y = 5`; the end point `(0,5)` is
not painted.  `delta_x` is negative and is added to `xerr` as it is, so
`xerr` never exceeds `distance` and `x` never moves. -/
theorem LCD_DrawLine_leftward_misses_end :
    (⟨240, 320, 0, 0x2C, 0x2A, 0x2B⟩ : LcdDev).inBounds (5, 0) ∧
    (⟨240, 320, 0, 0x2C, 0x2A, 0x2B⟩ : LcdDev).inBounds (0, 5) ∧
    (LCD_DrawLine ⟨240, 320, 0, 0x2C, 0x2A, 0x2B⟩ 5 0 0 5 0xF800).map painted =
      some [(5, 0), (5, 0), (5, 1), (5, 2), (5, 3), (5, 4), (5, 5)] ∧
    (LCD_DrawLine ⟨240, 320, 0, 0x2C, 0x2A, 0x2B⟩ 5 0 0 5 0xF800).map
      (fun tr => decide ((0, 5) ∈ painted tr)) = some false := by
  decide

/-- C8: for end points with `x1 == x2` or `y1 == y2`, `LCD_DrawLine`
returns, and its transport events are exactly those of one `LCD_Fill` over
the segment with its end points in ascending order:
`LCD_Fill(x1, min(y1,y2), x1, max(y1,y2))` for a vertical line,
`LCD_Fill(min(x1,x2), y1, max(x1,x2), y1)` for a horizontal one; the result
does not depend on the order of the two end points. -/
theorem LCD_DrawLine_axis_aligned (dev : LcdDev) (x1 y1 x2 y2 color : Nat)
    (h : x1 = x2 ∨ y1 = y2) :
    (x1 = x2 → LCD_DrawLine dev x1 y1 x2 y2 color =
      some (LCD_Fill dev x1 (min y1 y2) x1 (max y1 y2) color)) ∧
    (y1 = y2 → LCD_DrawLine dev x1 y1 x2 y2 color =
      some (LCD_Fill dev (min x1 x2) y1 (max x1 x2) y1 color)) ∧
    LCD_DrawLine dev x1 y1 x2 y2 color = LCD_DrawLine dev x2 y2 x1 y1 color := by
  have hv : ∀ a b c : Nat, LCD_DrawLine dev a b a c color =
      some (LCD_Fill dev a (min b c) a (max b c) color) := by
    intro a b c
    unfold LCD_DrawLine LCD_DrawLine.calls
    by_cases hbc : b > c
    · simp [hbc, emitAll, Op.emit, Nat.min_eq_right (Nat.le_of_lt hbc),
        Nat.max_eq_left (Nat.le_of_lt hbc)]
    · have hle : b ≤ c := Nat.le_of_not_lt hbc
      simp [hbc, emitAll, Op.emit, Nat.min_eq_left hle, Nat.max_eq_right hle]
  have hh : ∀ a b c : Nat, LCD_DrawLine dev a c b c color =
      some (LCD_Fill dev (min a b) c (max a b) c color) := by
    intro a b c
    by_cases hab : a = b
    · subst hab
      rw [hv]
      simp
    · unfold LCD_DrawLine LCD_DrawLine.calls
      by_cases hgt : a > b
      · simp [hab, hgt, emitAll, Op.emit, Nat.min_eq_right (Nat.le_of_lt hgt),
          Nat.max_eq_left (Nat.le_of_lt hgt)]
      · have hle : a ≤ b := Nat.le_of_not_lt hgt
        simp [hab, hgt, emitAll, Op.emit, Nat.min_eq_left hle, Nat.max_eq_right hle]
  refine ⟨?_, ?_, ?_⟩
  · intro e; subst e; exact hv _ _ _
  · intro e; subst e; exact hh _ _ _
  · rcases h with e | e
    · subst e; rw [hv, hv, Nat.min_comm, Nat.max_comm]
    · subst e; rw [hh, hh, Nat.min_comm, Nat.max_comm]

/-- The horizontal line from `(7,10)` to `(3,10)` is the fill
`(3,10) - (7,10)`, as is the line from `(3,10)` to `(7,10)`. -/
theorem LCD_DrawLine_axis_aligned_witness :
    ((7 = 3 ∨ 10 = 10)) ∧
    ((7 = 3 → LCD_DrawLine ⟨240, 320, 0, 0x2C, 0x2A, 0x2B⟩ 7 10 3 10 0xF800 =
      some (LCD_Fill ⟨240, 320, 0, 0x2C, 0x2A, 0x2B⟩ 7 (min 10 10) 7 (max 10 10) 0xF800)) ∧
    (10 = 10 → LCD_DrawLine ⟨240, 320, 0, 0x2C, 0x2A, 0x2B⟩ 7 10 3 10 0xF800 =
      some (LCD_Fill ⟨240, 320, 0, 0x2C, 0x2A, 0x2B⟩ 3 10 7 10 0xF800)) ∧
    LCD_DrawLine ⟨240, 320, 0, 0x2C, 0x2A, 0x2B⟩ 7 10 3 10 0xF800 =
      LCD_DrawLine ⟨240, 320, 0, 0x2C, 0x2A, 0x2B⟩ 3 10 7 10 0xF800) :=
  ⟨Or.inr rfl,
   LCD_DrawLine_axis_aligned ⟨240, 320, 0, 0x2C, 0x2A, 0x2B⟩ 7 10 3 10 0xF800 (Or.inr rfl)⟩

/-- C10 (defect): on a 1000 x 1000 surface the line from `(0,0)` to
`(600,1)` needs `distance + 2 = 602` points; the collecting loop stores the
first 512 and drops the rest, so the calls made cover `x = 0 .. 510` on row
0 only and the end point `(600,1)` is not painted. -/
theorem LCD_DrawLine_truncates_long_line :
    (linePoints 0 0 600 1).length = 512 ∧
    LCD_DrawLine.calls ⟨1000, 1000, 0, 0x2C, 0x2A, 0x2B⟩ 0 0 600 1 0xF800 =
      some [Op.point 0 0 0xF800, Op.fill 0 0 254 0 0xF800, Op.fill 255 0 510 0 0xF800] ∧
    (LCD_DrawLine ⟨1000, 1000, 0, 0x2C, 0x2A, 0x2B⟩ 0 0 600 1 0xF800).map
      (fun tr => decide ((600, 1) ∈ painted tr)) = some false := by
  decide!

/-! ## Pixels written by sequences of calls -/

/-- The panel log after a sequence of primitive calls. -/
theorem run_emitAll (dev : LcdDev) (hcfg : dev.Configured) :
    ∀ (ops : List Op) (p : Panel), (∀ op ∈ ops, op.IsU16) →
      (Panel.run p (emitAll dev ops)).fb = p.fb ++ ops.flatMap Op.pixels := by
  intro ops
  induction ops with
  | nil => intro p _; simp [emitAll, Panel.run]
  | cons op ops ih =>
    intro p h
    have hop := h op (List.mem_cons_self _ _)
    have hrest : ∀ o ∈ ops, o.IsU16 := fun o ho => h o (List.mem_cons_of_mem _ ho)
    have hsplit : emitAll dev (op :: ops) = Op.emit dev op ++ emitAll dev ops := by
      simp [emitAll]
    rw [hsplit, run_append, ih _ hrest, List.flatMap_cons]
    cases op with
    | fill sx sy ex ey color =>
      obtain ⟨h1, h2, h3⟩ := hop
      simp only [Op.emit, Op.pixels]
      rw [run_LCD_Fill dev hcfg sx sy ex ey color h1 h2 h3 p]
      simp
    | point x y color =>
      obtain ⟨h1, h2, h3⟩ := hop
      simp only [Op.emit, Op.pixels]
      rw [run_LCD_DrawPoint dev hcfg x y color h1 h2 h3 p]
      simp

/-- The positions painted by a sequence of primitive calls. -/
theorem painted_emitAll (dev : LcdDev) (hcfg : dev.Configured) (ops : List Op)
    (h : ∀ op ∈ ops, op.IsU16) :
    painted (emitAll dev ops) = (ops.flatMap Op.pixels).map Prod.fst := by
  unfold painted
  rw [run_emitAll dev hcfg ops Panel.idle h]
  simp [Panel.idle]

/-- A run that starts after `p` consists of the points to the right of `p`
on its row. -/
theorem chain_follows_eq : ∀ (r : List Pt) (p : Pt), List.Chain follows p r →
    r = (List.range r.length).map (fun j => (p.1 + 1 + j, p.2)) := by
  intro r
  induction r with
  | nil => intro p _; rfl
  | cons q qs ih =>
    intro p h
    rw [List.chain_cons] at h
    obtain ⟨⟨h2, h1⟩, hc⟩ := h
    have hq := ih q hc
    rw [List.length_cons, List.range_succ_eq_map, List.map_cons, List.map_map]
    have e1 : q = (p.1 + 1 + 0, p.2) := by
      apply Prod.ext
      · simp [h1]
      · simp [h2]
    have e2 : qs = List.map ((fun j => (p.1 + 1 + j, p.2)) ∘ Nat.succ) (List.range qs.length) := by
      have : ((fun j => (p.1 + 1 + j, p.2)) ∘ Nat.succ) = (fun j => (q.1 + 1 + j, q.2)) := by
        funext j
        simp only [Function.comp, Nat.succ_eq_add_one, h1, h2]
        apply Prod.ext
        · simp only; omega
        · rfl
      rw [this]
      exact hq
    rw [← e2, ← e1]

/-- The call for a run writes the points of the run, in order. -/
theorem pixels_runCall (color : Nat) (r : List Pt) (hne : r ≠ [])
    (hchain : r.Chain' follows) (hb : ∀ q ∈ r, q.1 < 65535 ∧ q.2 < 65535) :
    (runCall color r).pixels = r.map (fun q => (q, color)) := by
  cases r with
  | nil => exact absurd rfl hne
  | cons p rest =>
    cases rest with
    | nil => simp [runCall, Op.pixels]
    | cons q qs =>
      have hrest := chain_follows_eq (q :: qs) p hchain
      have hlen : (p :: q :: qs).length > 1 := by simp
      have hp := hb p (List.mem_cons_self _ _)
      have hl : (p :: q :: qs).getLastD (0, 0) = (q :: qs).getLast (by simp) := by
        simp [List.getLastD_cons, List.getLast?_eq_getLast]
      have hlast : (p :: q :: qs).getLastD (0, 0) = (p.1 + 1 + qs.length, p.2) := by
        rw [hl]
        have hmem := List.getLast_mem (show q :: qs ≠ [] by simp)
        have : (q :: qs).getLast (by simp) =
            ((List.range (q :: qs).length).map (fun j => (p.1 + 1 + j, p.2))).getLast
              (by simp) := by
          congr 1
        rw [this, List.getLast_eq_getElem]
        simp
      have hlastmem : (p.1 + 1 + qs.length, p.2) ∈ p :: q :: qs := by
        rw [← hlast, hl]
        exact List.mem_cons_of_mem _ (List.getLast_mem _)
      have hbl := (hb _ hlastmem).1
      simp only at hbl
      unfold runCall
      rw [if_pos hlen, hlast]
      simp only [List.headD_cons, Op.pixels]
      have hw : spanU16 p.1 (p.1 + 1 + qs.length) = qs.length + 2 := by
        unfold spanU16 toU16; omega
      have hh : spanU16 p.2 p.2 = 1 := by unfold spanU16 toU16; omega
      have hxe : toU16 ((p.1 : Int) + (qs.length + 2 : Nat) - 1) = p.1 + 1 + qs.length := by
        unfold toU16; omega
      rw [hw, hh, hxe, Nat.mul_one]
      rw [hrest]
      simp only [List.length_cons, List.length_map, List.length_range]
      have e : qs.length + 2 = (qs.length + 1) + 1 := rfl
      conv_lhs => rw [e, List.range_succ_eq_map]
      simp only [List.map_cons, List.map_map]
      refine congrArg₂ List.cons ?_ ?_
      · simp [landing]
      · apply List.map_congr_left
        intro k hk
        rw [List.mem_range] at hk
        simp only [Function.comp, landing, Nat.succ_eq_add_one]
        have hd : p.1 + 1 + qs.length + 1 - p.1 = qs.length + 2 := by omega
        rw [hd, Nat.mod_eq_of_lt (by omega), Nat.div_eq_of_lt (by omega)]
        apply Prod.ext
        · apply Prod.ext
          · simp only; omega
          · simp
        · rfl

theorem runCall_isU16 (color : Nat) (hc : color < 65536) (r : List Pt)
    (hb : ∀ q ∈ r, q.1 < 65535 ∧ q.2 < 65535) : (runCall color r).IsU16 := by
  cases r with
  | nil => simp [runCall, Op.IsU16, hc]
  | cons p rest =>
    have hp := hb p (List.mem_cons_self _ _)
    unfold runCall
    split
    · simp only [List.headD_cons, Op.IsU16]
      omega
    · simp only [List.headD_cons, Op.IsU16]
      omega

/-- The calls for the maximal runs of a batch write the points of the
batch, in order. -/
theorem pixels_maximalRuns (color : Nat) (l : List Pt)
    (hb : ∀ q ∈ l, q.1 < 65535 ∧ q.2 < 65535) :
    ((maximalRuns l).map (runCall color)).flatMap Op.pixels = l.map (fun q => (q, color)) := by
  obtain ⟨h1, h2, _⟩ := maximalRuns_spec l
  have hmem : ∀ r ∈ maximalRuns l, ∀ q ∈ r, q ∈ l := by
    intro r hr q hq
    rw [← h1]
    exact List.mem_flatten.2 ⟨r, hr, hq⟩
  have key : ∀ rs : List (List Pt),
      (∀ r ∈ rs, r ≠ [] ∧ r.Chain' follows) → (∀ r ∈ rs, ∀ q ∈ r, q.1 < 65535 ∧ q.2 < 65535) →
      (rs.map (runCall color)).flatMap Op.pixels = rs.flatten.map (fun q => (q, color)) := by
    intro rs
    induction rs with
    | nil => intro _ _; rfl
    | cons r rs ih =>
      intro hr hq
      rw [List.map_cons, List.flatMap_cons, List.flatten_cons, List.map_append,
        ih (fun s hs => hr s (List.mem_cons_of_mem _ hs))
          (fun s hs => hq s (List.mem_cons_of_mem _ hs)),
        pixels_runCall color r (hr r (List.mem_cons_self _ _)).1
          (hr r (List.mem_cons_self _ _)).2 (hq r (List.mem_cons_self _ _))]
  rw [key (maximalRuns l) h2 (fun r hr q hq => hb q (hmem r hr q hq)), h1]

theorem isU16_maximalRuns (color : Nat) (hc : color < 65536) (l : List Pt)
    (hb : ∀ q ∈ l, q.1 < 65535 ∧ q.2 < 65535) :
    ∀ op ∈ (maximalRuns l).map (runCall color), op.IsU16 := by
  obtain ⟨h1, _, _⟩ := maximalRuns_spec l
  intro op hop
  rw [List.mem_map] at hop
  obtain ⟨r, hr, rfl⟩ := hop
  apply runCall_isU16 color hc
  intro q hq
  apply hb
  rw [← h1]
  exact List.mem_flatten.2 ⟨r, hr, hq⟩

/-- When every point lies on the surface, the scan of `LCD_DrawPoints`
writes every point still to be scanned and every point of the pending batch,
in order, whatever the number of points. -/
theorem pixels_scanPoints (dev : LcdDev) (hW : dev.width < 65536) (hH : dev.height < 65536)
    (color : Nat) (hc : color < 65536) (n : Nat) :
    ∀ (rest : List Pt) (i : Nat) (batch : List Pt),
      (∀ p ∈ rest, dev.inBounds p) → (∀ p ∈ batch, dev.inBounds p) →
      i + rest.length = n → (rest = [] → batch = []) →
      (scanPoints dev color n rest i batch).flatMap Op.pixels =
          (batch ++ rest).map (fun q => (q, color)) ∧
        ∀ op ∈ scanPoints dev color n rest i batch, op.IsU16 := by
  intro rest
  induction rest with
  | nil =>
    intro i batch _ _ _ hb
    rw [hb rfl]
    simp [scanPoints]
  | cons p rest ih =>
    intro i batch hrest hbatch hlen _
    have hp : dev.inBounds p := hrest p (List.mem_cons_self _ _)
    have hnot : ¬ (p.1 ≥ dev.width ∨ p.2 ≥ dev.height) := by
      unfold LcdDev.inBounds at hp; omega
    have hrest' : ∀ q ∈ rest, dev.inBounds q := fun q hq => hrest q (List.mem_cons_of_mem _ hq)
    have hbatch' : ∀ q ∈ batch ++ [p], dev.inBounds q := by
      intro q hq
      rcases List.mem_append.1 hq with h | h
      · exact hbatch q h
      · rw [List.mem_singleton] at h; rw [h]; exact hp
    have hbound : ∀ q ∈ batch ++ [p], q.1 < 65535 ∧ q.2 < 65535 := by
      intro q hq
      have := hbatch' q hq
      unfold LcdDev.inBounds at this
      omega
    simp only [List.length_cons] at hlen
    unfold scanPoints
    rw [if_neg hnot]
    simp only []
    split
    · rename_i hflush
      obtain ⟨e1, e2⟩ := ih (i + 1) [] hrest' (by simp) (by omega) (fun _ => rfl)
      rw [drawBatch_eq color _ _ (Nat.le_refl _)]
      constructor
      · rw [List.flatMap_append, e1, pixels_maximalRuns color _ hbound]
        simp
      · intro op hop
        rcases List.mem_append.1 hop with h | h
        · exact isU16_maximalRuns color hc _ hbound op h
        · exact e2 op h
    · rename_i hflush
      have hne : rest ≠ [] := by
        intro h
        subst h
        simp only [List.length_nil] at hlen
        apply hflush
        right
        omega
      obtain ⟨e1, e2⟩ := ih (i + 1) (batch ++ [p]) hrest' hbatch' (by omega)
        (fun h => absurd h hne)
      exact ⟨by rw [e1]; simp, e2⟩

/-- When every point of the input lies on the surface, `LCD_DrawPoints`
writes exactly the input points, in input order, each with the colour. -/
theorem pixels_LCD_DrawPoints (dev : LcdDev) (hW : dev.width < 65536) (hH : dev.height < 65536)
    (color : Nat) (hc : color < 65536) (pts : List Pt) (hin : ∀ p ∈ pts, dev.inBounds p) :
    (LCD_DrawPoints.calls dev pts color).flatMap Op.pixels = pts.map (fun q => (q, color)) ∧
      ∀ op ∈ LCD_DrawPoints.calls dev pts color, op.IsU16 := by
  match pts, hin with
  | [], _ => simp [LCD_DrawPoints.calls]
  | [p], hin =>
    have hp := hin p (List.mem_cons_self _ _)
    unfold LcdDev.inBounds at hp
    simp only [LCD_DrawPoints.calls, List.flatMap_cons, Op.pixels, List.flatMap_nil,
      List.append_nil, List.map_cons, List.map_nil, List.mem_singleton, forall_eq, Op.IsU16]
    exact ⟨trivial, by omega, by omega, hc⟩
  | p :: q :: rest, hin =>
    unfold LCD_DrawPoints.calls
    have := pixels_scanPoints dev hW hH color hc (p :: q :: rest).length (p :: q :: rest) 0 []
      hin (by simp) (by simp) (by simp)
    simpa using this

/-! ## `Draw_Circle` -/

/-- The point arrays that the loop of `Draw_Circle` passes on hold, put end
to end, the pending points followed by the eight points of every iteration,
in order. -/
theorem circleLoop_flatten (x0 y0 : Nat) : ∀ (fuel : Nat) (a b di : Int) (pts : List Pt),
    (circleLoop x0 y0 fuel a b di pts).flatten =
      pts ++ (circleOffsets fuel a b di).flatMap (fun ab => eightPoints x0 y0 ab.1 ab.2) := by
  intro fuel
  induction fuel with
  | zero =>
    intro a b di pts
    unfold circleLoop circleOffsets
    split
    · simp
    · have : pts = [] := List.eq_nil_of_length_eq_zero (by omega)
      simp [this]
  | succ fuel ih =>
    intro a b di pts
    unfold circleLoop circleOffsets
    by_cases hab : a ≤ b
    · simp only [hab, if_true]
      split
      · rw [List.flatten_cons, ih, List.flatMap_cons]
        simp
      · rw [ih, List.flatMap_cons]
        simp
    · simp only [hab, if_false]
      split
      · simp
      · have : pts = [] := List.eq_nil_of_length_eq_zero (by omega)
        simp [this]

/-- Every pair `(a, b)` of the loop satisfies `0 <= a <= b <= r`. -/
theorem circleOffsets_bounds (r : Int) : ∀ (fuel : Nat) (a b di : Int), 0 ≤ a → b ≤ r →
    ∀ ab ∈ circleOffsets fuel a b di, 0 ≤ ab.1 ∧ ab.1 ≤ ab.2 ∧ ab.2 ≤ r := by
  intro fuel
  induction fuel with
  | zero => intro a b di _ _ ab h; simp [circleOffsets] at h
  | succ fuel ih =>
    intro a b di ha hb ab h
    unfold circleOffsets at h
    by_cases hab : a ≤ b
    · simp only [hab, if_true, List.mem_cons] at h
      rcases h with rfl | h
      · exact ⟨ha, hab, hb⟩
      · refine ih (a + 1) _ _ (by omega) ?_ ab h
        split <;> omega
    · simp [hab] at h

/-- More iterations than `b + 1 - a` are never made: the loop has ended by
then. -/
theorem circleOffsets_fuel : ∀ (fuel : Nat) (k : Nat) (a b di : Int), b + 1 - a ≤ fuel →
    circleOffsets (fuel + k) a b di = circleOffsets fuel a b di := by
  intro fuel
  induction fuel with
  | zero =>
    intro k a b di h
    have hab : ¬ a ≤ b := by omega
    cases k with
    | zero => rfl
    | succ k => simp [circleOffsets, hab]
  | succ fuel ih =>
    intro k a b di h
    have e : fuel + 1 + k = (fuel + k) + 1 := by omega
    rw [e]
    unfold circleOffsets
    by_cases hab : a ≤ b
    · simp only [hab, if_true]
      refine congrArg (List.cons _) (ih k _ _ _ ?_)
      split <;> omega
    · simp [hab]

theorem circleLoop_fuel (x0 y0 : Nat) : ∀ (fuel : Nat) (k : Nat) (a b di : Int) (pts : List Pt),
    b + 1 - a ≤ fuel →
    circleLoop x0 y0 (fuel + k) a b di pts = circleLoop x0 y0 fuel a b di pts := by
  intro fuel
  induction fuel with
  | zero =>
    intro k a b di pts h
    have hab : ¬ a ≤ b := by omega
    cases k with
    | zero => rfl
    | succ k => simp [circleLoop, hab]
  | succ fuel ih =>
    intro k a b di pts h
    have e : fuel + 1 + k = (fuel + k) + 1 := by omega
    rw [e]
    unfold circleLoop
    by_cases hab : a ≤ b
    · simp only [hab, if_true]
      have hb : (if di < 0 then b else b - 1) + 1 - (a + 1) ≤ (fuel : Int) := by
        split <;> omega
      rw [ih k _ _ _ [] hb, ih k _ _ _ (pts ++ eightPoints x0 y0 a b) hb]
    · simp [hab]

/-- The loop of `Draw_Circle` follows the recurrence that increments `a`
before it updates the decision value. -/
theorem circleOffsets_eq_recurrence : ∀ (fuel : Nat) (a b di : Int),
    circleOffsets fuel a b di = recurrenceIncrementFirst fuel a b di := by
  intro fuel
  induction fuel with
  | zero => intro a b di; rfl
  | succ fuel ih =>
    intro a b di
    unfold circleOffsets recurrenceIncrementFirst
    by_cases hab : a ≤ b
    · by_cases hd : di < 0
      · simp only [hab, hd, if_true, ih]
      · simp only [hab, hd, if_true, if_false, ih]
    · simp [hab]

/-- For a circle that fits, the eight stored points are the centre moved by
the eight images of `(a, b)`. -/
theorem mem_eightPoints (cx cy : Nat) (a b r : Int) (x y : Nat)
    (ha : 0 ≤ a) (hab : a ≤ b) (hb : b ≤ r) (hcx : r ≤ cx) (hcy : r ≤ cy)
    (hx : cx + r < 65536) (hy : cy + r < 65536) :
    (x, y) ∈ eightPoints cx cy a b ↔ onOctants a b ((x : Int) - cx) ((y : Int) - cy) := by
  have e1 : toU16 ((cx : Int) + a) = ((cx : Int) + a).toNat := by unfold toU16; omega
  have e2 : toU16 ((cx : Int) + b) = ((cx : Int) + b).toNat := by unfold toU16; omega
  have e3 : toU16 ((cx : Int) - a) = ((cx : Int) - a).toNat := by unfold toU16; omega
  have e4 : toU16 ((cx : Int) - b) = ((cx : Int) - b).toNat := by unfold toU16; omega
  have e5 : toU16 ((cy : Int) + a) = ((cy : Int) + a).toNat := by unfold toU16; omega
  have e6 : toU16 ((cy : Int) + b) = ((cy : Int) + b).toNat := by unfold toU16; omega
  have e7 : toU16 ((cy : Int) - a) = ((cy : Int) - a).toNat := by unfold toU16; omega
  have e8 : toU16 ((cy : Int) - b) = ((cy : Int) - b).toNat := by unfold toU16; omega
  simp only [eightPoints, List.mem_cons, Prod.mk.injEq, List.mem_singleton, List.not_mem_nil,
    or_false, onOctants, e1, e2, e3, e4, e5, e6, e7, e8]
  clear e1 e2 e3 e4 e5 e6 e7 e8
  constructor
  · rintro (⟨h1, h2⟩ | ⟨h1, h2⟩ | ⟨h1, h2⟩ | ⟨h1, h2⟩ | ⟨h1, h2⟩ | ⟨h1, h2⟩ | ⟨h1, h2⟩ |
      ⟨h1, h2⟩) <;> omega
  · rintro (⟨h1 | h1, h2 | h2⟩ | ⟨h1 | h1, h2 | h2⟩)
    · right; right; right; left; omega
    · left; omega
    · right; right; right; right; left; omega
    · right; right; right; right; right; right; left; omega
    · right; right; left; omega
    · right; left; omega
    · right; right; right; right; right; left; omega
    · right; right; right; right; right; right; right; omega

/-- Successive calls of `LCD_DrawPoints` on point arrays that lie on the
surface write all their points, in order. -/
theorem pixels_batches (dev : LcdDev) (hW : dev.width < 65536) (hH : dev.height < 65536)
    (color : Nat) (hc : color < 65536) :
    ∀ bs : List (List Pt), (∀ b ∈ bs, ∀ p ∈ b, dev.inBounds p) →
      (bs.flatMap (fun pts => LCD_DrawPoints.calls dev pts color)).flatMap Op.pixels =
          bs.flatten.map (fun q => (q, color)) ∧
        ∀ op ∈ bs.flatMap (fun pts => LCD_DrawPoints.calls dev pts color), op.IsU16 := by
  intro bs
  induction bs with
  | nil => intro _; simp
  | cons b bs ih =>
    intro h
    obtain ⟨e1, e2⟩ := ih (fun c hc' => h c (List.mem_cons_of_mem _ hc'))
    obtain ⟨f1, f2⟩ := pixels_LCD_DrawPoints dev hW hH color hc b (h b (List.mem_cons_self _ _))
    constructor
    · rw [List.flatMap_cons, List.flatMap_append, e1, f1]
      simp
    · intro op hop
      rw [List.flatMap_cons] at hop
      rcases List.mem_append.1 hop with h1 | h1
      · exact f2 op h1
      · exact e2 op h1

/-- For a circle that fits on the surface, `Draw_Circle` paints the eight
points of every iteration of its loop, in order, and nothing else. -/
theorem painted_Draw_Circle (dev : LcdDev) (cx cy r color : Nat)
    (hcfg : dev.Configured) (hW : dev.width < 65536) (hH : dev.height < 65536)
    (hcx : r ≤ cx) (hcy : r ≤ cy) (hxw : cx + r < dev.width) (hyh : cy + r < dev.height)
    (hc : color < 65536) :
    painted (Draw_Circle dev cx cy r color) =
      (Draw_Circle.offsets r).flatMap (fun ab => eightPoints cx cy ab.1 ab.2) := by
  have hfl : (Draw_Circle.batches cx cy r).flatten =
      (Draw_Circle.offsets r).flatMap (fun ab => eightPoints cx cy ab.1 ab.2) := by
    unfold Draw_Circle.batches Draw_Circle.offsets
    rw [circleLoop_flatten]
    simp
  have hin : ∀ b ∈ Draw_Circle.batches cx cy r, ∀ p ∈ b, dev.inBounds p := by
    intro b hb p hp
    have hmem : p ∈ (Draw_Circle.batches cx cy r).flatten := List.mem_flatten.2 ⟨b, hb, hp⟩
    rw [hfl, List.mem_flatMap] at hmem
    obtain ⟨ab, hab, hp8⟩ := hmem
    have hbd := circleOffsets_bounds (r : Int) (r + 1) 0 r _ (le_refl _) (le_refl _) ab hab
    obtain ⟨px, py⟩ := p
    rw [mem_eightPoints cx cy ab.1 ab.2 r px py hbd.1 hbd.2.1 hbd.2.2 (by omega) (by omega)
      (by omega) (by omega)] at hp8
    unfold onOctants at hp8
    unfold LcdDev.inBounds
    simp only
    omega
  obtain ⟨e1, e2⟩ := pixels_batches dev hW hH color hc _ hin
  unfold Draw_Circle Draw_Circle.calls
  rw [painted_emitAll dev hcfg _ e2, e1, hfl, List.map_map]
  have hid : (Prod.fst ∘ fun q : Pt => (q, color)) = id := rfl
  rw [hid, List.map_id]

/-- C11: for a centre `(cx, cy)` and radius `r` with `r <= cx`, `r <= cy`,
`cx + r < lcddev.width` and `cy + r < lcddev.height`, the set of pixels
painted by `Draw_Circle` is invariant under the reflections about the centre
(negating the x offset, negating the y offset, swapping the two offsets) and
lies in `[cx-r, cx+r] x [cy-r, cy+r]`. -/
theorem Draw_Circle_symmetric (dev : LcdDev) (cx cy r color : Nat)
    (hcfg : dev.Configured) (hW : dev.width < 65536) (hH : dev.height < 65536)
    (hcx : r ≤ cx) (hcy : r ≤ cy) (hxw : cx + r < dev.width) (hyh : cy + r < dev.height)
    (hc : color < 65536) :
    (∀ dx dy : Int,
      (∃ x y : Nat, (x, y) ∈ painted (Draw_Circle dev cx cy r color) ∧
        (x : Int) = cx + dx ∧ (y : Int) = cy + dy) →
      (∃ x y : Nat, (x, y) ∈ painted (Draw_Circle dev cx cy r color) ∧
        (x : Int) = cx - dx ∧ (y : Int) = cy + dy) ∧
      (∃ x y : Nat, (x, y) ∈ painted (Draw_Circle dev cx cy r color) ∧
        (x : Int) = cx + dx ∧ (y : Int) = cy - dy) ∧
      (∃ x y : Nat, (x, y) ∈ painted (Draw_Circle dev cx cy r color) ∧
        (x : Int) = cx + dy ∧ (y : Int) = cy + dx)) ∧
    (∀ x y : Nat, (x, y) ∈ painted (Draw_Circle dev cx cy r color) →
      cx - r ≤ x ∧ x ≤ cx + r ∧ cy - r ≤ y ∧ y ≤ cy + r) := by
  have hp := painted_Draw_Circle dev cx cy r color hcfg hW hH hcx hcy hxw hyh hc
  have hmem : ∀ x y : Nat, (x, y) ∈ painted (Draw_Circle dev cx cy r color) ↔
      ∃ ab ∈ Draw_Circle.offsets r,
        onOctants ab.1 ab.2 ((x : Int) - cx) ((y : Int) - cy) ∧
        0 ≤ ab.1 ∧ ab.1 ≤ ab.2 ∧ ab.2 ≤ r := by
    intro x y
    rw [hp, List.mem_flatMap]
    constructor
    · rintro ⟨ab, hab, h8⟩
      have hbd := circleOffsets_bounds (r : Int) (r + 1) 0 r _ (le_refl _) (le_refl _) ab hab
      rw [mem_eightPoints cx cy ab.1 ab.2 r x y hbd.1 hbd.2.1 hbd.2.2 (by omega) (by omega)
        (by omega) (by omega)] at h8
      exact ⟨ab, hab, h8, hbd⟩
    · rintro ⟨ab, hab, h8, hbd⟩
      refine ⟨ab, hab, ?_⟩
      rw [mem_eightPoints cx cy ab.1 ab.2 r x y hbd.1 hbd.2.1 hbd.2.2 (by omega) (by omega)
        (by omega) (by omega)]
      exact h8
  constructor
  · rintro dx dy ⟨x, y, hxy, ex, ey⟩
    rw [hmem] at hxy
    obtain ⟨ab, hab, h8, hbd⟩ := hxy
    unfold onOctants at h8
    refine ⟨⟨((cx : Int) - dx).toNat, y, ?_, ?_, ey⟩, ⟨x, ((cy : Int) - dy).toNat, ?_, ex, ?_⟩,
      ⟨((cx : Int) + dy).toNat, ((cy : Int) + dx).toNat, ?_, ?_, ?_⟩⟩
    · rw [hmem]
      refine ⟨ab, hab, ?_, hbd⟩
      unfold onOctants
      omega
    · omega
    · rw [hmem]
      refine ⟨ab, hab, ?_, hbd⟩
      unfold onOctants
      omega
    · omega
    · rw [hmem]
      refine ⟨ab, hab, ?_, hbd⟩
      unfold onOctants
      omega
    · omega
    · omega
  · intro x y hxy
    rw [hmem] at hxy
    obtain ⟨ab, _, h8, hbd⟩ := hxy
    unfold onOctants at h8
    omega

/-- The sample call `Draw_Circle(100, 100, 30)` on a 240 x 320 surface:
the painted set is symmetric and stays inside `[70, 130] x [70, 130]`. -/
theorem Draw_Circle_symmetric_witness :
    ((⟨240, 320, 0, 0x2C, 0x2A, 0x2B⟩ : LcdDev).Configured ∧ 240 < 65536 ∧ 320 < 65536 ∧
      30 ≤ 100 ∧ 30 ≤ 100 ∧ 100 + 30 < 240 ∧ 100 + 30 < 320 ∧ 0x001F < 65536) ∧
    ∀ x y : Nat, (x, y) ∈ painted (Draw_Circle ⟨240, 320, 0, 0x2C, 0x2A, 0x2B⟩ 100 100 30 0x001F) →
      70 ≤ x ∧ x ≤ 130 ∧ 70 ≤ y ∧ y ≤ 130 :=
  ⟨⟨by decide, by decide, by decide, by decide, by decide, by decide, by decide, by decide⟩,
   (Draw_Circle_symmetric ⟨240, 320, 0, 0x2C, 0x2A, 0x2B⟩ 100 100 30 0x001F
     (by decide) (by decide) (by decide) (by decide) (by decide) (by decide) (by decide)
     (by decide)).2⟩

/-- C12 (defect): for radius 4 the loop of `Draw_Circle` runs its body for
`(0,4), (1,4), (2,3)` only, while the specified recurrence, which updates
the decision value before it increments `a`, also yields `(3,3)` (its five
iterations are not used up, so it has ended); the point `(103,103)` that
belongs to `(3,3)` is not among the points `Draw_Circle(100, 100, 4)`
stores. -/
theorem Draw_Circle_offsets_differ :
    Draw_Circle.offsets 4 = [(0, 4), (1, 4), (2, 3)] ∧
    recurrenceUpdateFirst (4 + 1) 0 4 (3 - 2 * 4) = [(0, 4), (1, 4), (2, 3), (3, 3)] ∧
    Draw_Circle.offsets 4 ≠ recurrenceUpdateFirst (4 + 1) 0 4 (3 - 2 * 4) ∧
    (103, 103) ∈ eightPoints 100 100 3 3 ∧
    (103, 103) ∉ (Draw_Circle.batches 100 100 4).flatten := by
  decide

/-- What the loop of `Draw_Circle` computes: for every radius `r` the
pairs `(a, b)` for which it stores its eight points are those of the
recurrence in the statement order of the source, which increments `a` before
it updates the decision value.  The recurrence has ended after `r + 1`
iterations (allowing `k` more changes nothing), and the points handed to
`LCD_DrawPoints`, put end to end, are the eight points of each pair, in
order. -/
theorem Draw_Circle_offsets_recurrence (x0 y0 r k : Nat) :
    Draw_Circle.offsets r = recurrenceIncrementFirst (r + 1 + k) 0 r (3 - 2 * (r : Int)) ∧
    circleLoop x0 y0 (r + 1 + k) 0 r (3 - 2 * (r : Int)) [] = Draw_Circle.batches x0 y0 r ∧
    (Draw_Circle.batches x0 y0 r).flatten =
      (recurrenceIncrementFirst (r + 1 + k) 0 r (3 - 2 * (r : Int))).flatMap
        (fun ab => eightPoints x0 y0 ab.1 ab.2) := by
  have h1 : Draw_Circle.offsets r =
      recurrenceIncrementFirst (r + 1 + k) 0 r (3 - 2 * (r : Int)) := by
    unfold Draw_Circle.offsets
    rw [← circleOffsets_eq_recurrence, circleOffsets_fuel (r + 1) k 0 r _ (by simp)]
  refine ⟨h1, ?_, ?_⟩
  · unfold Draw_Circle.batches
    exact circleLoop_fuel x0 y0 (r + 1) k 0 r _ [] (by simp)
  · rw [← h1]
    unfold Draw_Circle.batches Draw_Circle.offsets
    rw [circleLoop_flatten]
    simp

/-! ## `LCD_ShowChar` -/

theorem composeByte_pos (dev : LcdDev) (size mode color bg_color x0 y0 : Nat) :
    ∀ (n temp x y : Nat) (conv : Nat → Nat → Nat),
      (composeByte dev size mode color bg_color x0 y0 n temp x y conv).map
          (fun r => (r.1, r.2.1)) = bytePos dev size x0 y0 n x y := by
  intro n
  induction n with
  | zero => intro temp x y conv; rfl
  | succ n ih =>
    intro temp x y conv
    unfold composeByte bytePos
    simp only []
    split
    · rfl
    · split
      · split <;> rfl
      · exact ih _ _ _ _

/-- Whether and where the compose loop of `LCD_ShowChar` ends depends on
the position and the number of glyph bytes only. -/
theorem composeGlyph_pos (dev : LcdDev) (size mode color bg_color x0 y0 : Nat) :
    ∀ (bytes : List Nat) (x y : Nat) (conv : Nat → Nat → Nat),
      (composeGlyph dev size mode color bg_color x0 y0 bytes x y conv).map
          (fun r => (r.1, r.2.1)) = glyphPos dev size x0 y0 bytes.length x y := by
  intro bytes
  induction bytes with
  | nil => intro x y conv; rfl
  | cons temp rest ih =>
    intro x y conv
    have h := composeByte_pos dev size mode color bg_color x0 y0 8 temp x y conv
    unfold composeGlyph
    simp only [List.length_cons, glyphPos]
    rw [← h]
    cases hc : composeByte dev size mode color bg_color x0 y0 8 temp x y conv with
    | none => rfl
    | some r =>
      obtain ⟨x1, y1, conv1⟩ := r
      simp only [Option.map_some']
      exact ih x1 y1 conv1

/-- When the compose loop returns from inside, `LCD_ShowChar` sends
nothing. -/
theorem LCD_ShowChar_of_glyphPos_none (dev : LcdDev) (font : Font)
    (x y chr size mode color bg_color : Nat)
    (h : glyphPos dev size x y
      (((size / 8 + (if size % 8 ≠ 0 then 1 else 0)) * (size / 2)) % 256) x y = none) :
    LCD_ShowChar dev font x y chr size mode color bg_color = [] := by
  have key : ∀ pfont : Nat → Nat,
      composeGlyph dev size mode color bg_color x y
        ((List.range (((size / 8 + (if size % 8 ≠ 0 then 1 else 0)) * (size / 2)) % 256)).map
          (fun t => pfont t % 256)) x y (fun _ _ => 0) = none := by
    intro pfont
    have hp := composeGlyph_pos dev size mode color bg_color x y
      ((List.range (((size / 8 + (if size % 8 ≠ 0 then 1 else 0)) * (size / 2)) % 256)).map
        (fun t => pfont t % 256)) x y (fun _ _ => 0)
    rw [List.length_map, List.length_range, h] at hp
    exact Option.map_eq_none'.1 hp
  unfold LCD_ShowChar
  simp only []
  split
  · rfl
  · split
    · rfl
    · rename_i pfont _
      rw [key pfont]

/-- C13 (defect): on a 240 x 320 surface a 16-pixel character whose cell
touches the bottom edge (`y = 304`, `y + 16 = 320`) or the right edge
(`x = 232`, `x + 8 = 240`) passes the bounds check at the head of
`LCD_ShowChar`, yet nothing is sent, whatever the glyph: the compose loop
returns as soon as its running `y` reaches `lcddev.height` or its running
`x` reaches `lcddev.width`, which happens at the end of the first column
resp. of the last column of such a cell. -/
theorem LCD_ShowChar_edge_cell_not_drawn (font : Font) (chr color bg_color : Nat) :
    (¬ (0 + 16 / 2 > 240 ∨ 304 + 16 > 320)) ∧
    LCD_ShowChar ⟨240, 320, 0, 0x2C, 0x2A, 0x2B⟩ font 0 304 chr 16 0 color bg_color = [] ∧
    (¬ (232 + 16 / 2 > 240 ∨ 0 + 16 > 320)) ∧
    LCD_ShowChar ⟨240, 320, 0, 0x2C, 0x2A, 0x2B⟩ font 232 0 chr 16 0 color bg_color = [] :=
  ⟨by decide,
   LCD_ShowChar_of_glyphPos_none _ font 0 304 chr 16 0 color bg_color (by decide),
   by decide,
   LCD_ShowChar_of_glyphPos_none _ font 232 0 chr 16 0 color bg_color (by decide)⟩

/-- C14 (defect): on a 240 x 320 surface, with a 16-pixel glyph whose only
set bit is the top pixel of its first column, `LCD_ShowChar` at `(10, 10)`
paints `(10, 10)` as foreground in opaque mode, but `(18, 10)` in overlay
mode: the overlay loop starts from the `x` that the compose loop has
advanced by the cell width.  With a 12-pixel glyph whose only set bit is
row 8 of the first column, opaque mode paints `(10, 18)` as foreground and
overlay mode paints `(17, 10)`: besides the shift, the overlay loop gives
every glyph byte a column of its own. -/
theorem LCD_ShowChar_overlay_misplaced :
    ((Panel.run Panel.idle
        (LCD_ShowChar ⟨240, 320, 0, 0x2C, 0x2A, 0x2B⟩ sampleFont 10 10 65 16 0 0xF800 0x001F)).fb.filter
      (fun w => w.2 = 0xF800)).map Prod.fst = [(10, 10)] ∧
    painted (LCD_ShowChar ⟨240, 320, 0, 0x2C, 0x2A, 0x2B⟩ sampleFont 10 10 65 16 1 0xF800 0x001F) =
      [(18, 10)] ∧
    ((Panel.run Panel.idle
        (LCD_ShowChar ⟨240, 320, 0, 0x2C, 0x2A, 0x2B⟩ sampleFont 10 10 65 12 0 0xF800 0x001F)).fb.filter
      (fun w => w.2 = 0xF800)).map Prod.fst = [(10, 18)] ∧
    painted (LCD_ShowChar ⟨240, 320, 0, 0x2C, 0x2A, 0x2B⟩ sampleFont 10 10 65 12 1 0xF800 0x001F) =
      [(17, 10)] := by
  decide!

/-- C15: when `x + size/2 > lcddev.width` or `y + size > lcddev.height`,
`LCD_ShowChar` produces no transport event at all: no command byte and no
data byte is sent, and the panel is left as it was.  (`LCD_ShowChar` has no
assignment to `lcddev`.) -/
theorem LCD_ShowChar_out_of_bounds (dev : LcdDev) (font : Font)
    (x y chr size mode color bg_color : Nat)
    (h : x + size / 2 > dev.width ∨ y + size > dev.height) :
    LCD_ShowChar dev font x y chr size mode color bg_color = [] ∧
    (∀ l, transfers l (LCD_ShowChar dev font x y chr size mode color bg_color) = []) ∧
    (∀ p : Panel, Panel.run p (LCD_ShowChar dev font x y chr size mode color bg_color) = p) := by
  have h0 : LCD_ShowChar dev font x y chr size mode color bg_color = [] := by
    unfold LCD_ShowChar
    simp only [h, if_true]
  rw [h0]
  exact ⟨rfl, fun l => by cases l <;> rfl, fun p => rfl⟩

/-- A 16-pixel character at `x = 236` on a surface 240 wide is skipped. -/
theorem LCD_ShowChar_out_of_bounds_witness :
    (236 + 16 / 2 > 240 ∨ 0 + 16 > 320) ∧
    LCD_ShowChar ⟨240, 320, 0, 0x2C, 0x2A, 0x2B⟩ sampleFont 236 0 65 16 0 0xF800 0x001F = [] :=
  ⟨by decide,
   (LCD_ShowChar_out_of_bounds ⟨240, 320, 0, 0x2C, 0x2A, 0x2B⟩ sampleFont 236 0 65 16 0 0xF800
     0x001F (by decide)).1⟩

/-- C16: for a size other than 12 and 16, `LCD_ShowChar` produces no
transport event: no command byte and no data byte is sent. -/
theorem LCD_ShowChar_unsupported_size (dev : LcdDev) (font : Font)
    (x y chr size mode color bg_color : Nat) (h : size ≠ 12 ∧ size ≠ 16) :
    LCD_ShowChar dev font x y chr size mode color bg_color = [] ∧
    (∀ l, transfers l (LCD_ShowChar dev font x y chr size mode color bg_color) = []) := by
  have h0 : LCD_ShowChar dev font x y chr size mode color bg_color = [] := by
    unfold LCD_ShowChar
    simp only [h.1, h.2, if_false]
    split <;> rfl
  rw [h0]
  exact ⟨rfl, fun l => by cases l <;> rfl⟩

/-- A 24-pixel character is not drawn. -/
theorem LCD_ShowChar_unsupported_size_witness :
    (24 ≠ 12 ∧ 24 ≠ 16) ∧
    LCD_ShowChar ⟨240, 320, 0, 0x2C, 0x2A, 0x2B⟩ sampleFont 10 10 65 24 0 0xF800 0x001F = [] :=
  ⟨by decide,
   (LCD_ShowChar_unsupported_size ⟨240, 320, 0, 0x2C, 0x2A, 0x2B⟩ sampleFont 10 10 65 24 0 0xF800
     0x001F (by decide)).1⟩

/-! ## `LCD_ShowString` -/

/-- C17 (defect): on the landscape surface (320 wide) the string `"AB"`
shown from `(300, 0)` with size 16 in a box one character wide (`width = 8`)
and two rows tall (`height = 32`) has its first character at `(300, 0)` and
its second at `(44, 16)`, not at `(300, 16)`: the start column is kept in the
`u8` variable `x0`, and `300 mod 256 = 44`. -/
theorem LCD_ShowString_wrap_column_truncated :
    (LCD_Display_Dir 240 320 ⟨240, 320, 0, 0x2C, 0x2A, 0x2B⟩ 1).1.width = 320 ∧
    LCD_ShowString.calls 300 0 8 32 16 [65, 66] 0xF800 0x001F =
      [{ x := 300, y := 0, chr := 65, size := 16, mode := 0, color := 0xF800, bg_color := 0x001F },
       { x := 44, y := 16, chr := 66, size := 16, mode := 0, color := 0xF800,
         bg_color := 0x001F }] := by
  decide

/-- C18 (defect): the string `"AB"` shown at `(0, 0)` with size 16 in a box
10 wide and 16 tall has its second character at `(8, 0)`: the wrap test
compares the start of the glyph with the right edge of the box, so the cell
`8 .. 15` reaches beyond the box `0 .. 9`, and on a 240 x 320 surface the
pixel `(12, 0)` outside the box is written. -/
theorem LCD_ShowString_cell_beyond_box :
    LCD_ShowString.calls 0 0 10 16 16 [65, 66] 0xF800 0x001F =
      [{ x := 0, y := 0, chr := 65, size := 16, mode := 0, color := 0xF800, bg_color := 0x001F },
       { x := 8, y := 0, chr := 66, size := 16, mode := 0, color := 0xF800,
         bg_color := 0x001F }] ∧
    ¬ (8 + 16 / 2 ≤ 0 + 10) ∧
    decide ((12, 0) ∈ painted (LCD_ShowString ⟨240, 320, 0, 0x2C, 0x2A, 0x2B⟩ sampleFont
      0 0 10 16 16 [65, 66] 0xF800 0x001F)) = true := by
  decide!

/-! ## Orientation -/

/-- C20 (defect): with `LCD_W = 240`, `LCD_H = 320` and the surface in
landscape (320 x 240), `LCD_SetPortrait` leaves `lcddev` at 240 x 320 but
programs the column range `0 .. 319` and the row range `0 .. 239`: it calls
`LCD_Scan_Dir`, which reads `lcddev.width` and `lcddev.height`, before it
assigns them.  `LCD_SetLandscape` from the portrait surface likewise programs
`0 .. 239` by `0 .. 319` and leaves `lcddev` at 320 x 240.
`LCD_Display_Dir` assigns first and programs the new extents. -/
theorem LCD_SetPortrait_programs_old_extents :
    (LCD_Display_Dir 240 320 ⟨240, 320, 0, 0x2C, 0x2A, 0x2B⟩ 1).1 =
      ⟨320, 240, 1, 0x2C, 0x2A, 0x2B⟩ ∧
    (LCD_SetPortrait 240 320 ⟨320, 240, 1, 0x2C, 0x2A, 0x2B⟩).1 =
      ⟨240, 320, 0, 0x2C, 0x2A, 0x2B⟩ ∧
    transfers true (LCD_SetPortrait 240 320 ⟨320, 240, 1, 0x2C, 0x2A, 0x2B⟩).2 =
      [Msg.command [0x36], Msg.data [0x00],
       Msg.command [0x2A], Msg.data [0], Msg.data [0], Msg.data [1], Msg.data [63],
       Msg.command [0x2B], Msg.data [0], Msg.data [0], Msg.data [0], Msg.data [239]] ∧
    (Panel.run Panel.idle (LCD_SetPortrait 240 320 ⟨320, 240, 1, 0x2C, 0x2A, 0x2B⟩).2).xe = 319 ∧
    (Panel.run Panel.idle (LCD_SetPortrait 240 320 ⟨320, 240, 1, 0x2C, 0x2A, 0x2B⟩).2).ye = 239 ∧
    (LCD_SetLandscape 240 320 ⟨240, 320, 0, 0x2C, 0x2A, 0x2B⟩).1 =
      ⟨320, 240, 1, 0x2C, 0x2A, 0x2B⟩ ∧
    (Panel.run Panel.idle (LCD_SetLandscape 240 320 ⟨240, 320, 0, 0x2C, 0x2A, 0x2B⟩).2).xe = 239 ∧
    (Panel.run Panel.idle (LCD_SetLandscape 240 320 ⟨240, 320, 0, 0x2C, 0x2A, 0x2B⟩).2).ye = 319 ∧
    (Panel.run Panel.idle (LCD_Display_Dir 240 320 ⟨320, 240, 1, 0x2C, 0x2A, 0x2B⟩ 0).2).xe = 239 ∧
    (Panel.run Panel.idle (LCD_Display_Dir 240 320 ⟨320, 240, 1, 0x2C, 0x2A, 0x2B⟩ 0).2).ye = 319 := by
  decide

/-! ## `LCD_ShowNum` -/

theorem LCD_Pow_ten (n : Nat) (h : n ≤ 9) : LCD_Pow 10 n = 10 ^ n := by
  interval_cases n <;> rfl

/-- The loop of `LCD_ShowNum` from position `t` on, when at most ten digits
are asked for: `enshow` is still 0 exactly when all digits before `t` are
zero. -/
theorem showNumLoop_eq (x y num len size color bg_color : Nat) (hlen : len ≤ 10) :
    ∀ (n t enshow : Nat), t + n = len →
      (0 < n → (enshow = 0 ↔ ∀ s, s < t → digitAt num len s = 0)) →
      showNumLoop x y num len size color bg_color n t enshow =
        some ((List.range n).map (fun j =>
          CharCall.mk ((x + (size / 2) * (t + j)) % 65536) y (shownChar num len (t + j))
            size 0 color bg_color)) := by
  intro n
  induction n with
  | zero => intro t enshow _ _; rfl
  | succ n ih =>
    intro t enshow ht hinv
    have hinv := hinv (Nat.succ_pos n)
    have he : (len - t - 1) % 256 = len - 1 - t := by omega
    have hd : LCD_Pow 10 ((len - t - 1) % 256) = 10 ^ (len - 1 - t) := by
      rw [he]; exact LCD_Pow_ten _ (by omega)
    have hpos : 10 ^ (len - 1 - t) ≠ 0 := by positivity
    have htemp : ((num / 10 ^ (len - 1 - t)) % 10) % 256 = digitAt num len t := by
      unfold digitAt
      have := Nat.mod_lt (num / 10 ^ (len - 1 - t)) (show 10 > 0 by decide)
      omega
    have hdig : digitAt num len t < 10 := Nat.mod_lt _ (by decide)
    have hlist : (List.range (n + 1)).map (fun j =>
          CharCall.mk ((x + (size / 2) * (t + j)) % 65536) y (shownChar num len (t + j))
            size 0 color bg_color) =
        CharCall.mk ((x + (size / 2) * t) % 65536) y (shownChar num len t) size 0 color
          bg_color ::
        (List.range n).map (fun j =>
          CharCall.mk ((x + (size / 2) * (t + 1 + j)) % 65536) y (shownChar num len (t + 1 + j))
            size 0 color bg_color) := by
      rw [List.range_succ_eq_map, List.map_cons, List.map_map]
      refine congrArg₂ List.cons rfl ?_
      apply List.map_congr_left
      intro j _
      simp only [Function.comp, Nat.succ_eq_add_one]
      have : t + (j + 1) = t + 1 + j := by omega
      rw [this]
    rw [hlist]
    unfold showNumLoop
    simp only [hd, hpos, if_false, htemp]
    by_cases hc : enshow = 0 ∧ t < len - 1
    · rw [if_pos hc]
      have hzero := hinv.1 hc.1
      by_cases h0 : digitAt num len t = 0
      · rw [if_pos h0]
        have hblank : blankAt num len t := by
          refine ⟨hc.2, ?_⟩
          intro s hs
          rcases Nat.lt_or_eq_of_le hs with h | h
          · exact hzero s h
          · rw [h]; exact h0
        have hchr : shownChar num len t = 32 := by
          unfold shownChar; rw [if_pos hblank]
        rw [ih (t + 1) enshow (by omega) (fun _ => ⟨fun _ s hs => by
          rcases Nat.lt_or_eq_of_le (Nat.le_of_lt_succ hs) with h | h
          · exact hzero s h
          · rw [h]; exact h0, fun _ => hc.1⟩), hchr]
        rfl
      · rw [if_neg h0]
        have hnb : ¬ blankAt num len t := fun hb => h0 (hb.2 t (Nat.le_refl _))
        have hchr : shownChar num len t = 48 + digitAt num len t := by
          unfold shownChar; rw [if_neg hnb]
        have hmod : (digitAt num len t + 48) % 256 = 48 + digitAt num len t := by omega
        rw [ih (t + 1) 1 (by omega) (fun _ => ⟨fun h => absurd h (by decide),
          fun h => absurd (h t (Nat.lt_succ_self _)) h0⟩), hchr, hmod]
        rfl
    · rw [if_neg hc]
      have hnb : ¬ blankAt num len t := by
        intro hb
        apply hc
        exact ⟨hinv.2 (fun s hs => hb.2 s (Nat.le_of_lt hs)), hb.1⟩
      have hchr : shownChar num len t = 48 + digitAt num len t := by
        unfold shownChar; rw [if_neg hnb]
      have hmod : (digitAt num len t + 48) % 256 = 48 + digitAt num len t := by omega
      have hnext : 0 < n → (enshow = 0 ↔ ∀ s, s < t + 1 → digitAt num len s = 0) := by
        intro hn
        have hen : enshow ≠ 0 := by
          intro h
          apply hc
          exact ⟨h, by omega⟩
        constructor
        · intro h; exact absurd h hen
        · intro h
          exact hinv.2 (fun s hs => h s (Nat.lt_succ_of_lt hs))
      rw [ih (t + 1) enshow (by omega) hnext, hchr, hmod]
      rfl

/-- C19: for `len <= 10`, `LCD_ShowNum` returns and makes exactly `len`
calls of `LCD_ShowChar`; call `t` (0-based) is at column `x + (size/2)*t`
(as the `u16` argument: reduced modulo `2^16`) and row `y`, in opaque mode
with the given colours; its character is `'0' + ((num / 10^(len-1-t)) mod
10)`, most significant digit first, except that it is a space when
`t < len - 1` and the digits at positions `0 .. t` are all zero; after a
nonzero digit every later position shows its digit. -/
theorem LCD_ShowNum_digits (x y num len size color bg_color : Nat) (hlen : len ≤ 10) :
    LCD_ShowNum.calls x y num len size color bg_color =
      some ((List.range len).map (fun t =>
        { x := (x + (size / 2) * t) % 65536, y := y,
          chr := if t < len - 1 ∧ (∀ s, s ≤ t → (num / 10 ^ (len - 1 - s)) % 10 = 0) then 32
                 else 48 + (num / 10 ^ (len - 1 - t)) % 10,
          size := size, mode := 0, color := color, bg_color := bg_color })) ∧
    (∀ s t, s < t → (num / 10 ^ (len - 1 - s)) % 10 ≠ 0 →
      shownChar num len t = 48 + (num / 10 ^ (len - 1 - t)) % 10) := by
  constructor
  · have h := showNumLoop_eq x y num len size color bg_color hlen len 0 0 (by omega)
      (fun _ => ⟨fun _ s hs => absurd hs (Nat.not_lt_zero s), fun _ => rfl⟩)
    unfold LCD_ShowNum.calls
    rw [h]
    refine congrArg some (List.map_congr_left ?_)
    intro t _
    simp only [Nat.zero_add, shownChar, blankAt, digitAt]
  · intro s t hst hs
    have hnb : ¬ blankAt num len t := fun hb => hs (hb.2 s (Nat.le_of_lt hst))
    unfold shownChar
    rw [if_neg hnb]
    rfl

/-- The number 1205 shown with six digits: two blanks, then `1205`. -/
theorem LCD_ShowNum_digits_witness :
    (6 ≤ 10) ∧
    (LCD_ShowNum.calls 0 0 1205 6 16 0xF800 0x001F).map (fun cs => cs.map (fun c => (c.x, c.chr))) =
      some [(0, 32), (8, 32), (16, 49), (24, 50), (32, 48), (40, 53)] :=
  ⟨by decide,
   by rw [(LCD_ShowNum_digits 0 0 1205 6 16 0xF800 0x001F (by decide)).1]; decide⟩

/-! ## Orientation: `LCD_Display_Dir` -/

/-- C21: whatever `lcddev` held before, `LCD_Display_Dir(0)` leaves
`(width, height, dir) = (LCD_W, LCD_H, 0)` and `LCD_Display_Dir(d)` with
`d != 0` leaves `(LCD_H, LCD_W, 1)`; the first two transfers are the command
byte `0x36` and one data byte, `0x00` for orientation 0 and `0xA0`
otherwise, and no later transfer addresses register `0x36`.  The extents
after one orientation are the swapped extents after the other, and the
register value does not depend on the earlier state.  `LCD_W` and `LCD_H` are
16-bit configuration values. -/
theorem LCD_Display_Dir_state (LCD_W LCD_H : Nat) (hW : LCD_W < 65536) (hH : LCD_H < 65536)
    (dev : LcdDev) (d : Nat) (hd : d ≠ 0) (l : Bool) :
    ((LCD_Display_Dir LCD_W LCD_H dev 0).1.width = LCD_W ∧
      (LCD_Display_Dir LCD_W LCD_H dev 0).1.height = LCD_H ∧
      (LCD_Display_Dir LCD_W LCD_H dev 0).1.dir = 0 ∧
      (transfers l (LCD_Display_Dir LCD_W LCD_H dev 0).2).take 2 =
        [Msg.command [0x36], Msg.data [0x00]] ∧
      Msg.command [0x36] ∉ (transfers l (LCD_Display_Dir LCD_W LCD_H dev 0).2).drop 2) ∧
    ((LCD_Display_Dir LCD_W LCD_H dev d).1.width = LCD_H ∧
      (LCD_Display_Dir LCD_W LCD_H dev d).1.height = LCD_W ∧
      (LCD_Display_Dir LCD_W LCD_H dev d).1.dir = 1 ∧
      (transfers l (LCD_Display_Dir LCD_W LCD_H dev d).2).take 2 =
        [Msg.command [0x36], Msg.data [0xA0]] ∧
      Msg.command [0x36] ∉ (transfers l (LCD_Display_Dir LCD_W LCD_H dev d).2).drop 2) ∧
    (LCD_Display_Dir LCD_W LCD_H dev 0).1.width = (LCD_Display_Dir LCD_W LCD_H dev d).1.height ∧
    (LCD_Display_Dir LCD_W LCD_H dev 0).1.height = (LCD_Display_Dir LCD_W LCD_H dev d).1.width := by
  have h1 : LCD_W % 65536 = LCD_W := Nat.mod_eq_of_lt hW
  have h2 : LCD_H % 65536 = LCD_H := Nat.mod_eq_of_lt hH
  have e0 : scanRegval (remapDir PORTRAIT) ||| 0x00 = 0 := by decide
  have e1 : scanRegval (remapDir LANDSCAPE) ||| 0x00 = 0xA0 := by decide
  simp only [LCD_Display_Dir, if_neg hd, if_true, h1, h2, LCD_Scan_Dir, e0, e1, LCD_WriteReg,
    LCD_WR_REG, LCD_WR_DATA, List.cons_append, List.nil_append, transfers, List.take,
    List.drop, List.mem_cons, Msg.command.injEq, List.cons.injEq, and_true, List.mem_nil_iff,
    or_false, not_or, and_self, true_and, reduceCtorEq, not_false_eq_true]
  decide

/-- A 240 x 320 panel, an arbitrary earlier state and the requested
orientation 1. -/
theorem LCD_Display_Dir_state_witness :
    (240 < 65536 ∧ 320 < 65536 ∧ 1 ≠ 0) ∧
    (LCD_Display_Dir 240 320 ⟨7, 9, 3, 0, 0, 0⟩ 0).1.width =
      (LCD_Display_Dir 240 320 ⟨7, 9, 3, 0, 0, 0⟩ 1).1.height :=
  ⟨⟨by decide, by decide, by decide⟩,
   (LCD_Display_Dir_state 240 320 (by decide) (by decide) ⟨7, 9, 3, 0, 0, 0⟩ 1 (by decide)
      true).2.2.1⟩

theorem spanU16_self (x : Nat) : spanU16 x x = 1 := by
  unfold spanU16 toU16; omega

theorem toU16_span (s e : Nat) (hs : s < 65536) (he : e < 65536) :
    toU16 ((s : Int) + spanU16 s e - 1) = e := by
  unfold spanU16 toU16; omega

/-! ## `LCD_Fill` and the order of the corners -/

/-- C22, counterexample: on a 240 x 320 surface the call
`LCD_Fill(7, 10, 5, 10, 0xF800)` with the corners of one row reversed does
not emit what `LCD_Fill(5, 10, 7, 10, 0xF800)` emits: the column range it
programs starts at 7 and ends at 5. -/
theorem LCD_Fill_reversed_corners_differ :
    LCD_Fill ⟨240, 320, 0, 0x2C, 0x2A, 0x2B⟩ 7 10 5 10 0xF800 ≠
      LCD_Fill ⟨240, 320, 0, 0x2C, 0x2A, 0x2B⟩ (min 7 5) (min 10 10) (max 7 5) (max 10 10) 0xF800 ∧
    (transfers true (LCD_Fill ⟨240, 320, 0, 0x2C, 0x2A, 0x2B⟩ 7 10 5 10 0xF800)).take 2 =
      [Msg.command [0x2A], Msg.data [0, 7, 0, 5]] ∧
    (transfers true (LCD_Fill ⟨240, 320, 0, 0x2C, 0x2A, 0x2B⟩ 5 10 7 10 0xF800)).take 2 =
      [Msg.command [0x2A], Msg.data [0, 5, 0, 7]] := by
  decide

/-- C22, amended: `LCD_Fill` never swaps its corners.  For 16-bit corners
in any order the column range it programs runs from `sx` to `ex` and the row
range from `sy` to `ey` exactly as passed, and the pixel count of the stream
is the product of `ex - sx + 1` and `ey - sy + 1`, each reduced modulo
`2^16`.  When the corners are in ascending order this is the call with the
normalised corners. -/
theorem LCD_Fill_corners_as_given (dev : LcdDev) (sx sy ex ey color : Nat)
    (hsx : sx < 65536) (hsy : sy < 65536) (hex : ex < 65536) (hey : ey < 65536) (l : Bool) :
    (∃ chunks : List (List Nat),
      transfers l (LCD_Fill dev sx sy ex ey color) =
        [Msg.command [dev.setxcmd], Msg.data [sx >>> 8, sx &&& 0xFF, ex >>> 8, ex &&& 0xFF],
         Msg.command [dev.setycmd], Msg.data [sy >>> 8, sy &&& 0xFF, ey >>> 8, ey &&& 0xFF],
         Msg.command [dev.wramcmd]] ++ chunks.map Msg.data ∧
      chunks.flatten.length =
        2 * (((ex + 65536 - sx + 1) % 65536) * ((ey + 65536 - sy + 1) % 65536))) ∧
    (sx ≤ ex → sy ≤ ey →
      LCD_Fill dev sx sy ex ey color =
        LCD_Fill dev (min sx ex) (min sy ey) (max sx ex) (max sy ey) color) := by
  constructor
  · refine ⟨(List.range ((spanU16 sx ex * spanU16 sy ey + 10239) / 10240)).map
        (fun k => (prefill color 10240).take
          (min 10240 (spanU16 sx ex * spanU16 sy ey - k * 10240) * 2)), ?_, ?_⟩
    · rw [LCD_Fill_transfers]
      have h := transfers_SetWindows dev sx sy (spanU16 sx ex) (spanU16 sy ey) l []
      simp only [List.append_nil, transfers] at h
      rw [h, toU16_span sx ex hsx hex, toU16_span sy ey hsy hey, hiByte_of_lt hsx,
        hiByte_of_lt hsy, hiByte_of_lt hex, hiByte_of_lt hey]
      rfl
    · have e1 : (ex + 65536 - sx + 1) % 65536 = spanU16 sx ex := by
        unfold spanU16 toU16; omega
      have e2 : (ey + 65536 - sy + 1) % 65536 = spanU16 sy ey := by
        unfold spanU16 toU16; omega
      rw [e1, e2]
      have hf := flatten_chunks color (spanU16 sx ex * spanU16 sy ey) _ 0 rfl
      simp only [Nat.zero_add, Nat.sub_zero] at hf
      rw [hf, length_prefill]
  · intro h1 h2
    rw [Nat.min_eq_left h1, Nat.min_eq_left h2, Nat.max_eq_right h1, Nat.max_eq_right h2]

/-- The reversed row of the counterexample: the corners reach the panel as
passed. -/
theorem LCD_Fill_corners_as_given_witness :
    (7 < 65536 ∧ 10 < 65536 ∧ 5 < 65536 ∧ 10 < 65536) ∧
    ∃ chunks : List (List Nat),
      transfers true (LCD_Fill ⟨240, 320, 0, 0x2C, 0x2A, 0x2B⟩ 7 10 5 10 0xF800) =
        [Msg.command [0x2A], Msg.data [7 >>> 8, 7 &&& 0xFF, 5 >>> 8, 5 &&& 0xFF],
         Msg.command [0x2B], Msg.data [10 >>> 8, 10 &&& 0xFF, 10 >>> 8, 10 &&& 0xFF],
         Msg.command [0x2C]] ++ chunks.map Msg.data ∧
      chunks.flatten.length =
        2 * (((5 + 65536 - 7 + 1) % 65536) * ((10 + 65536 - 10 + 1) % 65536)) :=
  ⟨⟨by decide, by decide, by decide, by decide⟩,
   (LCD_Fill_corners_as_given ⟨240, 320, 0, 0x2C, 0x2A, 0x2B⟩ 7 10 5 10 0xF800 (by decide)
      (by decide) (by decide) (by decide) true).1⟩

/-- C24: for 16-bit `x`, `y` and `color`, `LCD_DrawPoint(x, y, color)`
produces the very transport events of `LCD_Fill(x, y, x, y, color)`, and
`LCD_SetCursor(x, y)` those of `LCD_SetWindows(x, y, 1, 1)`; the transfers
are the window of the single pixel, the RAM-write command and the two data
bytes `color >> 8`, `color & 0xFF`. -/
theorem LCD_DrawPoint_refines_fill (dev : LcdDev) (x y color : Nat)
    (hx : x < 65536) (hy : y < 65536) (hc : color < 65536) (l : Bool) :
    LCD_DrawPoint dev x y color = LCD_Fill dev x y x y color ∧
    LCD_SetCursor dev x y = LCD_SetWindows dev x y 1 1 ∧
    transfers l (LCD_DrawPoint dev x y color) =
      [Msg.command [dev.setxcmd], Msg.data [x >>> 8, x &&& 0xFF, x >>> 8, x &&& 0xFF],
       Msg.command [dev.setycmd], Msg.data [y >>> 8, y &&& 0xFF, y >>> 8, y &&& 0xFF],
       Msg.command [dev.wramcmd], Msg.data [color >>> 8, color &&& 0xFF]] := by
  have ex : toU16 ((x : Int) + (1 : Nat) - 1) = x := by unfold toU16; omega
  have ey : toU16 ((y : Int) + (1 : Nat) - 1) = y := by unfold toU16; omega
  have hcur : LCD_SetCursor dev x y = LCD_SetWindows dev x y 1 1 := by
    simp only [LCD_SetCursor, LCD_SetWindows, ex, ey]
  have hB : LCD_BATCH_BUFFER_SIZE / 2 = 10240 := by decide
  have ht : (prefill color 10240).take (1 * 2) = prefill color 1 :=
    take_prefill color 10240 1 (by omega)
  refine ⟨?_, hcur, ?_⟩
  · have hs : sendBatches (prefill color 10240) 1 10240 1 0 =
        [Event.spi ((prefill color 10240).take (1 * 2))] := rfl
    have h1 : (1 * 1) % 2 ^ 32 = 1 := rfl
    simp only [LCD_DrawPoint, LCD_Fill, spanU16_self, hcur, hB, h1, hs, ht,
      LCD_WriteRAM, LCD_WR_DATA_16BIT, List.append_assoc, List.cons_append, List.nil_append]
    rfl
  · simp only [LCD_DrawPoint, LCD_SetCursor, LCD_WriteRAM_Prepare, LCD_WriteRAM,
      LCD_WR_DATA_16BIT, List.append_assoc, transfers_WR_REG, List.cons_append, List.nil_append,
      transfers_dc_spi, transfers, hiByte_of_lt hx, hiByte_of_lt hy, hiByte_of_lt hc]
    rfl

/-- The pixel `(300, 10)` in red. -/
theorem LCD_DrawPoint_refines_fill_witness :
    (300 < 65536 ∧ 10 < 65536 ∧ 0xF800 < 65536) ∧
    LCD_DrawPoint ⟨320, 240, 1, 0x2C, 0x2A, 0x2B⟩ 300 10 0xF800 =
      LCD_Fill ⟨320, 240, 1, 0x2C, 0x2A, 0x2B⟩ 300 10 300 10 0xF800 :=
  ⟨⟨by decide, by decide, by decide⟩,
   (LCD_DrawPoint_refines_fill ⟨320, 240, 1, 0x2C, 0x2A, 0x2B⟩ 300 10 0xF800 (by decide)
      (by decide) (by decide) true).1⟩

/-! ## Streaming of colour arrays -/

theorem imageBatches_eq (p : List Nat) (total : Nat) (ht : total + 10240 ≤ 2 ^ 32) :
    ∀ (fuel i : Nat), (total - i + 10239) / 10240 ≤ fuel →
      imageBatches p total 10240 fuel i =
        (List.range ((total - i + 10239) / 10240)).map
          (fun k => Event.spi
            (fillBuffer p (i + k * 10240) (min 10240 (total - (i + k * 10240))))) := by
  intro fuel
  induction fuel with
  | zero =>
    intro i h
    have h0 : (total - i + 10239) / 10240 = 0 := by omega
    simp [imageBatches, h0]
  | succ fuel ih =>
    intro i h
    unfold imageBatches
    by_cases hi : i < total
    · have hw : (i + 10240) % 2 ^ 32 = i + 10240 := by
        apply Nat.mod_eq_of_lt; omega
      have hn : (total - i + 10239) / 10240 = (total - (i + 10240) + 10239) / 10240 + 1 := by
        omega
      have hcur : (if i + 10240 > total then (total - i) % 2 ^ 32 else 10240)
          = min 10240 (total - (i + 0 * 10240)) := by
        have hm : (total - i) % 2 ^ 32 = total - i := by apply Nat.mod_eq_of_lt; omega
        rw [hm]
        split <;> omega
      rw [if_pos hi, hw, ih (i + 10240) (by omega), hn, List.range_succ_eq_map]
      rw [List.map_cons, List.map_map, hcur]
      have h0 : i + 0 * 10240 = i := by omega
      rw [h0]
      refine congrArg (List.cons _) ?_
      apply List.map_congr_left
      intro k _
      have : i + 10240 + k * 10240 = i + (k + 1) * 10240 := by omega
      show Event.spi (fillBuffer p (i + 10240 + k * 10240)
          (min 10240 (total - (i + 10240 + k * 10240)))) =
        Event.spi (fillBuffer p (i + (k + 1) * 10240)
          (min 10240 (total - (i + (k + 1) * 10240))))
      rw [this]
    · have h0 : (total - i + 10239) / 10240 = 0 := by omega
      simp [hi, h0]

theorem colorBatches_eq (p : List Nat) (total : Nat) (ht : total + 10240 ≤ 2 ^ 32) :
    ∀ (fuel i k : Nat), (i < total → k = i) →
      colorBatches p total 10240 fuel i k = imageBatches p total 10240 fuel i := by
  intro fuel
  induction fuel with
  | zero => intro i k _; rfl
  | succ fuel ih =>
    intro i k hk
    unfold colorBatches imageBatches
    by_cases hi : i < total
    · have hw : (i + 10240) % 2 ^ 32 = i + 10240 := by
        apply Nat.mod_eq_of_lt; omega
      rw [if_pos hi, if_pos hi, hk hi, hw]
      refine congrArg (List.cons _) ?_
      apply ih
      intro h2
      have hm : (total - i) % 2 ^ 32 = total - i := by apply Nat.mod_eq_of_lt; omega
      rw [if_neg (by omega)]
      apply Nat.mod_eq_of_lt; omega
    · rw [if_neg hi, if_neg hi]

theorem flushBatches_eq (p : List Nat) (total : Nat) (ht : total + 10240 ≤ 2 ^ 32) :
    ∀ (fuel i : Nat),
      flushBatches p total 10240 fuel i = imageBatches p total 10240 fuel i := by
  intro fuel
  induction fuel with
  | zero => intro i; rfl
  | succ fuel ih =>
    intro i
    unfold flushBatches imageBatches
    by_cases hi : i < total
    · have hw : (i + 10240) % 2 ^ 32 = i + 10240 := by
        apply Nat.mod_eq_of_lt; omega
      rw [if_pos hi, if_pos hi, hw]
      refine congrArg (List.cons _) ?_
      by_cases hc : i + 10240 > total
      · have hm : (total - i) % 2 ^ 32 = total - i := by apply Nat.mod_eq_of_lt; omega
        have hm2 : (i + (total - i)) % 2 ^ 32 = total := by
          rw [Nat.mod_eq_of_lt (by omega)]; omega
        rw [if_pos hc, hm, hm2, ih]
        cases fuel with
        | zero => rfl
        | succ f =>
          unfold imageBatches
          rw [if_neg (by omega), if_neg (by omega)]
      · rw [if_neg hc, hw, ih]
    · rw [if_neg hi, if_neg hi]

theorem fillBuffer_add (p : List Nat) (i a b : Nat) :
    fillBuffer p i (a + b) = fillBuffer p i a ++ fillBuffer p (i + a) b := by
  unfold fillBuffer
  rw [List.range_add, List.flatMap_append, List.flatMap_map]
  simp only [Nat.add_assoc]

theorem flatten_fillBuffer (p : List Nat) (total : Nat) : ∀ (n i : Nat),
    (total - i + 10239) / 10240 = n →
    ((List.range n).map (fun k => fillBuffer p (i + k * 10240)
        (min 10240 (total - (i + k * 10240))))).flatten = fillBuffer p i (total - i) := by
  intro n
  induction n with
  | zero =>
    intro i h
    have : total - i = 0 := by omega
    rw [this]; rfl
  | succ n ih =>
    intro i h
    rw [List.range_succ_eq_map, List.map_cons, List.map_map, List.flatten_cons]
    have h2 := ih (i + 10240) (by omega)
    have h3 : (List.map ((fun k => fillBuffer p (i + k * 10240)
        (min 10240 (total - (i + k * 10240)))) ∘ Nat.succ) (List.range n)) =
        (List.map (fun k => fillBuffer p (i + 10240 + k * 10240)
        (min 10240 (total - (i + 10240 + k * 10240)))) (List.range n)) := by
      apply List.map_congr_left
      intro k _
      have : i + 10240 + k * 10240 = i + (k + 1) * 10240 := by omega
      show fillBuffer p (i + (k + 1) * 10240) (min 10240 (total - (i + (k + 1) * 10240))) = _
      rw [this]
    rw [h3, h2]
    have h0 : i + 0 * 10240 = i := by omega
    rw [h0]
    by_cases hc : total - i ≤ 10240
    · have e1 : min 10240 (total - i) = total - i := by omega
      have e2 : total - (i + 10240) = 0 := by omega
      rw [e1, e2]
      unfold fillBuffer
      simp
    · have e1 : min 10240 (total - i) = 10240 := by omega
      have e2 : total - i = 10240 + (total - (i + 10240)) := by omega
      rw [e1, e2, fillBuffer_add]

theorem fillBuffer_take (p : List Nat) (n : Nat) (hn : n ≤ p.length)
    (hp : ∀ c ∈ p, c < 65536) :
    fillBuffer p 0 n = (p.take n).flatMap (fun c => [c >>> 8, c &&& 0xFF]) := by
  have h1 : (List.range n).map (fun j => p.getD (0 + j) 0) = p.take n := by
    apply List.ext_getElem
    · simp [hn]
    · intro k hk1 hk2
      simp only [List.length_map, List.length_range] at hk1
      simp [List.getD_eq_getElem?_getD, List.getElem?_eq_getElem (show k < p.length by omega)]
  rw [← h1, List.flatMap_map]
  unfold fillBuffer
  apply List.flatMap_congr
  intro j hj
  rw [List.mem_range] at hj
  have hlt : p.getD (0 + j) 0 < 65536 := by
    rw [List.getD_eq_getElem?_getD, Nat.zero_add,
      List.getElem?_eq_getElem (show j < p.length by omega)]
    exact hp _ (List.getElem_mem _)
  rw [hiByte_of_lt hlt]
  rfl

theorem length_fillBuffer (p : List Nat) (i : Nat) : ∀ n, (fillBuffer p i n).length = 2 * n := by
  intro n
  induction n with
  | zero => rfl
  | succ n ih =>
    rw [fillBuffer_add, List.length_append, ih]
    rfl

theorem toU16_grow (x w : Nat) (hx : x < 65536) (hw : w < 65536) :
    spanU16 x (toU16 ((x : Int) + w - 1)) = w := by
  unfold spanU16 toU16; omega

/-- C23: for a window `(x, y, w, h)` of 16-bit values and a source array
`p` of at least `w * h` 16-bit colours, `LCD_ShowImage(x, y, w, h, p)`,
`LCD_Color_Fill(x, y, x+w-1, y+h-1, p)` and
`LCD_DispFlush(x, y, x+w-1, y+h-1, p)` produce the same transport events:
the window transfers, the RAM-write command, and data transfers of at most
10240 pixels (20480 bytes) each whose concatenation is
`p[0]>>8, p[0]&0xFF, ..., p[w*h-1]>>8, p[w*h-1]&0xFF`. -/
theorem streaming_emits_source_pixels (dev : LcdDev) (x y w h : Nat) (p : List Nat)
    (hx : x < 65536) (hy : y < 65536) (hw : w < 65536) (hh : h < 65536)
    (hlen : w * h ≤ p.length) (hp : ∀ c ∈ p, c < 65536) (l : Bool) :
    LCD_Color_Fill dev x y (toU16 ((x : Int) + w - 1)) (toU16 ((y : Int) + h - 1)) p =
      LCD_ShowImage dev x y w h p ∧
    LCD_DispFlush dev x y (toU16 ((x : Int) + w - 1)) (toU16 ((y : Int) + h - 1)) p =
      LCD_ShowImage dev x y w h p ∧
    ∃ chunks : List (List Nat),
      transfers l (LCD_ShowImage dev x y w h p) =
        [Msg.command [dev.setxcmd],
         Msg.data [x >>> 8, x &&& 0xFF,
                   ((x + w + 65535) % 65536) >>> 8, ((x + w + 65535) % 65536) &&& 0xFF],
         Msg.command [dev.setycmd],
         Msg.data [y >>> 8, y &&& 0xFF,
                   ((y + h + 65535) % 65536) >>> 8, ((y + h + 65535) % 65536) &&& 0xFF],
         Msg.command [dev.wramcmd]] ++ chunks.map Msg.data ∧
      (∀ c ∈ chunks, c.length ≤ 2 * 10240) ∧
      chunks.flatten = (p.take (w * h)).flatMap (fun c => [c >>> 8, c &&& 0xFF]) := by
  have hb : w * h + 10240 ≤ 2 ^ 32 := by
    have : w * h ≤ 65535 * 65535 := Nat.mul_le_mul (by omega) (by omega)
    omega
  have hmod : (w * h) % 2 ^ 32 = w * h := by apply Nat.mod_eq_of_lt; omega
  have hB : LCD_BATCH_BUFFER_SIZE / 2 = 10240 := by decide
  refine ⟨?_, ?_, (List.range ((w * h + 10239) / 10240)).map
      (fun k => fillBuffer p (k * 10240) (min 10240 (w * h - k * 10240))), ?_, ?_, ?_⟩
  · simp only [LCD_Color_Fill, LCD_ShowImage, toU16_grow x w hx hw, toU16_grow y h hy hh, hB,
      colorBatches_eq p _ (hmod ▸ hb) _ 0 0 (fun _ => rfl)]
  · simp only [LCD_DispFlush, LCD_ShowImage, toU16_grow x w hx hw, toU16_grow y h hy hh, hB,
      flushBatches_eq p _ (hmod ▸ hb)]
  · have hsend := imageBatches_eq p (w * h) hb (w * h) 0 (by omega)
    simp only [LCD_ShowImage, hmod, hB, List.append_assoc, transfers_SetWindows,
      LCD_WriteRAM_Prepare, transfers_WR_REG, List.cons_append, List.nil_append, hsend]
    have ex : toU16 ((x : Int) + w - 1) = (x + w + 65535) % 65536 := by
      unfold toU16; omega
    have ey : toU16 ((y : Int) + h - 1) = (y + h + 65535) % 65536 := by
      unfold toU16; omega
    have bx : (x + w + 65535) % 65536 < 65536 := Nat.mod_lt _ (by decide)
    have b_y : (y + h + 65535) % 65536 < 65536 := Nat.mod_lt _ (by decide)
    rw [ex, ey, hiByte_of_lt hx, hiByte_of_lt hy, hiByte_of_lt bx, hiByte_of_lt b_y]
    simp only [transfers, Nat.sub_zero, Nat.zero_add, List.cons.injEq, true_and]
    refine ⟨rfl, rfl, ?_⟩
    rw [← transfers_map_spi, List.map_map]
    rfl
  · intro c hc
    simp only [List.mem_map, List.mem_range] at hc
    obtain ⟨k, _, rfl⟩ := hc
    rw [length_fillBuffer]
    omega
  · have hf := flatten_fillBuffer p (w * h) _ 0 rfl
    simp only [Nat.zero_add, Nat.sub_zero] at hf
    rw [hf, fillBuffer_take p _ hlen hp]

/-- A 3 x 2 image at `(10, 20)`. -/
theorem streaming_emits_source_pixels_witness :
    (10 < 65536 ∧ 20 < 65536 ∧ 3 < 65536 ∧ 2 < 65536 ∧
      3 * 2 ≤ [0xF800, 0x07E0, 0x001F, 0xFFFF, 0x0000, 0x1234].length ∧
      ∀ c ∈ [0xF800, 0x07E0, 0x001F, 0xFFFF, 0x0000, 0x1234], c < 65536) ∧
    LCD_Color_Fill ⟨240, 320, 0, 0x2C, 0x2A, 0x2B⟩ 10 20 (toU16 ((10 : Nat) + (3 : Nat) - 1))
        (toU16 ((20 : Nat) + (2 : Nat) - 1)) [0xF800, 0x07E0, 0x001F, 0xFFFF, 0x0000, 0x1234] =
      LCD_ShowImage ⟨240, 320, 0, 0x2C, 0x2A, 0x2B⟩ 10 20 3 2
        [0xF800, 0x07E0, 0x001F, 0xFFFF, 0x0000, 0x1234] :=
  ⟨⟨by decide, by decide, by decide, by decide, by decide, by decide⟩,
   (streaming_emits_source_pixels ⟨240, 320, 0, 0x2C, 0x2A, 0x2B⟩ 10 20 3 2
      [0xF800, 0x07E0, 0x001F, 0xFFFF, 0x0000, 0x1234] (by decide) (by decide) (by decide)
      (by decide) (by decide) (by decide) true).1⟩

/-! ## `LCD_DrawRectangle` -/

theorem calls_vertical (dev : LcdDev) (a b c color : Nat) :
    LCD_DrawLine.calls dev a b a c color = some [Op.fill a (min b c) a (max b c) color] := by
  unfold LCD_DrawLine.calls
  by_cases hbc : b > c
  · simp [hbc, Nat.min_eq_right (Nat.le_of_lt hbc), Nat.max_eq_left (Nat.le_of_lt hbc)]
  · have hle : b ≤ c := Nat.le_of_not_lt hbc
    simp [hbc, Nat.min_eq_left hle, Nat.max_eq_right hle]

theorem calls_horizontal (dev : LcdDev) (a b c color : Nat) :
    LCD_DrawLine.calls dev a c b c color = some [Op.fill (min a b) c (max a b) c color] := by
  by_cases hab : a = b
  · subst hab
    rw [calls_vertical]
    simp
  · unfold LCD_DrawLine.calls
    by_cases hgt : a > b
    · simp [hab, hgt, Nat.min_eq_right (Nat.le_of_lt hgt), Nat.max_eq_left (Nat.le_of_lt hgt)]
    · have hle : a ≤ b := Nat.le_of_not_lt hgt
      simp [hab, hgt, Nat.min_eq_left hle, Nat.max_eq_right hle]

/-- The positions written by a fill with corners in ascending order. -/
theorem mem_pixels_fill (sx sy ex ey color : Nat) (hx : sx ≤ ex) (hex : ex < 65535)
    (hy : sy ≤ ey) (hey : ey < 65535) (x y : Nat) :
    (x, y) ∈ (Op.fill sx sy ex ey color).pixels.map Prod.fst ↔
      sx ≤ x ∧ x ≤ ex ∧ sy ≤ y ∧ y ≤ ey := by
  have hw : spanU16 sx ex = ex - sx + 1 := spanU16_of_le hx hex
  have hh : spanU16 sy ey = ey - sy + 1 := spanU16_of_le hy hey
  have hend : toU16 ((sx : Int) + (ex - sx + 1 : Nat) - 1) = ex := toU16_end hx hex
  have he : ex + 1 - sx = ex - sx + 1 := by omega
  simp only [Op.pixels, hw, hh, hend, landing, he, List.map_map, List.mem_map, List.mem_range,
    Function.comp, Prod.mk.injEq]
  rw [mem_window sx sy (ex - sx + 1) (ey - sy + 1) x y (by omega)]
  constructor
  · rintro ⟨a, b, c, d⟩
    exact ⟨a, by omega, c, by omega⟩
  · rintro ⟨a, b, c, d⟩
    exact ⟨a, by omega, c, by omega⟩

/-- C28: for corners on the surface in any order `LCD_DrawRectangle`
returns after exactly four fills, never reaching the point-collecting path of
`LCD_DrawLine`: the edge on row `y1`, the edge in column `x1`, the edge on
row `y2` and the edge in column `x2`, each with its ends in ascending order.
The pixels written are exactly the boundary of
`[min x .. max x] x [min y .. max y]`; no pixel strictly inside is written. -/
theorem LCD_DrawRectangle_boundary (dev : LcdDev) (x1 y1 x2 y2 color : Nat)
    (hcfg : dev.Configured) (hW : dev.width < 65536) (hH : dev.height < 65536)
    (hx1 : x1 < dev.width) (hx2 : x2 < dev.width) (hy1 : y1 < dev.height)
    (hy2 : y2 < dev.height) (hc : color < 65536) :
    LCD_DrawRectangle.calls dev x1 y1 x2 y2 color =
      some [Op.fill (min x1 x2) y1 (max x1 x2) y1 color,
            Op.fill x1 (min y1 y2) x1 (max y1 y2) color,
            Op.fill (min x1 x2) y2 (max x1 x2) y2 color,
            Op.fill x2 (min y1 y2) x2 (max y1 y2) color] ∧
    ∃ tr, LCD_DrawRectangle dev x1 y1 x2 y2 color = some tr ∧
      ∀ x y, (x, y) ∈ painted tr ↔
        (min x1 x2 ≤ x ∧ x ≤ max x1 x2 ∧ min y1 y2 ≤ y ∧ y ≤ max y1 y2 ∧
          (x = min x1 x2 ∨ x = max x1 x2 ∨ y = min y1 y2 ∨ y = max y1 y2)) := by
  have hcalls : LCD_DrawRectangle.calls dev x1 y1 x2 y2 color =
      some [Op.fill (min x1 x2) y1 (max x1 x2) y1 color,
            Op.fill x1 (min y1 y2) x1 (max y1 y2) color,
            Op.fill (min x1 x2) y2 (max x1 x2) y2 color,
            Op.fill x2 (min y1 y2) x2 (max y1 y2) color] := by
    unfold LCD_DrawRectangle.calls
    rw [calls_horizontal, calls_vertical, calls_horizontal, calls_vertical]
    rfl
  refine ⟨hcalls, _, by rw [LCD_DrawRectangle, hcalls]; rfl, ?_⟩
  intro x y
  have hmx : min x1 x2 ≤ max x1 x2 := by omega
  have hmy : min y1 y2 ≤ max y1 y2 := by omega
  rw [painted_emitAll dev hcfg _ (by
    intro op hop
    simp only [List.mem_cons, List.mem_singleton, List.mem_nil_iff, or_false] at hop
    rcases hop with h | h | h | h <;> subst h <;> simp only [Op.IsU16] <;> omega)]
  simp only [List.flatMap_cons, List.flatMap_nil, List.append_nil, List.map_append,
    List.mem_append]
  rw [mem_pixels_fill _ _ _ _ _ hmx (by omega) (le_refl _) (by omega),
    mem_pixels_fill _ _ _ _ _ (le_refl _) (by omega) hmy (by omega),
    mem_pixels_fill _ _ _ _ _ hmx (by omega) (le_refl _) (by omega),
    mem_pixels_fill _ _ _ _ _ (le_refl _) (by omega) hmy (by omega)]
  omega

/-- The rectangle with corners `(7, 20)` and `(3, 10)`, given in descending
order, on a 240 x 320 surface. -/
theorem LCD_DrawRectangle_boundary_witness :
    ((⟨240, 320, 0, 0x2C, 0x2A, 0x2B⟩ : LcdDev).Configured ∧ 240 < 65536 ∧ 320 < 65536 ∧
      7 < 240 ∧ 3 < 240 ∧ 20 < 320 ∧ 10 < 320 ∧ 0xF800 < 65536) ∧
    LCD_DrawRectangle.calls ⟨240, 320, 0, 0x2C, 0x2A, 0x2B⟩ 7 20 3 10 0xF800 =
      some [Op.fill (min 7 3) 20 (max 7 3) 20 0xF800,
            Op.fill 7 (min 20 10) 7 (max 20 10) 0xF800,
            Op.fill (min 7 3) 10 (max 7 3) 10 0xF800,
            Op.fill 3 (min 20 10) 3 (max 20 10) 0xF800] :=
  ⟨⟨by decide, by decide, by decide, by decide, by decide, by decide, by decide, by decide⟩,
   (LCD_DrawRectangle_boundary ⟨240, 320, 0, 0x2C, 0x2A, 0x2B⟩ 7 20 3 10 0xF800
      (by decide) (by decide) (by decide) (by decide) (by decide) (by decide) (by decide)
      (by decide)).1⟩

/-! ## `Draw_Circle`: the point buffers -/

theorem circleWrites_lt : ∀ (fuel : Nat) (a b di : Int) (pc : Nat), pc ≤ 496 → pc % 8 = 0 →
    ∀ idx ∈ circleWrites fuel a b di pc, idx < 504 := by
  intro fuel
  induction fuel with
  | zero => intro a b di pc _ _ idx h; simp [circleWrites] at h
  | succ fuel ih =>
    intro a b di pc h1 h2 idx h
    unfold circleWrites at h
    by_cases hab : a ≤ b
    · simp only [hab, if_true, List.mem_append, List.mem_map, List.mem_range] at h
      rcases h with ⟨j, hj, rfl⟩ | h
      · omega
      · refine ih _ _ _ _ ?_ ?_ idx h
        · split <;> omega
        · split <;> omega
    · simp [hab] at h

theorem circleWrites_length : ∀ (fuel : Nat) (a b di : Int) (pc : Nat),
    (circleWrites fuel a b di pc).length = 8 * (circleOffsets fuel a b di).length := by
  intro fuel
  induction fuel with
  | zero => intro a b di pc; rfl
  | succ fuel ih =>
    intro a b di pc
    unfold circleWrites circleOffsets
    by_cases hab : a ≤ b
    · simp only [hab, if_true, List.length_append, List.length_map, List.length_range,
        List.length_cons, ih]
      omega
    · simp [hab]

theorem circleLoop_batches (x0 y0 : Nat) : ∀ (fuel : Nat) (a b di : Int) (pts : List Pt),
    pts.length ≤ 496 → pts.length % 8 = 0 →
    (∀ c ∈ circleLoop x0 y0 fuel a b di pts, c ≠ [] ∧ c.length ≤ 504) ∧
    (∀ k, k + 1 < (circleLoop x0 y0 fuel a b di pts).length →
      500 ≤ ((circleLoop x0 y0 fuel a b di pts).getD k []).length) := by
  intro fuel
  induction fuel with
  | zero =>
    intro a b di pts h1 h2
    unfold circleLoop
    split
    · refine ⟨?_, ?_⟩
      · intro c hc
        rw [List.mem_singleton] at hc
        subst hc
        exact ⟨by intro e; simp [e] at *, by omega⟩
      · intro k hk
        simp at hk
    · simp
  | succ fuel ih =>
    intro a b di pts h1 h2
    unfold circleLoop
    by_cases hab : a ≤ b
    · simp only [hab, if_true]
      have hl : (pts ++ eightPoints x0 y0 a b).length = pts.length + 8 := by
        simp [eightPoints]
      split
      · rename_i hge
        obtain ⟨i1, i2⟩ := ih (a + 1) (if di < 0 then b else b - 1)
          (if di < 0 then di + (4 * (a + 1) + 6) else di + (10 + 4 * (a + 1 - b))) []
          (by simp) (by simp)
        refine ⟨?_, ?_⟩
        · intro c hc
          rw [List.mem_cons] at hc
          rcases hc with rfl | hc
          · refine ⟨?_, by omega⟩
            intro e
            rw [e] at hl
            simp at hl
          · exact i1 c hc
        · intro k hk
          cases k with
          | zero => simpa using hge
          | succ k =>
            simp only [List.length_cons] at hk
            simpa using i2 k (by omega)
      · rename_i hlt
        exact ih _ _ _ _ (by omega) (by omega)
    · simp only [hab, if_false]
      split
      · refine ⟨?_, ?_⟩
        · intro c hc
          rw [List.mem_singleton] at hc
          subst hc
          exact ⟨by intro e; simp [e] at *, by omega⟩
        · intro k hk
          simp at hk
      · simp

/-- C29: for every radius `r` (in particular for the `u8` values 0..255)
every index at which `Draw_Circle` writes its 512-entry point buffers is
below 512 (in fact below 504), one index per generated point; the loop has
ended within `r + 1` iterations; every array passed to `LCD_DrawPoints` is
non-empty and holds at most 504 points, every array but the last at least
500; and the arrays, put end to end in call order, are the eight points of
every loop iteration in the order of generation, each once. -/
theorem Draw_Circle_buffer_safe (x0 y0 r : Nat) :
    (∀ idx ∈ Draw_Circle.writes r, idx < 512) ∧
    (Draw_Circle.writes r).length = 8 * (Draw_Circle.offsets r).length ∧
    (∀ k, circleLoop x0 y0 (r + 1 + k) 0 r (3 - 2 * (r : Int)) [] = Draw_Circle.batches x0 y0 r) ∧
    (∀ c ∈ Draw_Circle.batches x0 y0 r, c ≠ [] ∧ c.length ≤ 504) ∧
    (∀ k, k + 1 < (Draw_Circle.batches x0 y0 r).length →
      500 ≤ ((Draw_Circle.batches x0 y0 r).getD k []).length) ∧
    (Draw_Circle.batches x0 y0 r).flatten =
      (Draw_Circle.offsets r).flatMap (fun ab => eightPoints x0 y0 ab.1 ab.2) := by
  obtain ⟨h1, h2⟩ := circleLoop_batches x0 y0 (r + 1) 0 r (3 - 2 * (r : Int)) [] (by simp)
    (by simp)
  refine ⟨?_, circleWrites_length _ _ _ _ _, ?_, h1, h2, ?_⟩
  · intro idx h
    have := circleWrites_lt (r + 1) 0 r (3 - 2 * (r : Int)) 0 (by omega) (by omega) idx h
    omega
  · intro k
    exact circleLoop_fuel x0 y0 (r + 1) k 0 r _ [] (by omega)
  · have := circleLoop_flatten x0 y0 (r + 1) 0 r (3 - 2 * (r : Int)) []
    simpa [Draw_Circle.batches, Draw_Circle.offsets] using this

/-! ## `LCD_DrawLine`: the run analysis -/

theorem maximalRuns_head (p : Pt) (rest : List Pt) :
    ∃ r rs, maximalRuns (p :: rest) = (p :: r) :: rs :=
  ⟨_, _, maximalRuns_cons rest p⟩

theorem maximalRuns_chain : ∀ (r : List Pt), r ≠ [] → r.Chain' follows → maximalRuns r = [r] := by
  intro r
  induction r with
  | nil => intro h; exact absurd rfl h
  | cons a r ih =>
    intro _ hch
    cases r with
    | nil => simp [maximalRuns]
    | cons b r =>
      rw [List.chain'_cons] at hch
      have h := ih (by simp) hch.2
      conv_lhs => unfold maximalRuns
      rw [h]
      simp [hch.1]

theorem maximalRuns_append_break (p : Pt) (rest : List Pt) : ∀ (run : List Pt), run ≠ [] →
    run.Chain' follows → ¬ follows (run.getLastD (0, 0)) p →
    maximalRuns (run ++ p :: rest) = run :: maximalRuns (p :: rest) := by
  intro run
  induction run with
  | nil => intro h; exact absurd rfl h
  | cons a r ih =>
    intro _ hch hbr
    obtain ⟨t, rs, ht⟩ := maximalRuns_head p rest
    cases r with
    | nil =>
      have hbr2 : ¬ follows a p := by simpa using hbr
      show maximalRuns (a :: p :: rest) = _
      conv_lhs => unfold maximalRuns
      rw [ht]
      simp [hbr2]
    | cons b r =>
      rw [List.chain'_cons] at hch
      have h := ih (by simp) hch.2 (by simpa using hbr)
      show maximalRuns (a :: (b :: r ++ p :: rest)) = _
      conv_lhs => unfold maximalRuns
      rw [h]
      simp [hch.1]

theorem chain_same_row (run : List Pt) (hch : run.Chain' follows) :
    ∀ q ∈ run, q.2 = (run.headD (0, 0)).2 := by
  cases run with
  | nil => intro q h; simp at h
  | cons p0 r =>
    intro q hq
    have h := chain_follows_eq r p0 hch
    rw [List.mem_cons] at hq
    rcases hq with rfl | hq
    · rfl
    · rw [h, List.mem_map] at hq
      obtain ⟨j, _, rfl⟩ := hq
      rfl

theorem getD_middle (pre run rest : List Pt) (j : Nat) (hj : j < run.length) :
    (pre ++ run ++ rest).getD (pre.length + j) (0, 0) = run.getD j (0, 0) := by
  rw [List.getD_eq_getElem?_getD, List.getD_eq_getElem?_getD, List.append_assoc,
    List.getElem?_append_right (by omega), Nat.add_sub_cancel_left,
    List.getElem?_append_left hj]

theorem segmentCalls_eq (color : Nat) (pre run rest : List Pt) (hne : run ≠ [])
    (hch : run.Chain' follows) :
    segmentCalls (pre ++ run ++ rest) color pre.length (run.headD (0, 0)).2 run.length =
      segmentOps color run := by
  have hpos : 0 < run.length := List.length_pos.2 hne
  unfold segmentCalls segmentOps
  by_cases h3 : run.length > 3
  · rw [if_pos h3, if_pos h3]
    have e0 := getD_middle pre run rest 0 hpos
    have e1 := getD_middle pre run rest (run.length - 1) (by omega)
    rw [Nat.add_zero] at e0
    have e2 : pre.length + run.length - 1 = pre.length + (run.length - 1) := by omega
    rw [e0, e2, e1]
    have h0 : run.getD 0 (0, 0) = run.headD (0, 0) := by
      cases run with
      | nil => rfl
      | cons a r => rfl
    have hl : run.getD (run.length - 1) (0, 0) = run.getLastD (0, 0) := by
      rw [List.getD_eq_getElem?_getD, ← List.getLast?_eq_getElem?]
      cases run with
      | nil => rfl
      | cons a r => simp [List.getLast?_eq_getLast, List.getLastD_eq_getLast?]
    rw [h0, hl]
  · rw [if_neg h3, if_neg h3, if_pos hpos]
    apply List.ext_getElem
    · simp
    · intro k hk1 hk2
      simp only [List.length_map, List.length_range] at hk1
      simp only [List.getElem_map, List.getElem_range]
      rw [getD_middle pre run rest k hk1, List.getD_eq_getElem?_getD,
        List.getElem?_eq_getElem hk1, Option.getD_some,
        chain_same_row run hch _ (List.getElem_mem hk1)]

theorem analyseRuns_eq (pts : List Pt) (color : Nat) :
    ∀ (rest pre run : List Pt) (i prev_x start_x current_y len processed : Nat),
      run ≠ [] → run.Chain' follows → pts = pre ++ run ++ rest →
      i = pre.length + run.length → prev_x = (run.getLastD (0, 0)).1 → start_x = pre.length →
      current_y = (run.headD (0, 0)).2 → len = run.length →
      analyseRuns pts color rest i prev_x start_x current_y len processed =
        ((maximalRuns (run ++ rest)).flatMap (segmentOps color),
          processed + run.length + rest.length) := by
  intro rest
  induction rest with
  | nil =>
    intro pre run i prev_x start_x current_y len processed hne hch hpts hi hp hs hc hl
    have hpos : 0 < run.length := List.length_pos.2 hne
    subst hi hp hs hc hl
    unfold analyseRuns
    rw [hpts, segmentCalls_eq color pre run [] hne hch, List.append_nil,
      maximalRuns_chain run hne hch, if_pos hpos]
    simp
  | cons p rest ih =>
    intro pre run i prev_x start_x current_y len processed hne hch hpts hi hp hs hc hl
    have hpos : 0 < run.length := List.length_pos.2 hne
    have hlast : run.getLastD (0, 0) ∈ run := by
      cases run with
      | nil => exact absurd rfl hne
      | cons a r =>
        rw [List.getLastD_eq_getLast?, List.getLast?_eq_getLast _ (by simp)]
        exact List.getLast_mem _
    have hrow := chain_same_row run hch _ hlast
    unfold analyseRuns
    by_cases hf : p.2 = current_y ∧ p.1 = prev_x + 1
    · rw [if_pos hf]
      have hfol : follows (run.getLastD (0, 0)) p := by
        unfold follows
        rw [hrow, ← hc, ← hp]
        exact hf
      have hch2 : (run ++ [p]).Chain' follows := by
        refine List.Chain'.append hch (List.chain'_singleton p) ?_
        intro x hx y hy
        rw [List.getLastD_eq_getLast?] at hfol
        cases hgl : run.getLast? with
        | none => rw [hgl] at hx; simp at hx
        | some z =>
          rw [hgl] at hx hfol
          simp only [Option.mem_def, Option.some.injEq] at hx
          simp only [List.head?_cons, Option.mem_def, Option.some.injEq] at hy
          subst hx hy
          simpa using hfol
      have := ih pre (run ++ [p]) (i + 1) p.1 start_x current_y (len + 1) processed (by simp)
        hch2 (by rw [hpts]; simp) (by rw [hi]; simp; omega) (by simp) hs
        (by
          rw [hc]
          cases run with
          | nil => exact absurd rfl hne
          | cons a r => rfl)
        (by rw [hl]; simp)
      rw [this]
      simp only [List.append_assoc, List.singleton_append, List.length_append, List.length_cons,
        List.length_nil, Prod.mk.injEq, true_and]
      omega
    · rw [if_neg hf]
      have hnf : ¬ follows (run.getLastD (0, 0)) p := by
        unfold follows
        rw [hrow, ← hc, ← hp]
        exact hf
      have := ih (pre ++ run) [p] (i + 1) p.1 i p.2 1
        (if len > 0 then processed + len else processed) (by simp)
        (List.chain'_singleton p) (by rw [hpts]; simp) (by rw [hi]; simp) (by simp)
        (by rw [hi]; simp) (by simp) (by simp)
      rw [this, maximalRuns_append_break p rest run hne hch hnf]
      subst hi hp hs hc hl
      rw [hpts, segmentCalls_eq color pre run (p :: rest) hne hch,
        if_pos hpos]
      simp only [List.flatMap_cons, List.singleton_append, List.length_cons, List.length_nil,
        Prod.mk.injEq, true_and]
      omega

/-- The run analysis from its initial state handles the maximal runs of the
collected points, one after the other, and counts every point. -/
theorem analyseRuns_all (pts : List Pt) (color : Nat) (hne : pts ≠ []) :
    analyseRuns pts color pts.tail 1 (pts.headD (0, 0)).1 0 (pts.headD (0, 0)).2 1 0 =
      ((maximalRuns pts).flatMap (segmentOps color), pts.length) := by
  cases pts with
  | nil => exact absurd rfl hne
  | cons p rest =>
    have := analyseRuns_eq (p :: rest) color rest [] [p] 1 p.1 0 p.2 1 0 (by simp)
      (List.chain'_singleton p) (by simp) (by simp) (by simp) (by simp) (by simp) (by simp)
    simp only [List.tail_cons, List.headD_cons, this, List.singleton_append, List.length_cons,
      List.length_nil, Prod.mk.injEq, true_and]
    omega

/-- C30: for end points that reach the run analysis of `LCD_DrawLine` (not
axis-aligned, a collecting loop that ends, at least 30 collected points and a
bounding box of at most 100 in each axis), the runs that the analysis
handles are the maximal runs of the collected points, which put end to end
are the collected points; `processed` ends equal to `point_count`, so the
branch `processed < point_count` is not taken and the calls made are those
of the handled runs alone. -/
theorem LCD_DrawLine_runs_partition (dev : LcdDev) (x1 y1 x2 y2 color : Nat)
    (hx : x1 ≠ x2) (hy : y1 ≠ y2)
    (hdx : ((x2 : Int) - x1).natAbs < 65534) (hdy : ((y2 : Int) - y1).natAbs < 65534)
    (hreach : ¬ ((linePoints x1 y1 x2 y2).length < 30 ∨
      (boundingBox (linePoints x1 y1 x2 y2)).2.1 - (boundingBox (linePoints x1 y1 x2 y2)).1 > 100 ∨
      (boundingBox (linePoints x1 y1 x2 y2)).2.2.2 -
        (boundingBox (linePoints x1 y1 x2 y2)).2.2.1 > 100)) :
    (analyseRuns (linePoints x1 y1 x2 y2) color (linePoints x1 y1 x2 y2).tail 1
        ((linePoints x1 y1 x2 y2).headD (0, 0)).1 0 ((linePoints x1 y1 x2 y2).headD (0, 0)).2 1
        0).2 = (linePoints x1 y1 x2 y2).length ∧
    (analyseRuns (linePoints x1 y1 x2 y2) color (linePoints x1 y1 x2 y2).tail 1
        ((linePoints x1 y1 x2 y2).headD (0, 0)).1 0 ((linePoints x1 y1 x2 y2).headD (0, 0)).2 1
        0).1 = (maximalRuns (linePoints x1 y1 x2 y2)).flatMap (segmentOps color) ∧
    (maximalRuns (linePoints x1 y1 x2 y2)).flatten = linePoints x1 y1 x2 y2 ∧
    LCD_DrawLine.calls dev x1 y1 x2 y2 color =
      some ((maximalRuns (linePoints x1 y1 x2 y2)).flatMap (segmentOps color)) := by
  have hne : linePoints x1 y1 x2 y2 ≠ [] := by
    intro e
    rw [e] at hreach
    simp at hreach
  have hall := analyseRuns_all (linePoints x1 y1 x2 y2) color hne
  refine ⟨by rw [hall], by rw [hall], (maximalRuns_spec _).1, ?_⟩
  have hd : ¬ ((if ((x2 : Int) - x1).natAbs > ((y2 : Int) - y1).natAbs
      then ((((x2 : Int) - x1).natAbs : Nat) : Int) else ((((y2 : Int) - y1).natAbs : Nat) : Int))
      + 1 ≥ 65535) := by
    split <;> omega
  simp only [LCD_DrawLine.calls, if_neg hx, if_neg hy, if_neg hd, if_neg hreach, hall,
    lt_irrefl, if_false]

/-- The line from `(0, 0)` to `(50, 20)` on a 240 x 320 surface: 52
collected points in a box of 50 by 20. -/
theorem LCD_DrawLine_runs_partition_witness :
    (0 ≠ 50 ∧ 0 ≠ 20 ∧ (((50 : Nat) : Int) - (0 : Nat)).natAbs < 65534 ∧
      (((20 : Nat) : Int) - (0 : Nat)).natAbs < 65534) ∧
    (analyseRuns (linePoints 0 0 50 20) 0xF800 (linePoints 0 0 50 20).tail 1
        ((linePoints 0 0 50 20).headD (0, 0)).1 0 ((linePoints 0 0 50 20).headD (0, 0)).2 1
        0).2 = (linePoints 0 0 50 20).length :=
  ⟨⟨by decide, by decide, by decide, by decide⟩,
   (LCD_DrawLine_runs_partition ⟨240, 320, 0, 0x2C, 0x2A, 0x2B⟩ 0 0 50 20 0xF800 (by decide)
      (by decide) (by decide) (by decide) (by decide!)).1⟩

/-! ## The select line -/

theorem selectRun_append : ∀ (a b : List Event) (s s1 : Select),
    selectRun s a = some s1 → selectRun s (a ++ b) = selectRun s1 b := by
  intro a
  induction a with
  | nil => intro b s s1 h; simp only [selectRun, Option.some.injEq] at h; subst h; rfl
  | cons e es ih =>
    intro b s s1 h
    simp only [selectRun, List.cons_append] at h ⊢
    cases hs : s.step e with
    | none => rw [hs] at h; simp at h
    | some s2 =>
      rw [hs] at h
      simp only at h ⊢
      exact ih b s2 s1 h

/-- What the discipline means for the transfers: every send made with the
line low is a single byte, and the level of the line after the trace is that
of the final state. -/
theorem selectRun_sound : ∀ (tr : List Event) (s s1 : Select), selectRun s tr = some s1 →
    lineAfter s.level tr = s1.level ∧
    ∀ bs, Msg.command bs ∈ transfers s.level tr → bs.length = 1 := by
  intro tr
  induction tr with
  | nil =>
    intro s s1 h
    simp only [selectRun, Option.some.injEq] at h
    subst h
    simp [lineAfter, transfers]
  | cons e es ih =>
    intro s s1 h
    simp only [selectRun] at h
    cases hs : s.step e with
    | none => rw [hs] at h; simp at h
    | some s2 =>
      rw [hs] at h
      simp only at h
      have := ih s2 s1 h
      cases s <;> cases e with
      | dc hgh =>
        cases hgh <;> simp only [Select.step, Option.some.injEq, reduceCtorEq] at hs <;>
          subst hs <;> simpa [lineAfter, transfers, Select.level] using this
      | spi bs0 =>
        first
        | (simp only [Select.step, Option.some.injEq, reduceCtorEq] at hs
           subst hs
           simpa [lineAfter, transfers, Select.level] using this)
        | (cases bs0 with
           | nil => simp [Select.step] at hs
           | cons b0 t0 =>
             cases t0 with
             | nil =>
               simp only [Select.step, Option.some.injEq] at hs
               subst hs
               refine ⟨by simpa [lineAfter, Select.level] using this.1, ?_⟩
               intro bs hbs
               simp only [Select.level, transfers, List.mem_cons, Msg.command.injEq] at hbs
               rcases hbs with rfl | hbs
               · rfl
               · exact this.2 bs (by simpa [Select.level] using hbs)
             | cons b1 t1 => simp [Select.step] at hs)
        | simp [Select.step] at hs

theorem Disciplined_nil : Disciplined [] := ⟨rfl, fun h => absurd rfl h⟩

theorem Disciplined_append {a b : List Event} (ha : Disciplined a) (hb : Disciplined b) :
    Disciplined (a ++ b) := by
  refine ⟨?_, ?_⟩
  · rw [selectRun_append a b _ _ ha.1]; exact hb.1
  · intro hne
    by_cases hA : a = []
    · subst hA
      exact hb.2 (by simpa using hne)
    · rw [selectRun_append a b _ _ (ha.2 hA)]; exact hb.1

/-- Data sent after a trace that has set the line. -/
theorem Disciplined_append_high {a b : List Event} (ha : Disciplined a) (hne : a ≠ [])
    (hb : selectRun Select.high b = some Select.high) : Disciplined (a ++ b) := by
  refine ⟨?_, ?_⟩
  · rw [selectRun_append a b _ _ ha.1]; exact hb
  · intro _
    rw [selectRun_append a b _ _ (ha.2 hne)]; exact hb

theorem Disciplined_flatMap {α : Type} (f : α → List Event) (l : List α)
    (h : ∀ a ∈ l, Disciplined (f a)) : Disciplined (l.flatMap f) := by
  induction l with
  | nil => exact Disciplined_nil
  | cons a l ih =>
    rw [List.flatMap_cons]
    exact Disciplined_append (h a (List.mem_cons_self a l))
      (ih (fun b hb => h b (List.mem_cons_of_mem a hb)))

theorem Disciplined_WR_REG (reg : Nat) : Disciplined (LCD_WR_REG reg) :=
  ⟨rfl, fun _ => rfl⟩

theorem Disciplined_WR_DATA (data : Nat) : Disciplined (LCD_WR_DATA data) :=
  ⟨rfl, fun _ => rfl⟩

theorem Disciplined_dc_spi (bs : List Nat) : Disciplined [Event.dc true, Event.spi bs] :=
  ⟨rfl, fun _ => rfl⟩

theorem Disciplined_SetWindows (dev : LcdDev) (sx sy width height : Nat) :
    Disciplined (LCD_SetWindows dev sx sy width height) :=
  ⟨rfl, fun _ => rfl⟩

theorem Disciplined_SetCursor (dev : LcdDev) (x y : Nat) : Disciplined (LCD_SetCursor dev x y) :=
  ⟨rfl, fun _ => rfl⟩

theorem Disciplined_window_prepare (dev : LcdDev) (sx sy width height : Nat) :
    Disciplined (LCD_SetWindows dev sx sy width height ++ LCD_WriteRAM_Prepare dev ++
      [Event.dc true]) ∧
    LCD_SetWindows dev sx sy width height ++ LCD_WriteRAM_Prepare dev ++ [Event.dc true] ≠ [] :=
  ⟨⟨rfl, fun _ => rfl⟩, by simp [LCD_SetWindows, LCD_WR_REG]⟩

theorem high_sendBatches (buf : List Nat) (total batch_size : Nat) : ∀ (fuel i : Nat),
    selectRun Select.high (sendBatches buf total batch_size fuel i) = some Select.high := by
  intro fuel
  induction fuel with
  | zero => intro i; rfl
  | succ fuel ih =>
    intro i
    unfold sendBatches
    split
    · exact ih _
    · rfl

theorem high_imageBatches (p : List Nat) (total batch_size : Nat) : ∀ (fuel i : Nat),
    selectRun Select.high (imageBatches p total batch_size fuel i) = some Select.high := by
  intro fuel
  induction fuel with
  | zero => intro i; rfl
  | succ fuel ih =>
    intro i
    unfold imageBatches
    split
    · exact ih _
    · rfl

theorem high_colorBatches (p : List Nat) (total batch_size : Nat) : ∀ (fuel i k : Nat),
    selectRun Select.high (colorBatches p total batch_size fuel i k) = some Select.high := by
  intro fuel
  induction fuel with
  | zero => intro i k; rfl
  | succ fuel ih =>
    intro i k
    unfold colorBatches
    split
    · exact ih _ _
    · rfl

theorem high_flushBatches (p : List Nat) (total batch_size : Nat) : ∀ (fuel i : Nat),
    selectRun Select.high (flushBatches p total batch_size fuel i) = some Select.high := by
  intro fuel
  induction fuel with
  | zero => intro i; rfl
  | succ fuel ih =>
    intro i
    unfold flushBatches
    split
    · exact ih _
    · rfl

theorem high_streamPixels : ∀ (cs buf : List Nat),
    selectRun Select.high (streamPixels cs buf) = some Select.high := by
  intro cs
  induction cs with
  | nil =>
    intro buf
    unfold streamPixels
    split <;> rfl
  | cons c cs ih =>
    intro buf
    unfold streamPixels
    simp only
    split
    · exact ih _
    · exact ih _

theorem Disciplined_Fill (dev : LcdDev) (sx sy ex ey color : Nat) :
    Disciplined (LCD_Fill dev sx sy ex ey color) := by
  unfold LCD_Fill
  exact Disciplined_append_high (Disciplined_window_prepare dev _ _ _ _).1
    (Disciplined_window_prepare dev _ _ _ _).2 (high_sendBatches _ _ _ _ _)

theorem Disciplined_DrawPoint (dev : LcdDev) (x y color : Nat) :
    Disciplined (LCD_DrawPoint dev x y color) :=
  ⟨rfl, fun _ => rfl⟩

theorem Disciplined_emitAll (dev : LcdDev) (ops : List Op) : Disciplined (emitAll dev ops) := by
  unfold emitAll
  apply Disciplined_flatMap
  intro op _
  cases op with
  | fill sx sy ex ey color => exact Disciplined_Fill dev sx sy ex ey color
  | point x y color => exact Disciplined_DrawPoint dev x y color

theorem Disciplined_ShowChar (dev : LcdDev) (font : Font) (x y chr size mode color bg_color : Nat) :
    Disciplined (LCD_ShowChar dev font x y chr size mode color bg_color) := by
  unfold LCD_ShowChar
  simp only
  split
  · exact Disciplined_nil
  · split
    · exact Disciplined_nil
    · split
      · exact Disciplined_nil
      · split
        · exact Disciplined_append_high (Disciplined_window_prepare dev _ _ _ _).1
            (Disciplined_window_prepare dev _ _ _ _).2 (high_streamPixels _ _)
        · exact Disciplined_emitAll _ _

theorem Disciplined_Scan_Dir (dev : LcdDev) (dir : Nat) : Disciplined (LCD_Scan_Dir dev dir) :=
  ⟨rfl, fun _ => rfl⟩

theorem Disciplined_calls (dev : LcdDev) (o : Option (List Op)) :
    ∀ tr ∈ o.map (emitAll dev), Disciplined tr := by
  intro tr h
  cases o with
  | none => simp at h
  | some ops =>
    simp only [Option.map_some', Option.mem_def, Option.some.injEq] at h
    subst h
    exact Disciplined_emitAll dev ops

theorem Disciplined_chars (dev : LcdDev) (font : Font) (cs : List CharCall) :
    Disciplined (cs.flatMap (CharCall.emit dev font)) :=
  Disciplined_flatMap _ _ (fun _ _ => Disciplined_ShowChar dev font _ _ _ _ _ _ _)

theorem Disciplined_char_calls (dev : LcdDev) (font : Font) (o : Option (List CharCall)) :
    ∀ tr ∈ o.map (fun cs => cs.flatMap (CharCall.emit dev font)), Disciplined tr := by
  intro tr h
  cases o with
  | none => simp at h
  | some cs =>
    simp only [Option.map_some', Option.mem_def, Option.some.injEq] at h
    subst h
    exact Disciplined_chars dev font cs

/-! ## The command protocol -/

theorem transfers_append : ∀ (a b : List Event) (l : Bool),
    transfers l (a ++ b) = transfers l a ++ transfers (lineAfter l a) b := by
  intro a
  induction a with
  | nil => intro b l; cases l <;> simp [transfers, lineAfter]
  | cons e es ih =>
    intro b l
    cases e with
    | dc h => simp [transfers, lineAfter, ih]
    | spi bs =>
      cases l <;> simp [transfers, lineAfter, ih]

theorem protoRun_append : ∀ (x y : List Msg) (p q : Proto),
    protoRun p x = some q → protoRun p (x ++ y) = protoRun q y := by
  intro x
  induction x with
  | nil => intro y p q h; simp only [protoRun, Option.some.injEq] at h; subst h; rfl
  | cons m ms ih =>
    intro y p q h
    simp only [protoRun, List.cons_append] at h ⊢
    cases hs : p.step m with
    | none => rw [hs] at h; simp at h
    | some p1 =>
      rw [hs] at h
      simp only at h ⊢
      exact ih y p1 q h

theorem Accepted_nil : Accepted [] := by
  intro l p hp
  exact ⟨p, hp, by cases l <;> rfl⟩

theorem Accepted_append {a b : List Event} (ha : Accepted a) (hb : Accepted b) :
    Accepted (a ++ b) := by
  intro l p hp
  obtain ⟨q, hq, h1⟩ := ha l p hp
  obtain ⟨q2, hq2, h2⟩ := hb (lineAfter l a) q hq
  exact ⟨q2, hq2, by rw [transfers_append, protoRun_append _ _ _ _ h1, h2]⟩

theorem Accepted_flatMap {α : Type} (f : α → List Event) (l : List α)
    (h : ∀ a ∈ l, Accepted (f a)) : Accepted (l.flatMap f) := by
  induction l with
  | nil => exact Accepted_nil
  | cons a l ih =>
    rw [List.flatMap_cons]
    exact Accepted_append (h a (List.mem_cons_self a l))
      (ih (fun b hb => h b (List.mem_cons_of_mem a hb)))

theorem command_CASET : Proto.command CASET = some (Proto.params 4) := rfl

theorem command_RASET : Proto.command RASET = some (Proto.params 4) := rfl

theorem command_RAMWR : Proto.command RAMWR = some Proto.stream := rfl

theorem command_MADCTL : Proto.command 0x36 = some (Proto.params 1) := rfl

/-- The window transfers, the RAM-write command and a stream that follows
them. -/
theorem Accepted_window_stream (dev : LcdDev) (hcfg : dev.Configured)
    (sx sy width height : Nat) (rest : List Event)
    (hrest : protoRun Proto.stream (transfers true rest) = some Proto.stream) :
    Accepted (LCD_SetWindows dev sx sy width height ++ LCD_WriteRAM_Prepare dev ++
      [Event.dc true] ++ rest) := by
  obtain ⟨h1, h2, h3⟩ := hcfg
  intro l p hp
  refine ⟨Proto.stream, trivial, ?_⟩
  simp only [List.append_assoc, transfers_SetWindows, LCD_WriteRAM_Prepare, transfers_WR_REG,
    List.cons_append, List.nil_append, transfers, h1, h2, h3]
  cases p with
  | params n => exact absurd hp id
  | ready =>
    simp only [protoRun, Proto.step, command_CASET, command_RASET, command_RAMWR,
      List.length_cons, List.length_nil]
    exact hrest
  | stream =>
    simp only [protoRun, Proto.step, command_CASET, command_RASET, command_RAMWR,
      List.length_cons, List.length_nil]
    exact hrest

theorem stream_sendBatches (buf : List Nat) (total batch_size : Nat) : ∀ (fuel i : Nat),
    protoRun Proto.stream (transfers true (sendBatches buf total batch_size fuel i)) =
      some Proto.stream := by
  intro fuel
  induction fuel with
  | zero => intro i; rfl
  | succ fuel ih =>
    intro i
    unfold sendBatches
    split
    · simp only [transfers, protoRun, Proto.step]
      exact ih _
    · rfl

theorem stream_imageBatches (p : List Nat) (total batch_size : Nat) : ∀ (fuel i : Nat),
    protoRun Proto.stream (transfers true (imageBatches p total batch_size fuel i)) =
      some Proto.stream := by
  intro fuel
  induction fuel with
  | zero => intro i; rfl
  | succ fuel ih =>
    intro i
    unfold imageBatches
    split
    · simp only [transfers, protoRun, Proto.step]
      exact ih _
    · rfl

theorem stream_colorBatches (p : List Nat) (total batch_size : Nat) : ∀ (fuel i k : Nat),
    protoRun Proto.stream (transfers true (colorBatches p total batch_size fuel i k)) =
      some Proto.stream := by
  intro fuel
  induction fuel with
  | zero => intro i k; rfl
  | succ fuel ih =>
    intro i k
    unfold colorBatches
    split
    · simp only [transfers, protoRun, Proto.step]
      exact ih _ _
    · rfl

theorem stream_flushBatches (p : List Nat) (total batch_size : Nat) : ∀ (fuel i : Nat),
    protoRun Proto.stream (transfers true (flushBatches p total batch_size fuel i)) =
      some Proto.stream := by
  intro fuel
  induction fuel with
  | zero => intro i; rfl
  | succ fuel ih =>
    intro i
    unfold flushBatches
    split
    · simp only [transfers, protoRun, Proto.step]
      exact ih _
    · rfl

theorem stream_streamPixels : ∀ (cs buf : List Nat),
    protoRun Proto.stream (transfers true (streamPixels cs buf)) = some Proto.stream := by
  intro cs
  induction cs with
  | nil =>
    intro buf
    unfold streamPixels
    split <;> rfl
  | cons c cs ih =>
    intro buf
    unfold streamPixels
    simp only
    split
    · simp only [transfers, protoRun, Proto.step]
      exact ih _
    · exact ih _

theorem Accepted_Fill (dev : LcdDev) (hcfg : dev.Configured) (sx sy ex ey color : Nat) :
    Accepted (LCD_Fill dev sx sy ex ey color) := by
  unfold LCD_Fill
  exact Accepted_window_stream dev hcfg _ _ _ _ _ (stream_sendBatches _ _ _ _ _)

theorem Accepted_SetCursor (dev : LcdDev) (hcfg : dev.Configured) (x y : Nat) :
    Accepted (LCD_SetCursor dev x y) := by
  obtain ⟨h1, h2, h3⟩ := hcfg
  intro l p hp
  refine ⟨Proto.ready, trivial, ?_⟩
  simp only [LCD_SetCursor, List.append_assoc, transfers_WR_REG, List.cons_append,
    List.nil_append, transfers, h2, h3]
  cases p with
  | params n => exact absurd hp id
  | ready => rfl
  | stream => rfl

theorem Accepted_DrawPoint (dev : LcdDev) (hcfg : dev.Configured) (x y color : Nat) :
    Accepted (LCD_DrawPoint dev x y color) := by
  obtain ⟨h1, h2, h3⟩ := hcfg
  intro l p hp
  refine ⟨Proto.stream, trivial, ?_⟩
  simp only [LCD_DrawPoint, LCD_SetCursor, LCD_WriteRAM_Prepare, LCD_WriteRAM,
    LCD_WR_DATA_16BIT, List.append_assoc, transfers_WR_REG, List.cons_append,
    List.nil_append, transfers, h1, h2, h3]
  cases p with
  | params n => exact absurd hp id
  | ready => rfl
  | stream => rfl

theorem Accepted_emitAll (dev : LcdDev) (hcfg : dev.Configured) (ops : List Op) :
    Accepted (emitAll dev ops) := by
  unfold emitAll
  apply Accepted_flatMap
  intro op _
  cases op with
  | fill sx sy ex ey color => exact Accepted_Fill dev hcfg sx sy ex ey color
  | point x y color => exact Accepted_DrawPoint dev hcfg x y color

theorem Accepted_ShowChar (dev : LcdDev) (hcfg : dev.Configured) (font : Font)
    (x y chr size mode color bg_color : Nat) :
    Accepted (LCD_ShowChar dev font x y chr size mode color bg_color) := by
  unfold LCD_ShowChar
  simp only
  split
  · exact Accepted_nil
  · split
    · exact Accepted_nil
    · split
      · exact Accepted_nil
      · split
        · exact Accepted_window_stream dev hcfg _ _ _ _ _ (stream_streamPixels _ _)
        · exact Accepted_emitAll _ hcfg _

theorem Accepted_Scan_Dir (dev : LcdDev) (hcfg : dev.Configured) (dir : Nat) :
    Accepted (LCD_Scan_Dir dev dir) := by
  obtain ⟨h1, h2, h3⟩ := hcfg
  intro l p hp
  refine ⟨Proto.ready, trivial, ?_⟩
  simp only [LCD_Scan_Dir, LCD_WriteReg, LCD_WR_DATA, List.append_assoc, transfers_WR_REG,
    List.cons_append, List.nil_append, transfers, h2, h3]
  cases p with
  | params n => exact absurd hp id
  | ready => rfl
  | stream => rfl

theorem Accepted_calls (dev : LcdDev) (hcfg : dev.Configured) (o : Option (List Op)) :
    ∀ tr ∈ o.map (emitAll dev), Accepted tr := by
  intro tr h
  cases o with
  | none => simp at h
  | some ops =>
    simp only [Option.map_some', Option.mem_def, Option.some.injEq] at h
    subst h
    exact Accepted_emitAll dev hcfg ops

theorem Accepted_chars (dev : LcdDev) (hcfg : dev.Configured) (font : Font)
    (cs : List CharCall) : Accepted (cs.flatMap (CharCall.emit dev font)) :=
  Accepted_flatMap _ _ (fun _ _ => Accepted_ShowChar dev hcfg font _ _ _ _ _ _ _)

theorem Accepted_char_calls (dev : LcdDev) (hcfg : dev.Configured) (font : Font)
    (o : Option (List CharCall)) :
    ∀ tr ∈ o.map (fun cs => cs.flatMap (CharCall.emit dev font)), Accepted tr := by
  intro tr h
  cases o with
  | none => simp at h
  | some cs =>
    simp only [Option.map_some', Option.mem_def, Option.some.injEq] at h
    subst h
    exact Accepted_chars dev hcfg font cs

/-- Every public drawing, text and orientation routine follows the
protocol on a surface that holds the command codes. -/
theorem Accepted_all (dev : LcdDev) (font : Font) (LCD_W LCD_H : Nat) (hcfg : dev.Configured) :
    ((∀ Color, Accepted (LCD_Clear dev Color)) ∧
     (∀ x y, Accepted (LCD_SetCursor dev x y)) ∧
     (∀ x y color, Accepted (LCD_DrawPoint dev x y color)) ∧
     (∀ pts color, Accepted (LCD_DrawPoints dev pts color)) ∧
     (∀ sx sy ex ey color, Accepted (LCD_Fill dev sx sy ex ey color)) ∧
     (∀ x1 y1 x2 y2 color, ∀ tr ∈ LCD_DrawLine dev x1 y1 x2 y2 color, Accepted tr) ∧
     (∀ x1 y1 x2 y2 color, ∀ tr ∈ LCD_DrawRectangle dev x1 y1 x2 y2 color, Accepted tr) ∧
     (∀ x0 y0 r color, Accepted (Draw_Circle dev x0 y0 r color)) ∧
     (∀ x y width height p, Accepted (LCD_ShowImage dev x y width height p)) ∧
     (∀ sx sy ex ey color, Accepted (LCD_Color_Fill dev sx sy ex ey color)) ∧
     (∀ x1 y1 x2 y2 pData, Accepted (LCD_DispFlush dev x1 y1 x2 y2 pData))) ∧
    ((∀ x y chr size mode color bg_color,
        Accepted (LCD_ShowChar dev font x y chr size mode color bg_color)) ∧
     (∀ x y width height size p color bg_color,
        Accepted (LCD_ShowString dev font x y width height size p color bg_color)) ∧
     (∀ x y num len size color bg_color,
        ∀ tr ∈ LCD_ShowNum dev font x y num len size color bg_color, Accepted tr) ∧
     (∀ x y num len size mode color bg_color,
        ∀ tr ∈ LCD_ShowxNum dev font x y num len size mode color bg_color, Accepted tr)) ∧
    ((∀ dir, Accepted (LCD_Scan_Dir dev dir)) ∧
     Accepted (LCD_SetPortrait LCD_W LCD_H dev).2 ∧
     Accepted (LCD_SetLandscape LCD_W LCD_H dev).2) := by
  refine ⟨⟨?_, ?_, ?_, ?_, ?_, ?_, ?_, ?_, ?_, ?_, ?_⟩, ⟨?_, ?_, ?_, ?_⟩, ⟨?_, ?_, ?_⟩⟩
  · intro Color
    unfold LCD_Clear
    exact Accepted_window_stream dev hcfg _ _ _ _ _ (stream_sendBatches _ _ _ _ _)
  · exact Accepted_SetCursor dev hcfg
  · exact Accepted_DrawPoint dev hcfg
  · intro pts color
    exact Accepted_emitAll dev hcfg _
  · exact Accepted_Fill dev hcfg
  · intro x1 y1 x2 y2 color
    exact Accepted_calls dev hcfg _
  · intro x1 y1 x2 y2 color
    exact Accepted_calls dev hcfg _
  · intro x0 y0 r color
    exact Accepted_emitAll dev hcfg _
  · intro x y width height p
    unfold LCD_ShowImage
    exact Accepted_window_stream dev hcfg _ _ _ _ _ (stream_imageBatches _ _ _ _ _)
  · intro sx sy ex ey color
    unfold LCD_Color_Fill
    exact Accepted_window_stream dev hcfg _ _ _ _ _ (stream_colorBatches _ _ _ _ _ _)
  · intro x1 y1 x2 y2 pData
    unfold LCD_DispFlush
    exact Accepted_window_stream dev hcfg _ _ _ _ _ (stream_flushBatches _ _ _ _ _)
  · exact Accepted_ShowChar dev hcfg font
  · intro x y width height size p color bg_color
    exact Accepted_chars dev hcfg font _
  · intro x y num len size color bg_color
    exact Accepted_char_calls dev hcfg font _
  · intro x y num len size mode color bg_color
    exact Accepted_char_calls dev hcfg font _
  · exact Accepted_Scan_Dir dev hcfg
  · exact Accepted_Scan_Dir dev hcfg _
  · exact Accepted_Scan_Dir dev hcfg _

theorem Accepted_Display_Dir (LCD_W LCD_H : Nat) (dev : LcdDev) (dir : Nat) :
    Accepted (LCD_Display_Dir LCD_W LCD_H dev dir).2 := by
  unfold LCD_Display_Dir
  split <;> exact Accepted_Scan_Dir _ ⟨rfl, rfl, rfl⟩ _

/-- What the protocol demands of the select line: in a run it accepts,
every transfer made with the line low is one byte and that byte is one of
the four command codes. -/
theorem protoRun_commands : ∀ (ms : List Msg) (p q : Proto), protoRun p ms = some q →
    ∀ bs, Msg.command bs ∈ ms →
      ∃ c, bs = [c] ∧ (c = CASET ∨ c = RASET ∨ c = RAMWR ∨ c = MADCTL) := by
  have hcode : ∀ c r, Proto.command c = some r →
      c = CASET ∨ c = RASET ∨ c = RAMWR ∨ c = MADCTL := by
    intro c r h
    unfold Proto.command at h
    by_cases h1 : c = CASET
    · exact Or.inl h1
    · by_cases h2 : c = RASET
      · exact Or.inr (Or.inl h2)
      · by_cases h3 : c = RAMWR
        · exact Or.inr (Or.inr (Or.inl h3))
        · by_cases h4 : c = MADCTL
          · exact Or.inr (Or.inr (Or.inr h4))
          · simp [h1, h2, h3, h4] at h
  have hstep : ∀ (p r : Proto) (bs : List Nat), p.step (Msg.command bs) = some r →
      ∃ c, bs = [c] ∧ (c = CASET ∨ c = RASET ∨ c = RAMWR ∨ c = MADCTL) := by
    intro p r bs h
    cases p with
    | params n => simp [Proto.step] at h
    | ready =>
      match bs, h with
      | [c], h => exact ⟨c, rfl, hcode c r h⟩
      | [], h => simp [Proto.step] at h
      | _ :: _ :: _, h => simp [Proto.step] at h
    | stream =>
      match bs, h with
      | [c], h => exact ⟨c, rfl, hcode c r h⟩
      | [], h => simp [Proto.step] at h
      | _ :: _ :: _, h => simp [Proto.step] at h
  intro ms
  induction ms with
  | nil => intro p q _ bs hm; simp at hm
  | cons m ms ih =>
    intro p q h bs hm
    unfold protoRun at h
    cases hs : p.step m with
    | none => rw [hs] at h; simp at h
    | some r =>
      rw [hs] at h
      rcases List.mem_cons.1 hm with hm | hm
      · subst hm
        exact hstep p r bs hs
      · exact ih r q h bs hm

/-- The protocol rejects a command code sent with the select line high: the
column command and its four bytes, all sent high, are not accepted. -/
theorem Accepted_rejects_command_sent_high :
    ¬ Accepted [Event.dc true, Event.spi [CASET], Event.dc true, Event.spi [0, 0, 0, 239]] := by
  intro h
  obtain ⟨q, _, hq⟩ := h true Proto.ready trivial
  simp [transfers, protoRun, Proto.step] at hq

/-- The protocol rejects parameter bytes sent with the select line low: the
column command followed by its four bytes, all sent low, is not accepted. -/
theorem Accepted_rejects_data_sent_low :
    ¬ Accepted [Event.dc false, Event.spi [CASET], Event.dc false, Event.spi [0, 0, 0, 239]] := by
  intro h
  obtain ⟨q, _, hq⟩ := h true Proto.ready trivial
  simp [transfers, protoRun, Proto.step, Proto.command] at hq

/-- The protocol rejects a pixel sent with the select line low after the
RAM-write command. -/
theorem Accepted_rejects_pixel_sent_low :
    ¬ Accepted [Event.dc false, Event.spi [RAMWR], Event.dc false, Event.spi [0xF8, 0x00]] := by
  intro h
  obtain ⟨q, _, hq⟩ := h true Proto.ready trivial
  simp [transfers, protoRun, Proto.step, Proto.command, RAMWR, CASET, RASET] at hq

/-- C25: with the select line as state and every SPI send tagged by the
level the line has when it is made, each public drawing, text and
orientation operation, for all arguments and whenever it returns:
(1) keeps the discipline of the line: the line is pulled low only to send
one byte and is raised right after it; every other send, every chunk of a
chunked fill or stream included, is made with the line high; nothing is sent
on a line the operation found low; hence the line is high when the operation
returns, always when it was high at the call, as every operation leaves it,
and also from a low line unless the operation sends nothing at all, in which
case it does not touch the line;
(2) sends the bytes that the protocol makes commands, and only those, with
the line low: on a surface that holds the command codes the tagged transfers
are accepted by the protocol, in which the column-range command `0x2A` and
the row-range command `0x2B` are each followed by four parameter bytes, the
RAM-write command `0x2C` by pixel data and the register `0x36` by one value
byte; every such command byte arrives tagged as a command, every parameter
and pixel byte tagged as data.  A command byte sent with the line high, or a
data byte sent with the line low, is rejected by `Proto.step`
(`Accepted_rejects_command_sent_high`, `Accepted_rejects_data_sent_low`,
`Accepted_rejects_pixel_sent_low`), and whatever an accepted run sends with
the line low is one of the four command codes (`protoRun_commands`). -/
theorem select_line_discipline (dev : LcdDev) (font : Font) (LCD_W LCD_H : Nat) :
    ((∀ Color, Disciplined (LCD_Clear dev Color)) ∧
     (∀ x y, Disciplined (LCD_SetCursor dev x y)) ∧
     (∀ x y color, Disciplined (LCD_DrawPoint dev x y color)) ∧
     (∀ pts color, Disciplined (LCD_DrawPoints dev pts color)) ∧
     (∀ sx sy ex ey color, Disciplined (LCD_Fill dev sx sy ex ey color)) ∧
     (∀ x1 y1 x2 y2 color, ∀ tr ∈ LCD_DrawLine dev x1 y1 x2 y2 color, Disciplined tr) ∧
     (∀ x1 y1 x2 y2 color, ∀ tr ∈ LCD_DrawRectangle dev x1 y1 x2 y2 color, Disciplined tr) ∧
     (∀ x0 y0 r color, Disciplined (Draw_Circle dev x0 y0 r color)) ∧
     (∀ x y width height p, Disciplined (LCD_ShowImage dev x y width height p)) ∧
     (∀ sx sy ex ey color, Disciplined (LCD_Color_Fill dev sx sy ex ey color)) ∧
     (∀ x1 y1 x2 y2 pData, Disciplined (LCD_DispFlush dev x1 y1 x2 y2 pData))) ∧
    ((∀ x y chr size mode color bg_color,
        Disciplined (LCD_ShowChar dev font x y chr size mode color bg_color)) ∧
     (∀ x y width height size p color bg_color,
        Disciplined (LCD_ShowString dev font x y width height size p color bg_color)) ∧
     (∀ x y num len size color bg_color,
        ∀ tr ∈ LCD_ShowNum dev font x y num len size color bg_color, Disciplined tr) ∧
     (∀ x y num len size mode color bg_color,
        ∀ tr ∈ LCD_ShowxNum dev font x y num len size mode color bg_color, Disciplined tr)) ∧
    ((∀ dir, Disciplined (LCD_Scan_Dir dev dir)) ∧
     (∀ dir, Disciplined (LCD_Display_Dir LCD_W LCD_H dev dir).2) ∧
     Disciplined (LCD_SetPortrait LCD_W LCD_H dev).2 ∧
     Disciplined (LCD_SetLandscape LCD_W LCD_H dev).2) ∧
    (∀ tr, Disciplined tr →
      lineAfter true tr = true ∧ (∀ bs, Msg.command bs ∈ transfers true tr → bs.length = 1) ∧
      (tr ≠ [] → lineAfter false tr = true ∧
        ∀ bs, Msg.command bs ∈ transfers false tr → bs.length = 1)) ∧
    (dev.Configured →
      ((∀ Color, Accepted (LCD_Clear dev Color)) ∧
       (∀ x y, Accepted (LCD_SetCursor dev x y)) ∧
       (∀ x y color, Accepted (LCD_DrawPoint dev x y color)) ∧
       (∀ pts color, Accepted (LCD_DrawPoints dev pts color)) ∧
       (∀ sx sy ex ey color, Accepted (LCD_Fill dev sx sy ex ey color)) ∧
       (∀ x1 y1 x2 y2 color, ∀ tr ∈ LCD_DrawLine dev x1 y1 x2 y2 color, Accepted tr) ∧
       (∀ x1 y1 x2 y2 color, ∀ tr ∈ LCD_DrawRectangle dev x1 y1 x2 y2 color, Accepted tr) ∧
       (∀ x0 y0 r color, Accepted (Draw_Circle dev x0 y0 r color)) ∧
       (∀ x y width height p, Accepted (LCD_ShowImage dev x y width height p)) ∧
       (∀ sx sy ex ey color, Accepted (LCD_Color_Fill dev sx sy ex ey color)) ∧
       (∀ x1 y1 x2 y2 pData, Accepted (LCD_DispFlush dev x1 y1 x2 y2 pData))) ∧
      ((∀ x y chr size mode color bg_color,
          Accepted (LCD_ShowChar dev font x y chr size mode color bg_color)) ∧
       (∀ x y width height size p color bg_color,
          Accepted (LCD_ShowString dev font x y width height size p color bg_color)) ∧
       (∀ x y num len size color bg_color,
          ∀ tr ∈ LCD_ShowNum dev font x y num len size color bg_color, Accepted tr) ∧
       (∀ x y num len size mode color bg_color,
          ∀ tr ∈ LCD_ShowxNum dev font x y num len size mode color bg_color, Accepted tr)) ∧
      ((∀ dir, Accepted (LCD_Scan_Dir dev dir)) ∧
       Accepted (LCD_SetPortrait LCD_W LCD_H dev).2 ∧
       Accepted (LCD_SetLandscape LCD_W LCD_H dev).2)) ∧
    (∀ dir, Accepted (LCD_Display_Dir LCD_W LCD_H dev dir).2) := by
  refine ⟨⟨?_, ?_, ?_, ?_, ?_, ?_, ?_, ?_, ?_, ?_, ?_⟩, ⟨?_, ?_, ?_, ?_⟩, ⟨?_, ?_, ?_, ?_⟩, ?_,
    Accepted_all dev font LCD_W LCD_H, Accepted_Display_Dir LCD_W LCD_H dev⟩
  · intro Color
    unfold LCD_Clear
    exact Disciplined_append_high (Disciplined_window_prepare dev _ _ _ _).1
      (Disciplined_window_prepare dev _ _ _ _).2 (high_sendBatches _ _ _ _ _)
  · exact Disciplined_SetCursor dev
  · exact Disciplined_DrawPoint dev
  · intro pts color
    exact Disciplined_emitAll dev _
  · exact Disciplined_Fill dev
  · intro x1 y1 x2 y2 color
    exact Disciplined_calls dev _
  · intro x1 y1 x2 y2 color
    exact Disciplined_calls dev _
  · intro x0 y0 r color
    exact Disciplined_emitAll dev _
  · intro x y width height p
    unfold LCD_ShowImage
    exact Disciplined_append_high (Disciplined_window_prepare dev _ _ _ _).1
      (Disciplined_window_prepare dev _ _ _ _).2 (high_imageBatches _ _ _ _ _)
  · intro sx sy ex ey color
    unfold LCD_Color_Fill
    exact Disciplined_append_high (Disciplined_window_prepare dev _ _ _ _).1
      (Disciplined_window_prepare dev _ _ _ _).2 (high_colorBatches _ _ _ _ _ _)
  · intro x1 y1 x2 y2 pData
    unfold LCD_DispFlush
    exact Disciplined_append_high (Disciplined_window_prepare dev _ _ _ _).1
      (Disciplined_window_prepare dev _ _ _ _).2 (high_flushBatches _ _ _ _ _)
  · exact Disciplined_ShowChar dev font
  · intro x y width height size p color bg_color
    exact Disciplined_chars dev font _
  · intro x y num len size color bg_color
    exact Disciplined_char_calls dev font _
  · intro x y num len size mode color bg_color
    exact Disciplined_char_calls dev font _
  · exact Disciplined_Scan_Dir dev
  · intro dir
    unfold LCD_Display_Dir
    split <;> exact Disciplined_Scan_Dir _ _
  · exact Disciplined_Scan_Dir dev _
  · exact Disciplined_Scan_Dir dev _
  · intro tr h
    have h1 := selectRun_sound tr _ _ h.1
    refine ⟨h1.1, h1.2, ?_⟩
    intro hne
    exact selectRun_sound tr _ _ (h.2 hne)

/-- The trace of `LCD_DrawPoint(300, 10, 0xF800)`: three commands, each a
single byte sent low, the line high at the end, also from a low line, and
the transfers accepted by the protocol. -/
theorem select_line_discipline_witness :
    (⟨240, 320, 0, 0x2C, 0x2A, 0x2B⟩ : LcdDev).Configured ∧
    Disciplined (LCD_DrawPoint ⟨240, 320, 0, 0x2C, 0x2A, 0x2B⟩ 300 10 0xF800) ∧
    lineAfter false (LCD_DrawPoint ⟨240, 320, 0, 0x2C, 0x2A, 0x2B⟩ 300 10 0xF800) = true ∧
    Accepted (LCD_DrawPoint ⟨240, 320, 0, 0x2C, 0x2A, 0x2B⟩ 300 10 0xF800) :=
  ⟨by decide,
   (select_line_discipline ⟨240, 320, 0, 0x2C, 0x2A, 0x2B⟩ sampleFont 240 320).1.2.2.1 300 10
      0xF800,
   (((select_line_discipline ⟨240, 320, 0, 0x2C, 0x2A, 0x2B⟩ sampleFont 240 320).2.2.2.1 _
      ((select_line_discipline ⟨240, 320, 0, 0x2C, 0x2A, 0x2B⟩ sampleFont 240 320).1.2.2.1 300 10
        0xF800)).2.2 (by decide)).1,
   ((select_line_discipline ⟨240, 320, 0, 0x2C, 0x2A, 0x2B⟩ sampleFont 240 320).2.2.2.2.1
      (by decide)).1.2.2.1 300 10 0xF800⟩

/-! ## `LCD_ShowChar`: the opaque stream -/

theorem shiftByte_bit : ∀ temp < 256, ∀ k < 8,
    (shiftByte temp k &&& 0x80 ≠ 0 ↔ temp &&& (0x80 >>> k) ≠ 0) := by
  decide!

/-- The inner compose loop in opaque mode, for a cell column that lies
inside the surface: it sets the rows from `r` on, at most `n` of them and
not beyond the bottom of the cell, from the leading bits of `temp`. -/
theorem composeByte_opaque (dev : LcdDev) (size color bg x0 y0 : Nat)
    (hH : dev.height < 65536) (hW : dev.width < 65536) (hy : y0 + size < dev.height) :
    ∀ (n temp c r : Nat) (conv : Nat → Nat → Nat), r < size → x0 + c + 1 < dev.width →
      composeByte dev size 0 color bg x0 y0 n temp (x0 + c) (y0 + r) conv =
        some (if r + n ≥ size then x0 + c + 1 else x0 + c,
              if r + n ≥ size then y0 else y0 + r + n,
              fun c1 r1 =>
                if c1 = c ∧ r ≤ r1 ∧ r1 < r + n ∧ r1 < size then
                  (if shiftByte temp (r1 - r) &&& 0x80 ≠ 0 then color else bg)
                else conv c1 r1) := by
  intro n
  induction n with
  | zero =>
    intro temp c r conv hr hx
    unfold composeByte
    have g1 : ¬ (r + 0 ≥ size) := by omega
    rw [if_neg g1, if_neg g1]
    congr 3
    funext c1 r1
    have g2 : ¬ (c1 = c ∧ r ≤ r1 ∧ r1 < r + 0 ∧ r1 < size) := by omega
    rw [if_neg g2]
  | succ n ih =>
    intro temp c r conv hr hx
    unfold composeByte
    have e1 : x0 + c - x0 = c := by omega
    have e2 : y0 + r - y0 = r := by omega
    have e3 : (y0 + r + 1) % 65536 = y0 + r + 1 := by omega
    have e4 : (x0 + c + 1) % 65536 = x0 + c + 1 := by omega
    have hnh : ¬ (y0 + r + 1 ≥ dev.height) := by omega
    have hnw : ¬ (x0 + c + 1 ≥ dev.width) := by omega
    simp only [e1, e2, e3, e4, if_true, hnh, hnw, if_false]
    clear e1 e2 e3 e4
    by_cases hb : r + 1 = size
    · have hi : ((y0 + r + 1 : Nat) : Int) - y0 = size := by omega
      have g1 : r + (n + 1) ≥ size := by omega
      rw [if_pos hi, if_pos g1, if_pos g1]
      congr 3
      funext c1 r1
      by_cases hcell : c1 = c ∧ r1 = r
      · obtain ⟨rfl, rfl⟩ := hcell
        have g2 : c1 = c1 ∧ r1 ≤ r1 ∧ r1 < r1 + (n + 1) ∧ r1 < size := by omega
        rw [if_pos g2]
        simp only [Nat.sub_self, shiftByte]
        split <;> simp [setCell]
      · have g2 : ¬ (c1 = c ∧ r ≤ r1 ∧ r1 < r + (n + 1) ∧ r1 < size) := by omega
        rw [if_neg g2]
        split <;> simp [setCell, hcell]
    · have hi : ¬ (((y0 + r + 1 : Nat) : Int) - y0 = size) := by omega
      rw [if_neg hi]
      have := ih ((temp <<< 1) % 256) c (r + 1)
        (if temp &&& 0x80 ≠ 0 then setCell conv c r color else setCell conv c r bg)
        (by omega) hx
      rw [show y0 + (r + 1) = y0 + r + 1 by omega] at this
      rw [this]
      have hcond : (r + 1 + n ≥ size) = (r + (n + 1) ≥ size) := by
        apply propext; omega
      simp only [hcond]
      congr 2
      · congr 1
        · split <;> omega
        · funext c1 r1
          by_cases hcell : c1 = c ∧ r1 = r
          · obtain ⟨rfl, rfl⟩ := hcell
            have g2 : c1 = c1 ∧ r1 ≤ r1 ∧ r1 < r1 + (n + 1) ∧ r1 < size := by omega
            have g3 : ¬ (c1 = c1 ∧ r1 + 1 ≤ r1 ∧ r1 < r1 + 1 + n ∧ r1 < size) := by omega
            rw [if_neg g3, if_pos g2]
            simp only [Nat.sub_self, shiftByte]
            split <;> simp [setCell]
          · by_cases hin : c1 = c ∧ r + 1 ≤ r1 ∧ r1 < r + 1 + n ∧ r1 < size
            · have g2 : c1 = c ∧ r ≤ r1 ∧ r1 < r + (n + 1) ∧ r1 < size := by omega
              rw [if_pos hin, if_pos g2]
              have : r1 - r = (r1 - (r + 1)) + 1 := by omega
              rw [this]
              rfl
            · have g2 : ¬ (c1 = c ∧ r ≤ r1 ∧ r1 < r + (n + 1) ∧ r1 < size) := by omega
              rw [if_neg hin, if_neg g2]
              split <;> simp [setCell, hcell]

/-- The colour that the compose loop stores for row `r1` of a column whose
two glyph bytes are `b1` (rows 0..7) and `b2` (rows 8..). -/
theorem composeGlyph_column (dev : LcdDev) (size color bg x0 y0 : Nat)
    (hH : dev.height < 65536) (hW : dev.width < 65536) (hy : y0 + size < dev.height)
    (hs1 : 8 < size) (hs2 : size ≤ 16) (b1 b2 : Nat) (rest : List Nat) (c : Nat)
    (conv : Nat → Nat → Nat) (hx : x0 + c + 1 < dev.width) :
    composeGlyph dev size 0 color bg x0 y0 (b1 :: b2 :: rest) (x0 + c) y0 conv =
      composeGlyph dev size 0 color bg x0 y0 rest (x0 + c + 1) y0
        (fun c1 r1 =>
          if c1 = c ∧ r1 < size then
            (if shiftByte (if r1 < 8 then b1 else b2) (r1 % 8) &&& 0x80 ≠ 0 then color else bg)
          else conv c1 r1) := by
  have h1 := composeByte_opaque dev size color bg x0 y0 hH hW hy 8 b1 c 0 conv (by omega) hx
  have g1 : ¬ (0 + 8 ≥ size) := by omega
  rw [if_neg g1, if_neg g1, Nat.add_zero] at h1
  have h2 := composeByte_opaque dev size color bg x0 y0 hH hW hy 8 b2 c 8
    (fun c1 r1 =>
      if c1 = c ∧ 0 ≤ r1 ∧ r1 < 0 + 8 ∧ r1 < size then
        (if shiftByte b1 (r1 - 0) &&& 0x80 ≠ 0 then color else bg)
      else conv c1 r1) (by omega) hx
  have g2 : 8 + 8 ≥ size := by omega
  rw [if_pos g2, if_pos g2] at h2
  rw [composeGlyph, h1]
  simp only [Nat.add_zero]
  rw [composeGlyph, h2]
  simp only
  congr 1
  funext c1 r1
  by_cases hc : c1 = c
  · subst hc
    by_cases hr : r1 < size
    · by_cases h8 : r1 < 8
      · have q1 : ¬ (c1 = c1 ∧ 8 ≤ r1 ∧ r1 < 8 + 8 ∧ r1 < size) := by omega
        have q2 : c1 = c1 ∧ 0 ≤ r1 ∧ r1 < 0 + 8 ∧ r1 < size := by omega
        have q3 : c1 = c1 ∧ r1 < size := by omega
        rw [if_neg q1, if_pos q2, if_pos q3, if_pos h8, Nat.sub_zero, Nat.mod_eq_of_lt h8]
      · have q1 : c1 = c1 ∧ 8 ≤ r1 ∧ r1 < 8 + 8 ∧ r1 < size := by omega
        have q3 : c1 = c1 ∧ r1 < size := by omega
        have q4 : r1 % 8 = r1 - 8 := by omega
        rw [if_pos q1, if_pos q3, if_neg h8, q4]
    · have q1 : ¬ (c1 = c1 ∧ 8 ≤ r1 ∧ r1 < 8 + 8 ∧ r1 < size) := by omega
      have q2 : ¬ (c1 = c1 ∧ 0 ≤ r1 ∧ r1 < 0 + 8 ∧ r1 < size) := by omega
      have q3 : ¬ (c1 = c1 ∧ r1 < size) := by omega
      rw [if_neg q1, if_neg q2, if_neg q3]
  · have q1 : ¬ (c1 = c ∧ 8 ≤ r1 ∧ r1 < 8 + 8 ∧ r1 < size) := by tauto
    have q2 : ¬ (c1 = c ∧ 0 ≤ r1 ∧ r1 < 0 + 8 ∧ r1 < size) := by tauto
    have q3 : ¬ (c1 = c ∧ r1 < size) := by tauto
    rw [if_neg q1, if_neg q2, if_neg q3]

/-- The compose loop in opaque mode over the glyph bytes of the columns
`c, ..., c + k - 1` of a cell inside the surface. -/
theorem composeGlyph_columns (dev : LcdDev) (size color bg x0 y0 : Nat)
    (hH : dev.height < 65536) (hW : dev.width < 65536) (hy : y0 + size < dev.height)
    (hs1 : 8 < size) (hs2 : size ≤ 16) (g : Nat → Nat) :
    ∀ (k c : Nat) (conv : Nat → Nat → Nat), x0 + c + k < dev.width →
      composeGlyph dev size 0 color bg x0 y0
          ((List.range (2 * k)).map (fun t => g (2 * c + t))) (x0 + c) y0 conv =
        some (x0 + c + k, y0, fun c1 r1 =>
          if c ≤ c1 ∧ c1 < c + k ∧ r1 < size then
            (if shiftByte (g (2 * c1 + r1 / 8)) (r1 % 8) &&& 0x80 ≠ 0 then color else bg)
          else conv c1 r1) := by
  intro k
  induction k with
  | zero =>
    intro c conv _
    simp only [Nat.mul_zero, List.range_zero, List.map_nil, composeGlyph, Nat.add_zero]
    congr 3
    funext c1 r1
    have q : ¬ (c ≤ c1 ∧ c1 < c ∧ r1 < size) := by omega
    rw [if_neg q]
  | succ k ih =>
    intro c conv hx
    have hl : (List.range (2 * (k + 1))).map (fun t => g (2 * c + t)) =
        g (2 * c) :: g (2 * c + 1) ::
          (List.range (2 * k)).map (fun t => g (2 * (c + 1) + t)) := by
      have : 2 * (k + 1) = (2 * k + 1) + 1 := by omega
      rw [this, List.range_succ_eq_map, List.range_succ_eq_map]
      simp only [List.map_cons, List.map_map]
      refine congrArg (List.cons _) (congrArg (List.cons _) ?_)
      apply List.map_congr_left
      intro t _
      show g (2 * c + (t + 1 + 1)) = g (2 * (c + 1) + t)
      congr 1
      omega
    rw [hl, composeGlyph_column dev size color bg x0 y0 hH hW hy hs1 hs2 _ _ _ c conv (by omega),
      show x0 + c + 1 = x0 + (c + 1) by omega, ih (c + 1) _ (by omega)]
    congr 2
    · omega
    · congr 1
      funext c1 r1
      by_cases hr : r1 < size
      · by_cases h1 : c1 = c
        · subst h1
          have q1 : ¬ (c1 + 1 ≤ c1 ∧ c1 < c1 + 1 + k ∧ r1 < size) := by omega
          have q2 : c1 = c1 ∧ r1 < size := by omega
          have q3 : c1 ≤ c1 ∧ c1 < c1 + (k + 1) ∧ r1 < size := by omega
          rw [if_neg q1, if_pos q2, if_pos q3]
          by_cases h8 : r1 < 8
          · have : r1 / 8 = 0 := by omega
            rw [if_pos h8, this]
            rfl
          · have : r1 / 8 = 1 := by omega
            rw [if_neg h8, this]
        · by_cases h2 : c + 1 ≤ c1 ∧ c1 < c + 1 + k
          · have q1 : c + 1 ≤ c1 ∧ c1 < c + 1 + k ∧ r1 < size := by omega
            have q3 : c ≤ c1 ∧ c1 < c + (k + 1) ∧ r1 < size := by omega
            rw [if_pos q1, if_pos q3]
          · have q1 : ¬ (c + 1 ≤ c1 ∧ c1 < c + 1 + k ∧ r1 < size) := by omega
            have q2 : ¬ (c1 = c ∧ r1 < size) := by omega
            have q3 : ¬ (c ≤ c1 ∧ c1 < c + (k + 1) ∧ r1 < size) := by omega
            rw [if_neg q1, if_neg q2, if_neg q3]
      · have q1 : ¬ (c + 1 ≤ c1 ∧ c1 < c + 1 + k ∧ r1 < size) := by omega
        have q2 : ¬ (c1 = c ∧ r1 < size) := by omega
        have q3 : ¬ (c ≤ c1 ∧ c1 < c + (k + 1) ∧ r1 < size) := by omega
        rw [if_neg q1, if_neg q2, if_neg q3]

theorem streamPixels_small : ∀ (cs buf : List Nat), buf.length + 2 * cs.length < 20480 →
    streamPixels cs buf =
      if 0 < buf.length + 2 * cs.length then
        [Event.spi (buf ++ cs.flatMap (fun c => [hiByte c, loByte c]))]
      else [] := by
  intro cs
  induction cs with
  | nil =>
    intro buf _
    simp [streamPixels]
  | cons c cs ih =>
    intro buf h
    unfold streamPixels
    simp only [List.length_cons] at h
    have hl : (buf ++ [hiByte c, loByte c]).length = buf.length + 2 := by simp
    have hn : ¬ ((buf ++ [hiByte c, loByte c]).length ≥ LCD_BATCH_BUFFER_SIZE) := by
      rw [hl]; unfold LCD_BATCH_BUFFER_SIZE; omega
    simp only [hn, if_false]
    rw [ih _ (by rw [hl]; omega), hl]
    have p1 : 0 < buf.length + 2 + 2 * cs.length := by omega
    have p2 : 0 < buf.length + 2 * (cs.length + 1) := by omega
    rw [if_pos p1, List.length_cons, if_pos p2, List.flatMap_cons, List.append_assoc]

theorem range_row_major {α : Type} (w : Nat) (hw : 0 < w) (f : Nat → Nat → α) : ∀ h : Nat,
    (List.range h).flatMap (fun i => (List.range w).map (fun j => f j i)) =
      (List.range (h * w)).map (fun k => f (k % w) (k / w)) := by
  intro h
  induction h with
  | zero => simp
  | succ h ih =>
    rw [List.range_succ, List.flatMap_append, ih, Nat.succ_mul, List.range_add, List.map_append,
      List.map_map]
    congr 1
    simp only [List.flatMap_cons, List.flatMap_nil, List.append_nil]
    apply List.map_congr_left
    intro j hj
    rw [List.mem_range] at hj
    show f j h = f ((h * w + j) % w) ((h * w + j) / w)
    have e1 : (h * w + j) % w = j := by
      rw [Nat.mul_comm, Nat.mul_add_mod, Nat.mod_eq_of_lt hj]
    have e2 : (h * w + j) / w = h := by
      rw [Nat.mul_comm, Nat.mul_add_div hw, Nat.div_eq_of_lt hj, Nat.add_zero]
    rw [e1, e2]

/-- C27: for a font size of 12 or 16, a printable character and a cell
strictly inside the surface (`x + size/2 < lcddev.width`,
`y + size < lcddev.height`), `LCD_ShowChar` in opaque mode programs the
window of the cell, sends the RAM-write command and then one data transfer
holding the cell in row-major order: the pixel with stream index `k` is the
one in column `k mod (size/2)`, row `k div (size/2)`, so that column `j`, row
`i` has index `i * (size/2) + j`; it is the foreground colour when bit
`0x80 >> (i mod 8)` of glyph byte `2 * j + i div 8` is set and the
background colour otherwise, sent high byte first. -/
theorem LCD_ShowChar_opaque_stream (dev : LcdDev) (font : Font)
    (x y chr size color bg_color : Nat) (hsize : size = 12 ∨ size = 16)
    (hchr : 32 ≤ chr ∧ chr ≤ 126) (hx : x + size / 2 < dev.width) (hy : y + size < dev.height)
    (hW : dev.width < 65536) (hH : dev.height < 65536) (hc : color < 65536)
    (hbg : bg_color < 65536) (l : Bool) :
    transfers l (LCD_ShowChar dev font x y chr size 0 color bg_color) =
      [Msg.command [dev.setxcmd],
       Msg.data [x >>> 8, x &&& 0xFF, (x + size / 2 - 1) >>> 8, (x + size / 2 - 1) &&& 0xFF],
       Msg.command [dev.setycmd],
       Msg.data [y >>> 8, y &&& 0xFF, (y + size - 1) >>> 8, (y + size - 1) &&& 0xFF],
       Msg.command [dev.wramcmd],
       Msg.data ((List.range (size * (size / 2))).flatMap (fun k =>
         [cellColour font size chr color bg_color (k % (size / 2)) (k / (size / 2)) >>> 8,
          cellColour font size chr color bg_color (k % (size / 2)) (k / (size / 2)) &&& 0xFF]))] := by
  have hs1 : 8 < size := by rcases hsize with h | h <;> omega
  have hs2 : size ≤ 16 := by rcases hsize with h | h <;> omega
  have hw0 : 0 < size / 2 := by omega
  have hcs : ((size / 8 + (if size % 8 ≠ 0 then 1 else 0)) * (size / 2)) % 256 = 2 * (size / 2) := by
    rcases hsize with h | h <;> subst h <;> decide
  have hchr1 : (chr + 224) % 256 = chr - 32 := by omega
  have hb1 : ¬ (x + size / 2 > dev.width ∨ y + size > dev.height) := by omega
  -- the table selected by the switch
  have htab : (if size = 12 then some (font.asc2_1206 (chr - 32))
      else if size = 16 then some (font.asc2_1608 (chr - 32)) else none) =
      some (fun t => if size = 12 then font.asc2_1206 (chr - 32) t
        else font.asc2_1608 (chr - 32) t) := by
    rcases hsize with h | h <;> subst h <;> simp
  have hcomp := composeGlyph_columns dev size color bg_color x y hH hW hy hs1 hs2
    (glyphByte font size chr) (size / 2) 0 (fun _ _ => 0) (by omega)
  simp only [Nat.mul_zero, Nat.zero_add, Nat.add_zero] at hcomp
  have hbytes : (List.range (2 * (size / 2))).map
      (fun t => (fun t => if size = 12 then font.asc2_1206 (chr - 32) t
        else font.asc2_1608 (chr - 32) t) t % 256) =
      (List.range (2 * (size / 2))).map (fun t => glyphByte font size chr t) := rfl
  unfold LCD_ShowChar
  simp only [hcs, hchr1, hb1, if_false, htab, hbytes, hcomp, if_true]
  have hcells : cellColours
      (fun c1 r1 =>
        if 0 ≤ c1 ∧ c1 < size / 2 ∧ r1 < size then
          (if shiftByte (glyphByte font size chr (2 * c1 + r1 / 8)) (r1 % 8) &&& 128 ≠ 0
            then color else bg_color)
        else 0) (size / 2) size =
      (List.range (size * (size / 2))).map
        (fun k => cellColour font size chr color bg_color (k % (size / 2)) (k / (size / 2))) := by
    rw [← range_row_major (size / 2) hw0
      (fun j i => cellColour font size chr color bg_color j i) size]
    unfold cellColours
    apply List.flatMap_congr
    intro i hi
    apply List.map_congr_left
    intro j hj
    rw [List.mem_range] at hi hj
    have q : 0 ≤ j ∧ j < size / 2 ∧ i < size := by omega
    have hlt : glyphByte font size chr (2 * j + i / 8) < 256 := Nat.mod_lt _ (by decide)
    have hbit := shiftByte_bit _ hlt (i % 8) (Nat.mod_lt _ (by decide))
    simp only [if_pos q, cellColour]
    by_cases hset : glyphByte font size chr (2 * j + i / 8) &&& (0x80 >>> (i % 8)) ≠ 0
    · rw [if_pos hset, if_pos (hbit.2 hset)]
    · rw [if_neg hset, if_neg (fun h => hset (hbit.1 h))]
  have hcount : size * (size / 2) ≤ 128 := by
    rcases hsize with h | h <;> subst h <;> decide
  have hpos : 0 < size * (size / 2) := Nat.mul_pos (by omega) hw0
  have hstream := streamPixels_small
    ((List.range (size * (size / 2))).map
      (fun k => cellColour font size chr color bg_color (k % (size / 2)) (k / (size / 2)))) []
    (by simp only [List.length_nil, List.length_map, List.length_range]; omega)
  simp only [List.length_nil, List.length_map, List.length_range, Nat.zero_add,
    List.nil_append] at hstream
  rw [if_pos (by omega)] at hstream
  rw [hcells, hstream]
  have ex : toU16 ((x : Int) + (size / 2 : Nat) - 1) = x + size / 2 - 1 := by
    unfold toU16; omega
  have ey : toU16 ((y : Int) + (size : Nat) - 1) = y + size - 1 := by
    unfold toU16; omega
  simp only [List.append_assoc, transfers_SetWindows, LCD_WriteRAM_Prepare, transfers_WR_REG,
    List.cons_append, List.nil_append, transfers, ex, ey,
    hiByte_of_lt (show x < 65536 by omega), hiByte_of_lt (show y < 65536 by omega),
    hiByte_of_lt (show x + size / 2 - 1 < 65536 by omega),
    hiByte_of_lt (show y + size - 1 < 65536 by omega)]
  have hdata : ((List.range (size * (size / 2))).map
      (fun k => cellColour font size chr color bg_color (k % (size / 2)) (k / (size / 2)))).flatMap
        (fun c => [hiByte c, loByte c]) =
      (List.range (size * (size / 2))).flatMap (fun k =>
         [cellColour font size chr color bg_color (k % (size / 2)) (k / (size / 2)) >>> 8,
          cellColour font size chr color bg_color (k % (size / 2)) (k / (size / 2)) &&& 0xFF]) := by
    rw [List.flatMap_map]
    apply List.flatMap_congr
    intro k _
    have hlt : cellColour font size chr color bg_color (k % (size / 2)) (k / (size / 2)) < 65536 := by
      unfold cellColour
      split <;> assumption
    rw [hiByte_of_lt hlt]
    rfl
  rw [hdata]
  rfl

/-- The character `'A'` in the 16-pixel font at `(10, 20)` on a 240 x 320
surface, red on blue. -/
theorem LCD_ShowChar_opaque_stream_witness :
    ((16 = 12 ∨ 16 = 16) ∧ (32 ≤ 65 ∧ 65 ≤ 126) ∧ 10 + 16 / 2 < 240 ∧ 20 + 16 < 320 ∧
      240 < 65536 ∧ 320 < 65536 ∧ 0xF800 < 65536 ∧ 0x001F < 65536) ∧
    transfers true
        (LCD_ShowChar ⟨240, 320, 0, 0x2C, 0x2A, 0x2B⟩ sampleFont 10 20 65 16 0 0xF800 0x001F) =
      [Msg.command [0x2A],
       Msg.data [10 >>> 8, 10 &&& 0xFF, (10 + 16 / 2 - 1) >>> 8, (10 + 16 / 2 - 1) &&& 0xFF],
       Msg.command [0x2B],
       Msg.data [20 >>> 8, 20 &&& 0xFF, (20 + 16 - 1) >>> 8, (20 + 16 - 1) &&& 0xFF],
       Msg.command [0x2C],
       Msg.data ((List.range (16 * (16 / 2))).flatMap (fun k =>
         [cellColour sampleFont 16 65 0xF800 0x001F (k % (16 / 2)) (k / (16 / 2)) >>> 8,
          cellColour sampleFont 16 65 0xF800 0x001F (k % (16 / 2)) (k / (16 / 2)) &&& 0xFF]))] :=
  ⟨⟨by decide, by decide, by decide, by decide, by decide, by decide, by decide, by decide⟩,
   LCD_ShowChar_opaque_stream ⟨240, 320, 0, 0x2C, 0x2A, 0x2B⟩ sampleFont 10 20 65 16 0xF800
     0x001F (by decide) (by decide) (by decide) (by decide) (by decide) (by decide) (by decide)
     (by decide) true⟩

/-! ## `LCD_DrawLine`: the collected points of a line in the positive direction -/

theorem lineOffset_bounds (δ D t : Nat) (hδ : 0 < δ) (hD : δ ≤ D) :
    lineOffset δ D t * D ≤ t * δ ∧ t * δ ≤ lineOffset δ D t * D + D ∧
      (0 < t → lineOffset δ D t * D < t * δ) := by
  unfold lineOffset
  have hDpos : 0 < D := by omega
  have h1 := Nat.div_mul_le_self (t * δ - 1) D
  have h2 := Nat.lt_div_mul_add (a := t * δ - 1) hDpos
  refine ⟨by omega, by omega, ?_⟩
  intro ht
  have : 0 < t * δ := Nat.mul_pos ht hδ
  omega

theorem lineOffset_succ (δ D t : Nat) (hδ : 0 < δ) (hD : δ ≤ D) :
    lineOffset δ D (t + 1) =
      if t * δ + δ > lineOffset δ D t * D + D then lineOffset δ D t + 1 else lineOffset δ D t := by
  obtain ⟨h1, h2, h3⟩ := lineOffset_bounds δ D t hδ hD
  have hDpos : 0 < D := by omega
  have hs : (t + 1) * δ = t * δ + δ := Nat.succ_mul t δ
  have ht0 : t = 0 ∨ 0 < t := by omega
  have h0 : t = 0 → t * δ = 0 ∧ lineOffset δ D t * D = 0 := by
    intro h
    subst h
    simp [lineOffset]
  split
  · rename_i hgt
    show ((t + 1) * δ - 1) / D = lineOffset δ D t + 1
    apply Nat.div_eq_of_lt_le
    · rw [hs, Nat.succ_mul]; omega
    · rw [hs, Nat.succ_mul, Nat.succ_mul]
      rcases ht0 with h | h
      · have := h0 h; omega
      · have := h3 h; omega
  · rename_i hle
    show ((t + 1) * δ - 1) / D = lineOffset δ D t
    apply Nat.div_eq_of_lt_le
    · rw [hs]
      rcases ht0 with h | h
      · have := h0 h; omega
      · have := h3 h; omega
    · rw [hs, Nat.succ_mul]; omega

theorem lineOffset_zero (δ D : Nat) : lineOffset δ D 0 = 0 := by
  simp [lineOffset]

theorem lineOffset_one (δ D : Nat) (hδ : 0 < δ) (hD : δ ≤ D) : lineOffset δ D 1 = 0 := by
  unfold lineOffset
  rw [Nat.one_mul]
  exact Nat.div_eq_of_lt (by omega)

theorem lineOffset_last (δ D : Nat) (hδ : 0 < δ) (hD : δ ≤ D) : lineOffset δ D (D + 1) = δ := by
  unfold lineOffset
  apply Nat.div_eq_of_lt_le
  · rw [Nat.succ_mul, Nat.mul_comm δ D]; omega
  · rw [Nat.succ_mul, Nat.succ_mul, Nat.mul_comm δ D]; omega

theorem lineOffset_mono (δ D : Nat) {s t : Nat} (h : s ≤ t) : lineOffset δ D s ≤ lineOffset δ D t := by
  unfold lineOffset
  apply Nat.div_le_div_right
  have := Nat.mul_le_mul_right δ h
  omega

theorem lineOffset_le (δ D t : Nat) (hδ : 0 < δ) (hD : δ ≤ D) (ht : t ≤ D + 1) :
    lineOffset δ D t ≤ δ := by
  have h := lineOffset_mono δ D ht
  rw [lineOffset_last δ D hδ hD] at h
  exact h

theorem lineOffset_major (D t : Nat) (hD : 0 < D) (ht : 0 < t) : lineOffset D D t = t - 1 := by
  unfold lineOffset
  apply Nat.div_eq_of_lt_le
  · have : t * D = (t - 1) * D + D := by
      rw [← Nat.succ_mul]; congr 1; omega
    omega
  · have : t * D = (t - 1) * D + D := by
      rw [← Nat.succ_mul]; congr 1; omega
    rw [Nat.succ_mul]; omega

/-- One update of an axis in the collecting loop, for a step that is not
the last: the coordinate and the error term after it are those of the next
iteration. -/
theorem axis_step (v0 δ D t : Nat) (hδ : 0 < δ) (hD : δ ≤ D) (ht : t ≤ D) (hv : v0 + δ < 65536) :
    (if (((t * δ - lineOffset δ D t * D : Nat) : Int) + (δ : Int) > (D : Int)) then
        toU16 (((v0 + lineOffset δ D t : Nat) : Int) + 1)
      else v0 + lineOffset δ D t) = v0 + lineOffset δ D (t + 1) ∧
    (if (((t * δ - lineOffset δ D t * D : Nat) : Int) + (δ : Int) > (D : Int)) then
        ((t * δ - lineOffset δ D t * D : Nat) : Int) + (δ : Int) - (D : Int)
      else ((t * δ - lineOffset δ D t * D : Nat) : Int) + (δ : Int)) =
      (((t + 1) * δ - lineOffset δ D (t + 1) * D : Nat) : Int) := by
  obtain ⟨h1, h2, h3⟩ := lineOffset_bounds δ D t hδ hD
  have hle := lineOffset_le δ D (t + 1) hδ hD (by omega)
  have hsucc := lineOffset_succ δ D t hδ hD
  have hs : (t + 1) * δ = t * δ + δ := Nat.succ_mul t δ
  by_cases hgt : t * δ + δ > lineOffset δ D t * D + D
  · rw [if_pos hgt] at hsucc
    have hc : ((t * δ - lineOffset δ D t * D : Nat) : Int) + (δ : Int) > (D : Int) := by omega
    rw [if_pos hc, if_pos hc, hsucc, hs, Nat.succ_mul]
    refine ⟨?_, by omega⟩
    unfold toU16
    omega
  · rw [if_neg hgt] at hsucc
    have hc : ¬ (((t * δ - lineOffset δ D t * D : Nat) : Int) + (δ : Int) > (D : Int)) := by omega
    rw [if_neg hc, if_neg hc, hsucc, hs]
    refine ⟨rfl, by omega⟩

/-- Closed form of the collecting loop for a line in the positive
direction with `distance = D <= 510`. -/
theorem enumerate_eq (x1 y1 dx dy D : Nat) (hdx : 0 < dx) (hdy : 0 < dy) (hxD : dx ≤ D)
    (hyD : dy ≤ D) (hD : D ≤ 510) (hx : x1 + dx < 65536) (hy : y1 + dy < 65536) :
    ∀ (n t : Nat), t + n = D + 2 →
      enumerate dx dy D 1 1 n t (x1 + lineOffset dx D t) (y1 + lineOffset dy D t)
          ((t * dx - lineOffset dx D t * D : Nat) : Int)
          ((t * dy - lineOffset dy D t * D : Nat) : Int) =
        (List.range n).map
          (fun j => (x1 + lineOffset dx D (t + j), y1 + lineOffset dy D (t + j))) := by
  intro n
  induction n with
  | zero => intro t _; rfl
  | succ n ih =>
    intro t ht
    unfold enumerate
    have hlt : t < 512 := by omega
    simp only [if_pos hlt]
    rw [List.range_succ_eq_map, List.map_cons, List.map_map]
    refine congrArg (List.cons _) ?_
    cases n with
    | zero => rfl
    | succ m =>
      obtain ⟨a1, a2⟩ := axis_step x1 dx D t hdx hxD (by omega) hx
      obtain ⟨b1, b2⟩ := axis_step y1 dy D t hdy hyD (by omega) hy
      rw [a1, a2, b1, b2, ih (t + 1) (by omega)]
      apply List.map_congr_left
      intro j _
      show _ = (x1 + lineOffset dx D (t + (j + 1)), y1 + lineOffset dy D (t + (j + 1)))
      rw [show t + 1 + j = t + (j + 1) by omega]

/-- The points collected for a line in the positive direction. -/
theorem linePoints_eq (x1 y1 x2 y2 : Nat) (hx : x1 < x2) (hy : y1 < y2)
    (hmx : x2 - x1 ≤ 510) (hmy : y2 - y1 ≤ 510) (hx2 : x2 < 65536) (hy2 : y2 < 65536) :
    linePoints x1 y1 x2 y2 =
      (List.range (max (x2 - x1) (y2 - y1) + 2)).map
        (fun t => (x1 + lineOffset (x2 - x1) (max (x2 - x1) (y2 - y1)) t,
                   y1 + lineOffset (y2 - y1) (max (x2 - x1) (y2 - y1)) t)) := by
  have e1 : (x2 : Int) - x1 = ((x2 - x1 : Nat) : Int) := by omega
  have e2 : (y2 : Int) - y1 = ((y2 - y1 : Nat) : Int) := by omega
  have e3 : (if (((x2 - x1 : Nat) : Int)).natAbs > (((y2 - y1 : Nat) : Int)).natAbs
      then (((((x2 - x1 : Nat) : Int)).natAbs : Nat) : Int)
      else (((((y2 - y1 : Nat) : Int)).natAbs : Nat) : Int)) =
      ((max (x2 - x1) (y2 - y1) : Nat) : Int) := by
    simp only [Int.natAbs_ofNat]
    split <;> congr 1 <;> omega
  have e4 : (if (((x2 - x1 : Nat) : Int)) > 0 then (1 : Int) else -1) = 1 := by
    rw [if_pos (by omega)]
  have e5 : (if (((y2 - y1 : Nat) : Int)) > 0 then (1 : Int) else -1) = 1 := by
    rw [if_pos (by omega)]
  have e6 : (((max (x2 - x1) (y2 - y1) : Nat) : Int) + 2).toNat = max (x2 - x1) (y2 - y1) + 2 := by
    omega
  have h := enumerate_eq x1 y1 (x2 - x1) (y2 - y1) (max (x2 - x1) (y2 - y1)) (by omega)
    (by omega) (by omega) (by omega) (by omega) (by omega) (by omega)
    (max (x2 - x1) (y2 - y1) + 2) 0 (by omega)
  simp only [lineOffset_zero, Nat.zero_mul, Nat.add_zero, Nat.sub_self, Nat.zero_add,
    Nat.cast_zero] at h
  unfold linePoints
  simp only [e1, e2, e3, e4, e5, e6]
  exact h

theorem pixels_points (color : Nat) : ∀ r : List Pt,
    (r.map (fun q => Op.point q.1 q.2 color)).flatMap Op.pixels = r.map (fun q => (q, color)) := by
  intro r
  induction r with
  | nil => rfl
  | cons q r ih =>
    rw [List.map_cons, List.flatMap_cons, ih]
    rfl

/-- The calls that handle one run in the run analysis write the points of
the run, in order. -/
theorem pixels_segmentOps_run (color : Nat) (hc : color < 65536) (r : List Pt) (hne : r ≠ [])
    (hchain : r.Chain' follows) (hb : ∀ q ∈ r, q.1 < 65535 ∧ q.2 < 65535) :
    (segmentOps color r).flatMap Op.pixels = r.map (fun q => (q, color)) ∧
      ∀ op ∈ segmentOps color r, op.IsU16 := by
  unfold segmentOps
  by_cases h3 : r.length > 3
  · have hrc : runCall color r =
        Op.fill (r.headD (0, 0)).1 (r.headD (0, 0)).2 (r.getLastD (0, 0)).1 (r.headD (0, 0)).2
          color := by
      unfold runCall
      rw [if_pos (by omega)]
    rw [if_pos h3, ← hrc]
    refine ⟨?_, ?_⟩
    · rw [List.flatMap_cons, List.flatMap_nil, List.append_nil]
      exact pixels_runCall color r hne hchain hb
    · intro op hop
      rw [List.mem_singleton] at hop
      subst hop
      exact runCall_isU16 color hc r hb
  · rw [if_neg h3]
    refine ⟨pixels_points color r, ?_⟩
    intro op hop
    rw [List.mem_map] at hop
    obtain ⟨q, hq, rfl⟩ := hop
    have := hb q hq
    simp only [Op.IsU16]
    omega

theorem pixels_segmentOps (color : Nat) (hc : color < 65536) (l : List Pt)
    (hb : ∀ q ∈ l, q.1 < 65535 ∧ q.2 < 65535) :
    ((maximalRuns l).flatMap (segmentOps color)).flatMap Op.pixels =
        l.map (fun q => (q, color)) ∧
      ∀ op ∈ (maximalRuns l).flatMap (segmentOps color), op.IsU16 := by
  obtain ⟨h1, h2, _⟩ := maximalRuns_spec l
  have hmem : ∀ r ∈ maximalRuns l, ∀ q ∈ r, q ∈ l := by
    intro r hr q hq
    rw [← h1]
    exact List.mem_flatten.2 ⟨r, hr, hq⟩
  have key : ∀ rs : List (List Pt),
      (∀ r ∈ rs, r ≠ [] ∧ r.Chain' follows) → (∀ r ∈ rs, ∀ q ∈ r, q.1 < 65535 ∧ q.2 < 65535) →
      (rs.flatMap (segmentOps color)).flatMap Op.pixels = rs.flatten.map (fun q => (q, color)) := by
    intro rs
    induction rs with
    | nil => intro _ _; rfl
    | cons r rs ih =>
      intro hr hq
      rw [List.flatMap_cons, List.flatMap_append, List.flatten_cons, List.map_append,
        ih (fun s hs => hr s (List.mem_cons_of_mem _ hs))
          (fun s hs => hq s (List.mem_cons_of_mem _ hs)),
        (pixels_segmentOps_run color hc r (hr r (List.mem_cons_self _ _)).1
          (hr r (List.mem_cons_self _ _)).2 (hq r (List.mem_cons_self _ _))).1]
  refine ⟨?_, ?_⟩
  · rw [key (maximalRuns l) h2 (fun r hr q hq => hb q (hmem r hr q hq)), h1]
  · intro op hop
    rw [List.mem_flatMap] at hop
    obtain ⟨r, hr, hop⟩ := hop
    exact (pixels_segmentOps_run color hc r (h2 r hr).1 (h2 r hr).2
      (fun q hq => hb q (hmem r hr q hq))).2 op hop

/-- Whichever rendering branch `LCD_DrawLine` takes for a line that is
not axis-aligned and whose collecting loop ends, its calls write the
collected points, in order, provided all of them lie on the surface. -/
theorem pixels_LCD_DrawLine (dev : LcdDev) (hW : dev.width < 65536) (hH : dev.height < 65536)
    (x1 y1 x2 y2 color : Nat) (hc : color < 65536) (hx : x1 ≠ x2) (hy : y1 ≠ y2)
    (hdx : ((x2 : Int) - x1).natAbs < 65534) (hdy : ((y2 : Int) - y1).natAbs < 65534)
    (hne : linePoints x1 y1 x2 y2 ≠ [])
    (hin : ∀ p ∈ linePoints x1 y1 x2 y2, dev.inBounds p) :
    ∃ ops, LCD_DrawLine.calls dev x1 y1 x2 y2 color = some ops ∧
      ops.flatMap Op.pixels = (linePoints x1 y1 x2 y2).map (fun q => (q, color)) ∧
      ∀ op ∈ ops, op.IsU16 := by
  have hd : ¬ ((if ((x2 : Int) - x1).natAbs > ((y2 : Int) - y1).natAbs
      then ((((x2 : Int) - x1).natAbs : Nat) : Int) else ((((y2 : Int) - y1).natAbs : Nat) : Int))
      + 1 ≥ 65535) := by
    split <;> omega
  have hall := analyseRuns_all (linePoints x1 y1 x2 y2) color hne
  have hb : ∀ q ∈ linePoints x1 y1 x2 y2, q.1 < 65535 ∧ q.2 < 65535 := by
    intro q hq
    have := hin q hq
    unfold LcdDev.inBounds at this
    omega
  by_cases hbr : (linePoints x1 y1 x2 y2).length < 30 ∨
      (boundingBox (linePoints x1 y1 x2 y2)).2.1 - (boundingBox (linePoints x1 y1 x2 y2)).1 > 100 ∨
      (boundingBox (linePoints x1 y1 x2 y2)).2.2.2 -
        (boundingBox (linePoints x1 y1 x2 y2)).2.2.1 > 100
  · refine ⟨LCD_DrawPoints.calls dev (linePoints x1 y1 x2 y2) color, ?_,
      pixels_LCD_DrawPoints dev hW hH color hc _ hin⟩
    simp only [LCD_DrawLine.calls, if_neg hx, if_neg hy, if_neg hd, if_pos hbr]
  · refine ⟨(maximalRuns (linePoints x1 y1 x2 y2)).flatMap (segmentOps color), ?_,
      pixels_segmentOps color hc _ hb⟩
    simp only [LCD_DrawLine.calls, if_neg hx, if_neg hy, if_neg hd, if_neg hbr, hall,
      lt_irrefl, if_false]

theorem major_unique (δ D : Nat) (hδ : 0 < δ) (hD : δ ≤ D) (s t : Nat)
    (h : lineOffset D D s = lineOffset D D t) : lineOffset δ D s = lineOffset δ D t := by
  have hDpos : 0 < D := by omega
  have h0 := lineOffset_zero δ D
  have h1 := lineOffset_one δ D hδ hD
  have z0 := lineOffset_zero D D
  rcases Nat.eq_zero_or_pos s with hs | hs <;> rcases Nat.eq_zero_or_pos t with ht | ht
  · subst hs ht; rfl
  · subst hs
    rw [z0, lineOffset_major D t hDpos ht] at h
    have : t = 1 := by omega
    subst this
    rw [h0, h1]
  · subst ht
    rw [z0, lineOffset_major D s hDpos hs] at h
    have : s = 1 := by omega
    subst this
    rw [h0, h1]
  · rw [lineOffset_major D s hDpos hs, lineOffset_major D t hDpos ht] at h
    have : s = t := by omega
    subst this; rfl

theorem major_adjacent (δ D : Nat) (hδ : 0 < δ) (hD : δ ≤ D) (s t : Nat)
    (h : lineOffset D D t = lineOffset D D s + 1) :
    lineOffset δ D s ≤ lineOffset δ D t ∧ lineOffset δ D t ≤ lineOffset δ D s + 1 := by
  have hDpos : 0 < D := by omega
  have h0 := lineOffset_zero δ D
  have h1 := lineOffset_one δ D hδ hD
  have z0 := lineOffset_zero D D
  have hstep : ∀ u, lineOffset δ D u ≤ lineOffset δ D (u + 1) ∧
      lineOffset δ D (u + 1) ≤ lineOffset δ D u + 1 := by
    intro u
    have := lineOffset_succ δ D u hδ hD
    split at this <;> omega
  rcases Nat.eq_zero_or_pos t with ht | ht
  · subst ht; rw [z0] at h; omega
  · rw [lineOffset_major D t hDpos ht] at h
    rcases Nat.eq_zero_or_pos s with hs | hs
    · subst hs
      rw [z0] at h
      have : t = 1 + 1 := by omega
      subst this
      have := hstep 1
      omega
    · rw [lineOffset_major D s hDpos hs] at h
      have : t = s + 1 := by omega
      subst this
      exact hstep s

/-- Along the major axis, which starts at `a` and has length `D`, every
coordinate carries exactly one collected point, and the minor coordinates of
neighbouring ones differ by at most one. -/
theorem major_props (a b δ D : Nat) (hδ : 0 < δ) (hD : δ ≤ D) :
    (∀ m, a ≤ m → m ≤ a + D →
      ∃! n, ∃ t, t ≤ D + 1 ∧ m = a + lineOffset D D t ∧ n = b + lineOffset δ D t) ∧
    (∀ m n n', (∃ t, t ≤ D + 1 ∧ m = a + lineOffset D D t ∧ n = b + lineOffset δ D t) →
      (∃ t, t ≤ D + 1 ∧ m + 1 = a + lineOffset D D t ∧ n' = b + lineOffset δ D t) →
      n ≤ n' ∧ n' ≤ n + 1) := by
  have hDpos : 0 < D := by omega
  refine ⟨?_, ?_⟩
  · intro m h1 h2
    refine ⟨b + lineOffset δ D (m - a + 1), ⟨m - a + 1, by omega, ?_, rfl⟩, ?_⟩
    · rw [lineOffset_major D _ hDpos (by omega)]; omega
    · rintro n ⟨t, _, ht1, ht2⟩
      have e : lineOffset D D t = lineOffset D D (m - a + 1) := by
        rw [lineOffset_major D (m - a + 1) hDpos (by omega)]; omega
      rw [ht2, major_unique δ D hδ hD _ _ e]
  · rintro m n n' ⟨s, _, hs1, hs2⟩ ⟨t, _, ht1, ht2⟩
    have e : lineOffset D D t = lineOffset D D s + 1 := by omega
    have := major_adjacent δ D hδ hD s t e
    omega

/-- C26: for a line in the positive direction (`x2 > x1`, `y2 > y1`) with
both end points on the surface and extents of at most 510, `LCD_DrawLine`
returns, and whichever rendering branch it takes the pixels it writes are the
collected points, in the order of collection; point `t` of them lies
`ceil(t*dx/D) - 1` columns and `ceil(t*dy/D) - 1` rows from `(x1, y1)`, where
`D = max(dx, dy)`.  They contain `(x1, y1)` and `(x2, y2)` and lie inside the
box spanned by the end points; along the major axis (either axis when
`dx = dy`) every coordinate between the end points carries exactly one
pixel, and the pixels of neighbouring coordinates are 8-adjacent: their
minor coordinates differ by at most one. -/
theorem LCD_DrawLine_positive_direction (dev : LcdDev) (x1 y1 x2 y2 color : Nat)
    (hcfg : dev.Configured) (hW : dev.width < 65536) (hH : dev.height < 65536)
    (hx : x1 < x2) (hy : y1 < y2) (hx2 : x2 < dev.width) (hy2 : y2 < dev.height)
    (hmx : x2 - x1 ≤ 510) (hmy : y2 - y1 ≤ 510) (hc : color < 65536) :
    ∃ tr, LCD_DrawLine dev x1 y1 x2 y2 color = some tr ∧
      painted tr = linePoints x1 y1 x2 y2 ∧
      painted tr = (List.range (max (x2 - x1) (y2 - y1) + 2)).map
        (fun t => (x1 + lineOffset (x2 - x1) (max (x2 - x1) (y2 - y1)) t,
                   y1 + lineOffset (y2 - y1) (max (x2 - x1) (y2 - y1)) t)) ∧
      (x1, y1) ∈ painted tr ∧ (x2, y2) ∈ painted tr ∧
      (∀ p ∈ painted tr, x1 ≤ p.1 ∧ p.1 ≤ x2 ∧ y1 ≤ p.2 ∧ p.2 ≤ y2) ∧
      (y2 - y1 ≤ x2 - x1 →
        (∀ x, x1 ≤ x → x ≤ x2 → ∃! y, (x, y) ∈ painted tr) ∧
        (∀ x y y', (x, y) ∈ painted tr → (x + 1, y') ∈ painted tr → y ≤ y' ∧ y' ≤ y + 1)) ∧
      (x2 - x1 ≤ y2 - y1 →
        (∀ y, y1 ≤ y → y ≤ y2 → ∃! x, (x, y) ∈ painted tr) ∧
        (∀ y x x', (x, y) ∈ painted tr → (x', y + 1) ∈ painted tr → x ≤ x' ∧ x' ≤ x + 1)) := by
  have hclosed := linePoints_eq x1 y1 x2 y2 hx hy hmx hmy (by omega) (by omega)
  generalize hDdef : max (x2 - x1) (y2 - y1) = D at hclosed
  have hdxD : x2 - x1 ≤ D := by omega
  have hdyD : y2 - y1 ≤ D := by omega
  have hdx0 : 0 < x2 - x1 := by omega
  have hdy0 : 0 < y2 - y1 := by omega
  have hmem : ∀ x y, (x, y) ∈ linePoints x1 y1 x2 y2 ↔
      ∃ t, t ≤ D + 1 ∧ x = x1 + lineOffset (x2 - x1) D t ∧ y = y1 + lineOffset (y2 - y1) D t := by
    intro x y
    rw [hclosed]
    simp only [List.mem_map, List.mem_range, Prod.mk.injEq]
    constructor
    · rintro ⟨t, ht, h1, h2⟩
      exact ⟨t, by omega, h1.symm, h2.symm⟩
    · rintro ⟨t, ht, h1, h2⟩
      exact ⟨t, by omega, h1.symm, h2.symm⟩
  have hbox : ∀ p ∈ linePoints x1 y1 x2 y2, x1 ≤ p.1 ∧ p.1 ≤ x2 ∧ y1 ≤ p.2 ∧ p.2 ≤ y2 := by
    rintro ⟨x, y⟩ hp
    obtain ⟨t, ht, rfl, rfl⟩ := (hmem x y).1 hp
    have a1 := lineOffset_le (x2 - x1) D t hdx0 hdxD ht
    have a2 := lineOffset_le (y2 - y1) D t hdy0 hdyD ht
    simp only
    omega
  have hstart : (x1, y1) ∈ linePoints x1 y1 x2 y2 :=
    (hmem x1 y1).2 ⟨0, by omega, by rw [lineOffset_zero, Nat.add_zero],
      by rw [lineOffset_zero, Nat.add_zero]⟩
  have hne : linePoints x1 y1 x2 y2 ≠ [] := by
    intro e
    have := hstart
    rw [e] at this
    simp at this
  obtain ⟨ops, hops, hpix, hu16⟩ := pixels_LCD_DrawLine dev hW hH x1 y1 x2 y2 color hc
    (by omega) (by omega) (by omega) (by omega) hne
    (by
      intro p hp
      have := hbox p hp
      unfold LcdDev.inBounds
      omega)
  have hpaint : painted (emitAll dev ops) = linePoints x1 y1 x2 y2 := by
    rw [painted_emitAll dev hcfg ops hu16, hpix, List.map_map]
    have hid : (Prod.fst ∘ fun q : Pt => (q, color)) = id := rfl
    rw [hid, List.map_id]
  refine ⟨emitAll dev ops, by rw [LCD_DrawLine, hops]; rfl, hpaint, by rw [hpaint, hclosed], ?_,
    ?_, ?_, ?_, ?_⟩
  · rw [hpaint]
    exact hstart
  · rw [hpaint]
    refine (hmem x2 y2).2 ⟨D + 1, by omega, ?_, ?_⟩
    · rw [lineOffset_last _ D hdx0 hdxD]; omega
    · rw [lineOffset_last _ D hdy0 hdyD]; omega
  · rw [hpaint]; exact hbox
  · intro hmaj
    have hD : D = x2 - x1 := by omega
    obtain ⟨p1, p2⟩ := major_props x1 y1 (y2 - y1) D hdy0 hdyD
    rw [hpaint]
    refine ⟨?_, ?_⟩
    · intro x h1 h2
      obtain ⟨y, hy1, hy2⟩ := p1 x h1 (by omega)
      refine ⟨y, (hmem x y).2 (by rw [← hD]; exact hy1), ?_⟩
      intro y' hy'
      have := (hmem x y').1 hy'
      rw [← hD] at this
      exact hy2 y' this
    · intro x y y' h1 h2
      have q1 := (hmem x y).1 h1
      have q2 := (hmem (x + 1) y').1 h2
      rw [← hD] at q1 q2
      exact p2 x y y' q1 q2
  · intro hmaj
    have hD : D = y2 - y1 := by omega
    obtain ⟨p1, p2⟩ := major_props y1 x1 (x2 - x1) D hdx0 hdxD
    rw [hpaint]
    have hswap : ∀ x y, (x, y) ∈ linePoints x1 y1 x2 y2 ↔
        ∃ t, t ≤ D + 1 ∧ y = y1 + lineOffset D D t ∧ x = x1 + lineOffset (x2 - x1) D t := by
      intro x y
      rw [hmem x y, ← hD]
      constructor
      · rintro ⟨t, a, b, c⟩; exact ⟨t, a, c, b⟩
      · rintro ⟨t, a, b, c⟩; exact ⟨t, a, c, b⟩
    refine ⟨?_, ?_⟩
    · intro y h1 h2
      obtain ⟨x, hx1, hx2⟩ := p1 y h1 (by omega)
      refine ⟨x, (hswap x y).2 hx1, ?_⟩
      intro x' hx'
      exact hx2 x' ((hswap x' y).1 hx')
    · intro y x x' h1 h2
      exact p2 y x x' ((hswap x y).1 h1) ((hswap x' (y + 1)).1 h2)

/-- The line from `(0, 0)` to `(50, 20)` on a 240 x 320 surface, which is
rendered by the run analysis. -/
theorem LCD_DrawLine_positive_direction_witness :
    ((⟨240, 320, 0, 0x2C, 0x2A, 0x2B⟩ : LcdDev).Configured ∧ 240 < 65536 ∧ 320 < 65536 ∧
      0 < 50 ∧ 0 < 20 ∧ 50 < 240 ∧ 20 < 320 ∧ 50 - 0 ≤ 510 ∧ 20 - 0 ≤ 510 ∧ 0xF800 < 65536) ∧
    ∃ tr, LCD_DrawLine ⟨240, 320, 0, 0x2C, 0x2A, 0x2B⟩ 0 0 50 20 0xF800 = some tr ∧
      painted tr = linePoints 0 0 50 20 ∧ (50, 20) ∈ painted tr :=
  ⟨⟨by decide, by decide, by decide, by decide, by decide, by decide, by decide, by decide,
      by decide, by decide⟩,
   (LCD_DrawLine_positive_direction ⟨240, 320, 0, 0x2C, 0x2A, 0x2B⟩ 0 0 50 20 0xF800
      (by decide) (by decide) (by decide) (by decide) (by decide) (by decide) (by decide)
      (by decide) (by decide) (by decide)).imp (fun _ h => ⟨h.1, h.2.1, h.2.2.2.2.1⟩)⟩

/-! ## `LCD_ShowxNum` and `LCD_ShowNum` -/

theorem showxNumLoop_mode_zero (x y num len size color bg_color : Nat) :
    ∀ (n t enshow : Nat),
      showxNumLoop x y num len size 0 color bg_color n t enshow =
        showNumLoop x y num len size color BACK_COLOR n t enshow := by
  intro n
  induction n with
  | zero => intro t enshow; rfl
  | succ n ih =>
    intro t enshow
    unfold showxNumLoop showNumLoop
    simp only [ih, Nat.zero_and, ne_eq, not_true_eq_false, if_false]

/-- C31: with `mode = 0`, `LCD_ShowxNum` makes the `LCD_ShowChar` calls of
`LCD_ShowNum` with the macro `BACK_COLOR` (black) in place of the background
colour it is given, whatever the arguments; so for a background other than
black the two differ.  At `(10, 20)`, `num = 7`, `len = 2`, size 16, white on
blue: `LCD_ShowNum` passes the background `0x001F` with the blank and with
the digit, `LCD_ShowxNum` passes 0 with both; positions, characters, mode
and foreground agree. -/
theorem LCD_ShowxNum_drops_background :
    (∀ x y num len size color bg_color : Nat,
      LCD_ShowxNum.calls x y num len size 0 color bg_color =
        LCD_ShowNum.calls x y num len size color BACK_COLOR) ∧
    LCD_ShowNum.calls 10 20 7 2 16 0xFFFF 0x001F =
      some [CharCall.mk 10 20 32 16 0 0xFFFF 0x001F, CharCall.mk 18 20 55 16 0 0xFFFF 0x001F] ∧
    LCD_ShowxNum.calls 10 20 7 2 16 0 0xFFFF 0x001F =
      some [CharCall.mk 10 20 32 16 0 0xFFFF 0, CharCall.mk 18 20 55 16 0 0xFFFF 0] := by
  refine ⟨?_, by decide, by decide⟩
  intro x y num len size color bg_color
  exact showxNumLoop_mode_zero x y num len size color bg_color len 0 0

/-! ## The divisors of the digit extraction -/

theorem LCD_Pow_zero_iff : ∀ n < 256, (LCD_Pow 10 n = 0 ↔ 32 ≤ n) := by
  decide!

theorem showNumLoop_isSome (x y num len size color bg_color : Nat) (hlen : len ≤ 32) :
    ∀ (n t enshow : Nat), t + n = len →
      (showNumLoop x y num len size color bg_color n t enshow).isSome = true := by
  intro n
  induction n with
  | zero => intro t enshow _; rfl
  | succ n ih =>
    intro t enshow ht
    unfold showNumLoop
    have hmod : (len - t - 1) % 256 = len - t - 1 := Nat.mod_eq_of_lt (by omega)
    have hd : LCD_Pow 10 ((len - t - 1) % 256) ≠ 0 := by
      rw [hmod]
      intro h
      have := (LCD_Pow_zero_iff (len - t - 1) (by omega)).1 h
      omega
    simp only [hd, if_false]
    split
    · split
      · rw [Option.isSome_map']; exact ih _ _ (by omega)
      · rw [Option.isSome_map']; exact ih _ _ (by omega)
    · rw [Option.isSome_map']; exact ih _ _ (by omega)

theorem showxNumLoop_isSome (x y num len size mode color bg_color : Nat) (hlen : len ≤ 32) :
    ∀ (n t enshow : Nat), t + n = len →
      (showxNumLoop x y num len size mode color bg_color n t enshow).isSome = true := by
  intro n
  induction n with
  | zero => intro t enshow _; rfl
  | succ n ih =>
    intro t enshow ht
    unfold showxNumLoop
    have hmod : (len - t - 1) % 256 = len - t - 1 := Nat.mod_eq_of_lt (by omega)
    have hd : LCD_Pow 10 ((len - t - 1) % 256) ≠ 0 := by
      rw [hmod]
      intro h
      have := (LCD_Pow_zero_iff (len - t - 1) (by omega)).1 h
      omega
    simp only [hd, if_false]
    split
    · split
      · rw [Option.isSome_map']; exact ih _ _ (by omega)
      · rw [Option.isSome_map']; exact ih _ _ (by omega)
    · rw [Option.isSome_map']; exact ih _ _ (by omega)

/-- C32, counterexample: `LCD_Pow(10, 32)` is 0 in 32-bit arithmetic, and
for `len = 33` the first divisor that `LCD_ShowNum` and `LCD_ShowxNum`
compute is `LCD_Pow(10, 32)`: both divide by zero in their first
iteration. -/
theorem LCD_ShowNum_divides_by_zero :
    LCD_Pow 10 32 = 0 ∧ 33 ≤ 255 ∧
    LCD_ShowNum.calls 0 0 12345 33 16 0xFFFF 0 = none ∧
    LCD_ShowxNum.calls 0 0 12345 33 16 0 0xFFFF 0 = none := by
  decide

/-- C32, amended: for every `num` and every `len` in 0..32 each divisor
`LCD_Pow(10, len-t-1)`, `t < len`, that `LCD_ShowNum` and `LCD_ShowxNum`
compute in 32-bit arithmetic is non-zero, and both loops run to their end
without dividing by zero.  For `len` in 33..255 the first divisor,
`LCD_Pow(10, len-1)`, is zero and neither function completes. -/
theorem LCD_ShowNum_divisors (x y num len size mode color bg_color : Nat) (hlen : len ≤ 255) :
    (len ≤ 32 →
      (∀ t, t < len → LCD_Pow 10 ((len - t - 1) % 256) ≠ 0) ∧
      (LCD_ShowNum.calls x y num len size color bg_color).isSome = true ∧
      (LCD_ShowxNum.calls x y num len size mode color bg_color).isSome = true) ∧
    (33 ≤ len →
      LCD_Pow 10 ((len - 0 - 1) % 256) = 0 ∧
      LCD_ShowNum.calls x y num len size color bg_color = none ∧
      LCD_ShowxNum.calls x y num len size mode color bg_color = none) := by
  refine ⟨?_, ?_⟩
  · intro h32
    refine ⟨?_, showNumLoop_isSome x y num len size color bg_color h32 len 0 0 (by omega),
      showxNumLoop_isSome x y num len size mode color bg_color h32 len 0 0 (by omega)⟩
    intro t ht h
    rw [Nat.mod_eq_of_lt (by omega)] at h
    have := (LCD_Pow_zero_iff (len - t - 1) (by omega)).1 h
    omega
  · intro h33
    have hd : LCD_Pow 10 ((len - 0 - 1) % 256) = 0 := by
      rw [Nat.mod_eq_of_lt (by omega)]
      exact (LCD_Pow_zero_iff (len - 0 - 1) (by omega)).2 (by omega)
    refine ⟨hd, ?_, ?_⟩
    · unfold LCD_ShowNum.calls
      obtain ⟨m, rfl⟩ : ∃ m, len = m + 1 := ⟨len - 1, by omega⟩
      unfold showNumLoop
      simp only [hd, if_true]
    · unfold LCD_ShowxNum.calls
      obtain ⟨m, rfl⟩ : ∃ m, len = m + 1 := ⟨len - 1, by omega⟩
      unfold showxNumLoop
      simp only [hd, if_true]

/-- Eight digits, with forced leading zeros for `LCD_ShowxNum`. -/
theorem LCD_ShowNum_divisors_witness :
    (8 ≤ 255 ∧ 8 ≤ 32) ∧
    (LCD_ShowNum.calls 10 20 12345 8 16 0xFFFF 0).isSome = true ∧
    (LCD_ShowxNum.calls 10 20 12345 8 16 0x80 0xFFFF 0).isSome = true :=
  ⟨⟨by decide, by decide⟩,
   ((LCD_ShowNum_divisors 10 20 12345 8 16 0x80 0xFFFF 0 (by decide)).1 (by decide)).2⟩

/-! ## `Draw_Circle`: distance of the offsets from the ideal circle -/

theorem circleOffsets_of_gt : ∀ (fuel : Nat) (a b di : Int), ¬ a ≤ b →
    circleOffsets fuel a b di = [] := by
  intro fuel a b di h
  cases fuel with
  | zero => rfl
  | succ f => simp [circleOffsets, h]

/-- The decision variable of the loop is
`2a^2 + 2b^2 - 2r^2 + 8a - 2b + 3`, and the excess `a^2 + b^2 - r^2` of every
pair for which the body runs lies between `-b - 2a` and `b + 1`. -/
theorem circleOffsets_excess (r : Int) : ∀ (fuel : Nat) (a b di : Int), 0 ≤ a → a ≤ b →
    di = 2 * (a * a) + 2 * (b * b) - 2 * (r * r) + 8 * a - 2 * b + 3 →
    a * a + b * b - r * r ≤ b + 1 → -b - 2 * a ≤ a * a + b * b - r * r →
    ∀ ab ∈ circleOffsets fuel a b di,
      ab.1 * ab.1 + ab.2 * ab.2 - r * r ≤ ab.2 + 1 ∧
        -ab.2 - 2 * ab.1 ≤ ab.1 * ab.1 + ab.2 * ab.2 - r * r := by
  intro fuel
  induction fuel with
  | zero => intro a b di _ _ _ _ _ ab h; simp [circleOffsets] at h
  | succ fuel ih =>
    intro a b di ha hab hdi hup hlo ab h
    unfold circleOffsets at h
    simp only [hab, if_true, List.mem_cons] at h
    rcases h with rfl | h
    · exact ⟨hup, hlo⟩
    · have hA : (a + 1) * (a + 1) = a * a + 2 * a + 1 := by ring
      have hB : (b - 1) * (b - 1) = b * b - 2 * b + 1 := by ring
      by_cases hd : di < 0
      · simp only [hd, if_true] at h
        by_cases hnext : a + 1 ≤ b
        · exact ih (a + 1) b _ (by omega) hnext (by rw [hA]; omega) (by rw [hA]; omega)
            (by rw [hA]; omega) ab h
        · rw [circleOffsets_of_gt _ _ _ _ hnext] at h
          simp at h
      · simp only [hd, if_false] at h
        by_cases hnext : a + 1 ≤ b - 1
        · exact ih (a + 1) (b - 1) _ (by omega) hnext (by rw [hA, hB]; omega)
            (by rw [hA, hB]; omega) (by rw [hA, hB]; omega) ab h
        · rw [circleOffsets_of_gt _ _ _ _ hnext] at h
          simp at h

theorem circle_offsets_small : ∀ r < 30, ∀ ab ∈ Draw_Circle.offsets r,
    ab.1 * ab.1 + ab.2 * ab.2 < ((r : Int) + 1) * ((r : Int) + 1) ∧
    (2 ≤ r → 4 * (ab.1 * ab.1 + ab.2 * ab.2) > (2 * (r : Int) - 3) * (2 * (r : Int) - 3) ∧
      ab.1 * ab.1 + ab.2 * ab.2 > ((r : Int) - 2) * ((r : Int) - 2)) ∧
    (1 ≤ r → ab.1 * ab.1 + ab.2 * ab.2 > ((r : Int) - 1) * ((r : Int) - 1)) := by
  decide!

/-- C33 (defect): for `r = 30` the loop of `Draw_Circle` stores the eight
points of the pair `(20, 21)`, and `20^2 + 21^2 = 841 = (30 - 1)^2` is not
above `(r - 1)^2`; for `r = 59` the pair `(41, 41)` has
`41^2 + 41^2 = 3362 < 3364 = (59 - 1)^2`.  The recurrence that updates the
decision value before it increments `a` yields neither pair, and all its
pairs for these two radii are above `(r - 1)^2`. -/
theorem Draw_Circle_offset_inside_inner_circle :
    ((20 : Int), (21 : Int)) ∈ Draw_Circle.offsets 30 ∧
    ¬ ((20 : Int) ^ 2 + (21 : Int) ^ 2 > ((30 : Int) - 1) ^ 2) ∧
    ((41 : Int), (41 : Int)) ∈ Draw_Circle.offsets 59 ∧
    ¬ ((41 : Int) ^ 2 + (41 : Int) ^ 2 > ((59 : Int) - 1) ^ 2) ∧
    (∀ ab ∈ recurrenceUpdateFirst (30 + 1) 0 30 (3 - 2 * 30),
      ab.1 ^ 2 + ab.2 ^ 2 > ((30 : Int) - 1) ^ 2) ∧
    (∀ ab ∈ recurrenceUpdateFirst (59 + 1) 0 59 (3 - 2 * 59),
      ab.1 ^ 2 + ab.2 ^ 2 > ((59 : Int) - 1) ^ 2) := by
  decide

/-- How far the loop of `Draw_Circle` strays: for every radius `r` and
every pair `(a, b)` for which it stores points, `0 <= a <= b <= r` and
`a^2 + b^2 < (r+1)^2`; when `r >= 2` also `4 (a^2 + b^2) > (2r - 3)^2` and
hence `a^2 + b^2 > (r-2)^2`, so the pixels lie less than one pixel outside
and less than one and a half pixels inside the ideal circle.  The bound
`a^2 + b^2 > (r-1)^2` of one pixel inside holds for the radii 1..29. -/
theorem Draw_Circle_offsets_near_circle (r : Nat) :
    ∀ ab ∈ Draw_Circle.offsets r,
      0 ≤ ab.1 ∧ ab.1 ≤ ab.2 ∧ ab.2 ≤ (r : Int) ∧
      ab.1 ^ 2 + ab.2 ^ 2 < ((r : Int) + 1) ^ 2 ∧
      (2 ≤ r → 4 * (ab.1 ^ 2 + ab.2 ^ 2) > (2 * (r : Int) - 3) ^ 2 ∧
        ab.1 ^ 2 + ab.2 ^ 2 > ((r : Int) - 2) ^ 2) ∧
      (1 ≤ r → r ≤ 29 → ab.1 ^ 2 + ab.2 ^ 2 > ((r : Int) - 1) ^ 2) := by
  intro ab hab
  obtain ⟨h0, h1, h2⟩ := circleOffsets_bounds (r : Int) (r + 1) 0 r (3 - 2 * (r : Int))
    (le_refl _) (le_refl _) ab hab
  refine ⟨h0, h1, h2, ?_⟩
  simp only [pow_two]
  by_cases hsmall : r < 30
  · obtain ⟨s1, s2, s3⟩ := circle_offsets_small r hsmall ab hab
    exact ⟨s1, s2, fun h _ => s3 h⟩
  · obtain ⟨hup, hlo⟩ := circleOffsets_excess (r : Int) (r + 1) 0 r (3 - 2 * (r : Int))
      (le_refl _) (by omega) (by ring) (by ring_nf; omega) (by ring_nf; omega) ab hab
    generalize ab.1 = a at *
    generalize ab.2 = b at *
    have hr : (30 : Int) ≤ r := by omega
    have e1 : ((r : Int) + 1) * ((r : Int) + 1) = (r : Int) * r + 2 * r + 1 := by ring
    have e2 : (2 * (r : Int) - 3) * (2 * (r : Int) - 3) = 4 * ((r : Int) * r) - 12 * r + 9 := by
      ring
    have e3 : ((r : Int) - 2) * ((r : Int) - 2) = (r : Int) * r - 4 * r + 4 := by ring
    have hkey : -3 * (r : Int) + 3 ≤ a * a + b * b - (r : Int) * r := by
      by_cases hb : b ≤ (r : Int) - 1
      · omega
      · have hbr : b = r := by omega
        have hbb : b * b = (r : Int) * r := by rw [hbr]
        have ha2 : a * a ≤ (r : Int) + 1 := by omega
        have hale : a ≤ (r : Int) - 2 := by
          by_contra hcon
          have g1 : (r : Int) - 1 ≤ a := by omega
          have g2 : ((r : Int) - 1) * ((r : Int) - 1) ≤ a * a :=
            mul_le_mul g1 g1 (by omega) (by omega)
          have g3 : 4 * (r : Int) ≤ (r : Int) * r :=
            mul_le_mul (by omega) (le_refl _) (by omega) (by omega)
          have g4 : ((r : Int) - 1) * ((r : Int) - 1) = (r : Int) * r - 2 * r + 1 := by ring
          omega
        omega
    refine ⟨by rw [e1]; omega, fun _ => ⟨by rw [e2]; omega, by rw [e3]; omega⟩, ?_⟩
    intro _ h29
    omega

/-! ## `LCD_DrawLine`: the fast path against the collecting loop -/

end ST7789
